import Mathlib

/-!
# Traeky transaction-ledger core: a shallow embedding

This file embeds the transaction-ledger core of the Traeky repository
(`src/data/dataSource.ts` together with the id counter of
`src/auth/profileStore.ts`) in Lean and proves the testable properties of its
specification against that embedding.

Modelling conventions:
* JavaScript numbers are modelled as rationals (`ℚ`).  Because the kernel does
  not reduce the built-in `Rat` arithmetic, all arithmetic used by the
  embedding goes through kernel-reducible wrappers (`jadd`, `jmul`, …) defined
  via `mkRat`, with bridge lemmas to the ordinary operations.
* `null`/`undefined` fields are modelled with `Option`.
* In-place mutation of the transaction array is modelled by positional updates
  (`List.set`); a JS `Map` built by `buildTxIndex` resolves an id to the last
  array entry carrying it, which `txIndexGet` mirrors.
* Host functions that are external to the repository (ECMAScript `Date`
  parsing, the asset catalog) are passed as parameters to the functions that
  consume them.
-/

namespace Traeky

/-! ## Kernel-reducible rational arithmetic -/

/-- Negation of a JS number. -/
def jneg (a : ℚ) : ℚ := mkRat (-a.num) a.den

/-- Addition of two JS numbers. -/
def jadd (a b : ℚ) : ℚ := mkRat (a.num * (b.den : Int) + b.num * (a.den : Int)) (a.den * b.den)

/-- Subtraction of two JS numbers. -/
def jsub (a b : ℚ) : ℚ := mkRat (a.num * (b.den : Int) - b.num * (a.den : Int)) (a.den * b.den)

/-- Multiplication of two JS numbers. -/
def jmul (a b : ℚ) : ℚ := mkRat (a.num * b.num) (a.den * b.den)

/-- `a < b` on JS numbers, kernel-reducible. -/
def jlt (a b : ℚ) : Bool := a.num * (b.den : Int) < b.num * (a.den : Int)

/-- `a ≤ b` on JS numbers, kernel-reducible. -/
def jle (a b : ℚ) : Bool := a.num * (b.den : Int) ≤ b.num * (a.den : Int)

/-- `Math.abs`. -/
def jabs (a : ℚ) : ℚ := if a.num < 0 then jneg a else a

theorem jneg_eq (a : ℚ) : jneg a = -a := by
  rw [jneg, Rat.mkRat_eq_divInt, ← Rat.neg_divInt, Rat.num_divInt_den]

theorem jadd_eq (a b : ℚ) : jadd a b = a + b := (Rat.add_def' a b).symm

theorem jsub_eq (a b : ℚ) : jsub a b = a - b := (Rat.sub_def' a b).symm

theorem jmul_eq (a b : ℚ) : jmul a b = a * b := by
  rw [jmul, Rat.mul_def, Rat.normalize_eq_mkRat]

theorem jlt_iff (a b : ℚ) : jlt a b = true ↔ a < b := by
  simp [jlt, Rat.lt_def]

theorem jle_iff (a b : ℚ) : jle a b = true ↔ a ≤ b := by
  simp [jle, Rat.le_def]

theorem jabs_eq (a : ℚ) : jabs a = |a| := by
  unfold jabs
  rcases lt_trichotomy a 0 with h | h | h
  · rw [if_pos, jneg_eq, abs_of_neg h]
    exact Rat.num_neg.mpr h
  · subst h; simp [jneg_eq]
  · rw [if_neg, abs_of_pos h]
    simp only [not_lt]
    exact le_of_lt (Rat.num_pos.mpr h)

/-! ## The Transaction record

Mirrors the `Transaction` shape used throughout `dataSource.ts`. -/

structure Txn where
  id : Int
  asset_symbol : String
  tx_type : String
  amount : ℚ
  price_fiat : Option ℚ
  fiat_currency : String
  timestamp : String
  source : Option String
  note : Option String
  tx_id : Option String
  fiat_value : Option ℚ
  value_eur : Option ℚ
  value_usd : Option ℚ
  linked_tx_prev_id : Option Int
  linked_tx_next_id : Option Int
deriving DecidableEq, Repr, Inhabited

/-! ## Link-graph helpers (`sanitizeLinkedTxId`, `buildTxIndex`) -/

/-- `sanitizeLinkedTxId` from `dataSource.ts`: a candidate that is not a
finite number becomes `null` (modelled by the `Option`); `Math.trunc` is the
identity on integers; non-positive values become `null`. -/
def sanitizeLinkedTxId (candidate : Option Int) : Option Int :=
  match candidate with
  | none => none
  | some v => if 0 < v then some v else none

/-- Position lookup for the JS `Map` built by `buildTxIndex`: `Map.set` makes
the last entry with a given id win.  Ids are never mutated by the normalizer,
so looking the index up in the current list is equivalent to the map built
up-front. -/
def txIndexGet : List Txn → Int → Option Nat
  | [], _ => none
  | tx :: rest, k =>
      match txIndexGet rest k with
      | some j => some (j + 1)
      | none => if tx.id = k then some 0 else none

/-- `map.has k` for the id index. -/
def hasId (items : List Txn) (k : Int) : Bool :=
  items.any (fun tx => tx.id == k)

/-- Positional read (all accesses are in range). -/
def getTx (items : List Txn) (i : Nat) : Txn := items.getD i default

/-! ## `normalizeLinkedTransactionGraph`

The four in-place passes of `normalizeLinkedTransactionGraph`
(`dataSource.ts`, lines 247–366), on a state `List Txn × Bool` where the
boolean is the `changed` flag. -/

/-- The `detachPrev` closure. -/
def detachPrev (s : List Txn × Bool) (txId expectedPrev : Int) : List Txn × Bool :=
  match txIndexGet s.1 txId with
  | none => s
  | some j =>
      let tx := getTx s.1 j
      if tx.linked_tx_prev_id = some expectedPrev then
        (s.1.set j { tx with linked_tx_prev_id := none }, true)
      else s

/-- The `detachNext` closure. -/
def detachNext (s : List Txn × Bool) (txId expectedNext : Int) : List Txn × Bool :=
  match txIndexGet s.1 txId with
  | none => s
  | some j =>
      let tx := getTx s.1 j
      if tx.linked_tx_next_id = some expectedNext then
        (s.1.set j { tx with linked_tx_next_id := none }, true)
      else s

/-- Pass 1 (sanitize + drop dangling pointers) for the entry at position `i`. -/
def pass1Step (s : List Txn × Bool) (i : Nat) : List Txn × Bool :=
  let items := s.1
  let tx := getTx items i
  let prevS := sanitizeLinkedTxId tx.linked_tx_prev_id
  let nextS := sanitizeLinkedTxId tx.linked_tx_next_id
  let c1 : Bool := s.2 || decide (tx.linked_tx_prev_id ≠ prevS) ||
    decide (tx.linked_tx_next_id ≠ nextS)
  let pr : Option Int × Bool :=
    match prevS with
    | some p => if hasId items p then (some p, c1) else (none, true)
    | none => (none, c1)
  let nx : Option Int × Bool :=
    match nextS with
    | some n => if hasId items n then (some n, pr.2) else (none, true)
    | none => (none, pr.2)
  (items.set i { tx with linked_tx_prev_id := pr.1, linked_tx_next_id := nx.1 }, nx.2)

/-- Pass 2, forward-link block for `linked_tx_prev_id` of the entry at `i`. -/
def pass2Prev (s : List Txn × Bool) (i : Nat) : List Txn × Bool :=
  let tx := getTx s.1 i
  let txId := tx.id
  match tx.linked_tx_prev_id with
  | none => s
  | some prevId =>
      match txIndexGet s.1 prevId with
      | none => s
      | some pj =>
          let prevTx := getTx s.1 pj
          let s1 :=
            match sanitizeLinkedTxId prevTx.linked_tx_next_id with
            | some d => if d ≠ txId then detachPrev s d prevId else s
            | none => s
          let prevTx1 := getTx s1.1 pj
          if prevTx1.linked_tx_next_id ≠ some txId then
            (s1.1.set pj { prevTx1 with linked_tx_next_id := some txId }, true)
          else s1

/-- Pass 2, forward-link block for `linked_tx_next_id` of the entry at `i`. -/
def pass2Next (s : List Txn × Bool) (i : Nat) : List Txn × Bool :=
  let tx := getTx s.1 i
  let txId := tx.id
  match tx.linked_tx_next_id with
  | none => s
  | some nextId =>
      match txIndexGet s.1 nextId with
      | none => s
      | some nj =>
          let nextTx := getTx s.1 nj
          let s1 :=
            match sanitizeLinkedTxId nextTx.linked_tx_prev_id with
            | some d => if d ≠ txId then detachNext s d nextId else s
            | none => s
          let nextTx1 := getTx s1.1 nj
          if nextTx1.linked_tx_prev_id ≠ some txId then
            (s1.1.set nj { nextTx1 with linked_tx_prev_id := some txId }, true)
          else s1

/-- Pass 2 for the entry at position `i` (skipped when `!txId`). -/
def pass2Step (s : List Txn × Bool) (i : Nat) : List Txn × Bool :=
  if (getTx s.1 i).id = 0 then s
  else pass2Next (pass2Prev s i) i

/-- Pass 3 (detach one-way pointers) for the entry at position `i`. -/
def pass3Step (s : List Txn × Bool) (i : Nat) : List Txn × Bool :=
  let tx := getTx s.1 i
  if tx.id = 0 then s
  else
    let s1 :=
      match sanitizeLinkedTxId tx.linked_tx_prev_id with
      | none => s
      | some prevId =>
          let ok : Bool :=
            match txIndexGet s.1 prevId with
            | none => false
            | some pj => (getTx s.1 pj).linked_tx_next_id == some tx.id
          if ok then s else (s.1.set i { tx with linked_tx_prev_id := none }, true)
    let tx1 := getTx s1.1 i
    match sanitizeLinkedTxId tx1.linked_tx_next_id with
    | none => s1
    | some nextId =>
        let ok : Bool :=
          match txIndexGet s1.1 nextId with
          | none => false
          | some nj => (getTx s1.1 nj).linked_tx_prev_id == some tx1.id
        if ok then s1 else (s1.1.set i { tx1 with linked_tx_next_id := none }, true)

/-- Pass 4 (degenerate `prev == next` guard) for the entry at position `i`. -/
def pass4Step (s : List Txn × Bool) (i : Nat) : List Txn × Bool :=
  let tx := getTx s.1 i
  if tx.linked_tx_prev_id ≠ none ∧ tx.linked_tx_prev_id = tx.linked_tx_next_id then
    (s.1.set i { tx with linked_tx_prev_id := none, linked_tx_next_id := none }, true)
  else s

/-- `normalizeLinkedTransactionGraph` (`dataSource.ts`, lines 247–366): the
four passes over the whole list; returns the repaired list together with the
`changed` flag. -/
def normalizeLinkedTransactionGraph (items : List Txn) : List Txn × Bool :=
  let idx := List.range items.length
  let s1 := idx.foldl pass1Step (items, false)
  let s2 := idx.foldl pass2Step s1
  let s3 := idx.foldl pass3Step s2
  idx.foldl pass4Step s3

/-! ## Infrastructure: positional reads and writes -/

theorem getTx_eq_getElem {items : List Txn} {i : Nat} (h : i < items.length) :
    getTx items i = items[i] := by
  rw [getTx, List.getD_eq_getElem?_getD, List.getElem?_eq_getElem h]
  rfl

theorem getTx_set_self {items : List Txn} {i : Nat} (h : i < items.length) (a : Txn) :
    getTx (items.set i a) i = a := by
  rw [getTx, List.getD_eq_getElem?_getD, List.getElem?_set_self h]
  rfl

theorem getTx_set_ne {items : List Txn} {i j : Nat} (h : i ≠ j) (a : Txn) :
    getTx (items.set i a) j = getTx items j := by
  rw [getTx, List.getD_eq_getElem?_getD, List.getElem?_set_ne h, getTx,
    List.getD_eq_getElem?_getD]

theorem set_getTx_self {items : List Txn} {i : Nat} (h : i < items.length) :
    items.set i (getTx items i) = items := by
  apply List.ext_getElem?
  intro j
  rw [List.getElem?_set]
  by_cases hij : i = j
  · subst hij
    simp [getTx_eq_getElem h, h, List.getElem?_eq_getElem h]
  · simp [hij]

theorem getTx_mem {items : List Txn} {i : Nat} (h : i < items.length) :
    getTx items i ∈ items := by
  rw [getTx_eq_getElem h]
  exact List.getElem_mem h

/-! ## Infrastructure: the id index -/

theorem txIndexGet_lt {items : List Txn} {k : Int} {j : Nat}
    (h : txIndexGet items k = some j) : j < items.length := by
  induction items generalizing j with
  | nil => simp [txIndexGet] at h
  | cons tx rest ih =>
      rw [txIndexGet] at h
      simp only [List.length_cons]
      rcases hr : txIndexGet rest k with _ | j'
      · rw [hr] at h
        by_cases hid : tx.id = k
        · simp [hid] at h
          omega
        · simp [hid] at h
      · rw [hr] at h
        simp at h
        have := ih hr
        omega

theorem txIndexGet_id {items : List Txn} {k : Int} {j : Nat}
    (h : txIndexGet items k = some j) : (getTx items j).id = k := by
  induction items generalizing j with
  | nil => simp [txIndexGet] at h
  | cons tx rest ih =>
      rw [txIndexGet] at h
      rcases hr : txIndexGet rest k with _ | j'
      · rw [hr] at h
        by_cases hid : tx.id = k
        · simp [hid] at h
          subst h
          simpa [getTx] using hid
        · simp [hid] at h
      · rw [hr] at h
        simp at h
        subst h
        have := ih hr
        simpa [getTx, List.getD_cons_succ] using this

theorem txIndexGet_isSome_of_mem {items : List Txn} {k : Int}
    (h : ∃ u ∈ items, u.id = k) : ∃ j, txIndexGet items k = some j := by
  induction items with
  | nil => simp at h
  | cons tx rest ih =>
      rw [txIndexGet]
      rcases hr : txIndexGet rest k with _ | j'
      · obtain ⟨u, hu, hid⟩ := h
        rcases List.mem_cons.mp hu with huh | hut
        · subst huh
          simp [hid]
        · obtain ⟨j, hj⟩ := ih ⟨u, hut, hid⟩
          rw [hj] at hr
          cases hr
      · exact ⟨j' + 1, rfl⟩

/-- With pairwise-distinct ids, the index finds exactly the position that
carries the id. -/
theorem txIndexGet_eq_of_nodup {items : List Txn} {j : Nat}
    (hnd : (items.map Txn.id).Nodup) (hj : j < items.length) :
    txIndexGet items (getTx items j).id = some j := by
  have hmem : ∃ u ∈ items, u.id = (getTx items j).id :=
    ⟨getTx items j, getTx_mem hj, rfl⟩
  obtain ⟨j', hj'⟩ := txIndexGet_isSome_of_mem hmem
  have hid' : (getTx items j').id = (getTx items j).id := txIndexGet_id hj'
  have hlt' : j' < items.length := txIndexGet_lt hj'
  have hlen' : j' < (items.map Txn.id).length := by simpa using hlt'
  have hlen : j < (items.map Txn.id).length := by simpa using hj
  have h1 : (items.map Txn.id)[j'] = (getTx items j').id := by
    simp [getTx_eq_getElem hlt']
  have h2 : (items.map Txn.id)[j] = (getTx items j).id := by
    simp [getTx_eq_getElem hj]
  have heq : j' = j := by
    apply (List.Nodup.getElem_inj_iff hnd).mp
    rw [h1, h2, hid']
  subst heq
  exact hj'

/-! ## The link-graph invariants -/

/-- All transaction ids are positive. -/
def PosIds (items : List Txn) : Prop := ∀ tx ∈ items, 0 < tx.id

/-- Transaction ids are pairwise distinct. -/
def NodupIds (items : List Txn) : Prop := (items.map Txn.id).Nodup

/-- A link pointer is well-formed: absent, or a positive id carried by some
transaction of the collection. -/
def wfPtr (items : List Txn) (o : Option Int) : Prop :=
  ∀ p, o = some p → 0 < p ∧ ∃ u ∈ items, u.id = p

/-- Every pointer of every transaction is well-formed (sanitized and
non-dangling). -/
def WF (items : List Txn) : Prop :=
  ∀ tx ∈ items, wfPtr items tx.linked_tx_prev_id ∧ wfPtr items tx.linked_tx_next_id

/-- Bidirectional symmetry of the link graph. -/
def Sym (items : List Txn) : Prop :=
  ∀ a ∈ items, ∀ b ∈ items,
    (a.linked_tx_prev_id = some b.id → b.linked_tx_next_id = some a.id) ∧
    (a.linked_tx_next_id = some b.id → b.linked_tx_prev_id = some a.id)

/-- No transaction has `prev == next` with both non-null. -/
def NoDeg (items : List Txn) : Prop :=
  ∀ a ∈ items, a.linked_tx_prev_id = none ∨ a.linked_tx_prev_id ≠ a.linked_tx_next_id

/-- The full at-rest invariant of the link graph. -/
def LinkInv (items : List Txn) : Prop := WF items ∧ Sym items ∧ NoDeg items

theorem no_self_ref_of_inv {items : List Txn} (h : LinkInv items) :
    ∀ a ∈ items, a.linked_tx_prev_id ≠ some a.id ∧ a.linked_tx_next_id ≠ some a.id := by
  obtain ⟨_, hsym, hdeg⟩ := h
  intro a ha
  constructor
  · intro hp
    have hnx := ((hsym a ha a ha).1 hp)
    rcases hdeg a ha with h0 | h0
    · rw [h0] at hp; cases hp
    · exact h0 (hp.trans hnx.symm)
  · intro hn
    have hpv := ((hsym a ha a ha).2 hn)
    rcases hdeg a ha with h0 | h0
    · rw [h0] at hpv; cases hpv
    · exact h0 (hpv.trans hn.symm)

/-! ## Stability: a collection satisfying the invariant is a fixed point -/

theorem sanitize_eq_of_wf {items : List Txn} {o : Option Int} (h : wfPtr items o) :
    sanitizeLinkedTxId o = o := by
  cases o with
  | none => rfl
  | some p =>
      have := (h p rfl).1
      simp [sanitizeLinkedTxId, this]

theorem hasId_true_of_mem {items : List Txn} {p : Int} (h : ∃ u ∈ items, u.id = p) :
    hasId items p = true := by
  obtain ⟨u, hu, hup⟩ := h
  simp only [hasId, List.any_eq_true]
  exact ⟨u, hu, by simp [hup]⟩

theorem pass1Step_fix {items : List Txn} {i : Nat} {c : Bool}
    (hInv : LinkInv items) (hi : i < items.length) :
    pass1Step (items, c) i = (items, c) := by
  have htx := getTx_mem hi
  obtain ⟨hwf, _, _⟩ := hInv
  obtain ⟨hp, hn⟩ := hwf (getTx items i) htx
  have harg : ({ getTx items i with
      linked_tx_prev_id := (getTx items i).linked_tx_prev_id,
      linked_tx_next_id := (getTx items i).linked_tx_next_id } : Txn) = getTx items i := rfl
  rcases hpv : (getTx items i).linked_tx_prev_id with _ | p <;>
    rcases hnv : (getTx items i).linked_tx_next_id with _ | n <;>
    rw [hpv, hnv] at harg
  · simp only [pass1Step, hpv, hnv, sanitizeLinkedTxId, ne_eq, not_true_eq_false,
      decide_False, Bool.or_false]
    rw [harg, set_getTx_self hi]
  · have hn0 : 0 < n := (hn n hnv).1
    simp only [pass1Step, hpv, hnv, sanitizeLinkedTxId, if_pos hn0, ne_eq, not_true_eq_false,
      decide_False, Bool.or_false, hasId_true_of_mem (hn n hnv).2, if_true]
    rw [harg, set_getTx_self hi]
  · have hp0 : 0 < p := (hp p hpv).1
    simp only [pass1Step, hpv, hnv, sanitizeLinkedTxId, if_pos hp0, ne_eq, not_true_eq_false,
      decide_False, Bool.or_false, hasId_true_of_mem (hp p hpv).2, if_true]
    rw [harg, set_getTx_self hi]
  · have hp0 : 0 < p := (hp p hpv).1
    have hn0 : 0 < n := (hn n hnv).1
    simp only [pass1Step, hpv, hnv, sanitizeLinkedTxId, if_pos hp0, if_pos hn0, ne_eq,
      not_true_eq_false, decide_False, Bool.or_false,
      hasId_true_of_mem (hp p hpv).2, hasId_true_of_mem (hn n hnv).2, if_true]
    rw [harg, set_getTx_self hi]

theorem pass2Prev_fix {items : List Txn} {i : Nat} {c : Bool}
    (hInv : LinkInv items) (hpos : PosIds items) (hi : i < items.length) :
    pass2Prev (items, c) i = (items, c) := by
  have htx := getTx_mem hi
  obtain ⟨hwf, hsym, _⟩ := hInv
  simp only [pass2Prev]
  rcases hpv : (getTx items i).linked_tx_prev_id with _ | P
  · rfl
  · simp only
    obtain ⟨jp, hjp⟩ := txIndexGet_isSome_of_mem (((hwf _ htx).1 P hpv).2)
    rw [hjp]
    simp only
    have hbmem := getTx_mem (txIndexGet_lt hjp)
    have hbid : (getTx items jp).id = P := txIndexGet_id hjp
    have hbnext : (getTx items jp).linked_tx_next_id = some (getTx items i).id :=
      (hsym (getTx items i) htx (getTx items jp) hbmem).1 (by rw [hpv, hbid])
    have hidpos : 0 < (getTx items i).id := hpos _ htx
    have hsan : sanitizeLinkedTxId (getTx items jp).linked_tx_next_id
        = some (getTx items i).id := by
      rw [hbnext]
      simp [sanitizeLinkedTxId, hidpos]
    rw [hsan]
    simp [hbnext]

theorem pass2Next_fix {items : List Txn} {i : Nat} {c : Bool}
    (hInv : LinkInv items) (hpos : PosIds items) (hi : i < items.length) :
    pass2Next (items, c) i = (items, c) := by
  have htx := getTx_mem hi
  obtain ⟨hwf, hsym, _⟩ := hInv
  simp only [pass2Next]
  rcases hnv : (getTx items i).linked_tx_next_id with _ | N
  · rfl
  · simp only
    obtain ⟨jn, hjn⟩ := txIndexGet_isSome_of_mem (((hwf _ htx).2 N hnv).2)
    rw [hjn]
    simp only
    have hbmem := getTx_mem (txIndexGet_lt hjn)
    have hbid : (getTx items jn).id = N := txIndexGet_id hjn
    have hbprev : (getTx items jn).linked_tx_prev_id = some (getTx items i).id :=
      (hsym (getTx items i) htx (getTx items jn) hbmem).2 (by rw [hnv, hbid])
    have hidpos : 0 < (getTx items i).id := hpos _ htx
    have hsan : sanitizeLinkedTxId (getTx items jn).linked_tx_prev_id
        = some (getTx items i).id := by
      rw [hbprev]
      simp [sanitizeLinkedTxId, hidpos]
    rw [hsan]
    simp [hbprev]

theorem pass2Step_fix {items : List Txn} {i : Nat} {c : Bool}
    (hInv : LinkInv items) (hpos : PosIds items) (hi : i < items.length) :
    pass2Step (items, c) i = (items, c) := by
  have hid : (getTx items i).id ≠ 0 := by
    have := hpos _ (getTx_mem hi)
    omega
  simp only [pass2Step, if_neg hid]
  rw [pass2Prev_fix hInv hpos hi, pass2Next_fix hInv hpos hi]

theorem pass3Step_fix {items : List Txn} {i : Nat} {c : Bool}
    (hInv : LinkInv items) (hpos : PosIds items) (hi : i < items.length) :
    pass3Step (items, c) i = (items, c) := by
  have htx := getTx_mem hi
  obtain ⟨hwf, hsym, _⟩ := hInv
  have hid : (getTx items i).id ≠ 0 := by
    have := hpos _ htx
    omega
  have hps := sanitize_eq_of_wf ((hwf _ htx).1)
  have hns := sanitize_eq_of_wf ((hwf _ htx).2)
  simp only [pass3Step, if_neg hid, hps, hns]
  have hfirst :
      (match (getTx items i).linked_tx_prev_id with
        | none => ((items, c) : List Txn × Bool)
        | some prevId =>
            let ok : Bool :=
              match txIndexGet items prevId with
              | none => false
              | some pj => (getTx items pj).linked_tx_next_id == some (getTx items i).id
            if ok then (items, c)
            else (items.set i { getTx items i with linked_tx_prev_id := none }, true)) =
        (items, c) := by
    rcases hpv : (getTx items i).linked_tx_prev_id with _ | P
    · rfl
    · simp only
      obtain ⟨jp, hjp⟩ := txIndexGet_isSome_of_mem (((hwf _ htx).1 P hpv).2)
      rw [hjp]
      have hbmem := getTx_mem (txIndexGet_lt hjp)
      have hbid : (getTx items jp).id = P := txIndexGet_id hjp
      have hbnext : (getTx items jp).linked_tx_next_id = some (getTx items i).id :=
        (hsym (getTx items i) htx (getTx items jp) hbmem).1 (by rw [hpv, hbid])
      simp [hbnext]
  rw [hfirst]
  rcases hnv : (getTx items i).linked_tx_next_id with _ | N
  · rfl
  · obtain ⟨jn, hjn⟩ := txIndexGet_isSome_of_mem (((hwf _ htx).2 N hnv).2)
    have hN0 : 0 < N := ((hwf _ htx).2 N hnv).1
    have hbmem := getTx_mem (txIndexGet_lt hjn)
    have hbid : (getTx items jn).id = N := txIndexGet_id hjn
    have hbprev : (getTx items jn).linked_tx_prev_id = some (getTx items i).id :=
      (hsym (getTx items i) htx (getTx items jn) hbmem).2 (by rw [hnv, hbid])
    simp only [sanitizeLinkedTxId, if_pos hN0]
    rw [hjn]
    simp [hbprev]

theorem pass4Step_fix {items : List Txn} {i : Nat} {c : Bool}
    (hInv : LinkInv items) (hi : i < items.length) :
    pass4Step (items, c) i = (items, c) := by
  have htx := getTx_mem hi
  obtain ⟨_, _, hdeg⟩ := hInv
  simp only [pass4Step]
  rcases hdeg (getTx items i) htx with h0 | h0
  · rw [if_neg]
    rintro ⟨hne, _⟩
    exact hne h0
  · rw [if_neg]
    rintro ⟨_, heq⟩
    exact h0 heq

theorem foldl_range_fix {f : (List Txn × Bool) → Nat → (List Txn × Bool)}
    {s : List Txn × Bool} {n : Nat} (h : ∀ i, i < n → f s i = s) :
    (List.range n).foldl f s = s := by
  induction n with
  | zero => rfl
  | succ m ih =>
      rw [List.range_succ, List.foldl_append]
      rw [ih (fun i hi => h i (Nat.lt_succ_of_lt hi))]
      simpa using h m (Nat.lt_succ_self m)

/-- A collection satisfying the link invariant (with distinct positive ids)
is left untouched by the normalizer, which reports `changed = false`. -/
theorem normalize_fix_of_inv {items : List Txn}
    (hInv : LinkInv items) (hpos : PosIds items) :
    normalizeLinkedTransactionGraph items = (items, false) := by
  show (List.range items.length).foldl pass4Step
    ((List.range items.length).foldl pass3Step
      ((List.range items.length).foldl pass2Step
        ((List.range items.length).foldl pass1Step (items, false)))) = (items, false)
  rw [foldl_range_fix (fun i hi => pass1Step_fix hInv hi),
    foldl_range_fix (fun i hi => pass2Step_fix hInv hpos hi),
    foldl_range_fix (fun i hi => pass3Step_fix hInv hpos hi),
    foldl_range_fix (fun i hi => pass4Step_fix hInv hi)]

/-! ## Soundness: the normalizer establishes the invariant

Throughout the passes, the entries' ids and non-link fields never change; we
track this with `LinkUpd`, the reflexive-transitive closure of positional
link-field updates. -/

/-- `tx` with both link fields replaced. -/
def setLinks (tx : Txn) (p n : Option Int) : Txn :=
  { tx with linked_tx_prev_id := p, linked_tx_next_id := n }

/-- `l'` arises from `l` by a sequence of in-place link-field writes. -/
inductive LinkUpd : List Txn → List Txn → Prop
  | refl (l : List Txn) : LinkUpd l l
  | set {l l' : List Txn} (h : LinkUpd l l') (j : Nat) (p n : Option Int) :
      LinkUpd l (l'.set j (setLinks (getTx l' j) p n))

theorem LinkUpd.trans {a b c : List Txn} (h1 : LinkUpd a b) (h2 : LinkUpd b c) :
    LinkUpd a c := by
  induction h2 with
  | refl => exact h1
  | set h j p n ih => exact LinkUpd.set ih j p n

theorem set_self_getD {α : Type _} [Inhabited α] {l : List α} {i : Nat} :
    l.set i (l.getD i default) = l := by
  by_cases h : i < l.length
  · apply List.ext_getElem?
    intro j
    rw [List.getElem?_set]
    by_cases hij : i = j
    · subst hij
      simp [h, List.getD_eq_getElem?_getD, List.getElem?_eq_getElem h]
    · simp [hij]
  · rw [List.set_eq_of_length_le (Nat.le_of_not_lt h)]

/-- Mapping a function that ignores the link fields is invariant under
`LinkUpd`. -/
theorem LinkUpd.map_eq {f : Txn → α} [Inhabited α]
    (hf : ∀ tx p n, f (setLinks tx p n) = f tx)
    (hd : f default = default)
    {l l' : List Txn} (h : LinkUpd l l') : l'.map f = l.map f := by
  induction h with
  | refl => rfl
  | @set l' h j p n ih =>
      rw [List.map_set, hf]
      have : f (getTx l' j) = (l'.map f).getD j default := by
        rw [getTx]
        by_cases hj : j < l'.length
        · rw [List.getD_eq_getElem?_getD, List.getElem?_eq_getElem hj,
            List.getD_eq_getElem?_getD, List.getElem?_map, List.getElem?_eq_getElem hj]
          rfl
        · rw [List.getD_eq_getElem?_getD, List.getElem?_eq_none (Nat.le_of_not_lt hj),
            List.getD_eq_getElem?_getD, List.getElem?_eq_none]
          · simpa using hd
          · simpa using Nat.le_of_not_lt hj
      rw [this, set_self_getD, ih]

theorem LinkUpd.length_eq {l l' : List Txn} (h : LinkUpd l l') :
    l'.length = l.length := by
  induction h with
  | refl => rfl
  | set h j p n ih => rw [List.length_set, ih]

theorem LinkUpd.ids_eq {l l' : List Txn} (h : LinkUpd l l') :
    l'.map Txn.id = l.map Txn.id :=
  LinkUpd.map_eq (f := Txn.id) (fun _ _ _ => rfl) rfl h

/-- Mapping any function that ignores the link fields is invariant under
`LinkUpd` (no condition on `default`). -/
theorem LinkUpd.map_link_free {α : Type _} {f : Txn → α}
    (hf : ∀ tx p n, f (setLinks tx p n) = f tx)
    {l l' : List Txn} (h : LinkUpd l l') : l'.map f = l.map f := by
  induction h with
  | refl => rfl
  | @set m hm j p n ih =>
    by_cases hj : j < m.length
    · rw [List.map_set, hf, ← ih]
      apply List.ext_getElem?
      intro k
      rw [List.getElem?_set]
      by_cases hk : j = k
      · subst hk
        have hj' : j < (m.map f).length := by simpa using hj
        rw [if_pos rfl, if_pos hj', List.getElem?_eq_getElem hj']
        rw [List.getElem_map, getTx_eq_getElem hj]
      · rw [if_neg hk]
    · have hno : m.set j (setLinks (getTx m j) p n) = m :=
        List.set_eq_of_length_le (Nat.le_of_not_lt hj)
      rw [hno, ih]

/-- `txIndexGet` depends only on the ids. -/
theorem txIndexGet_congr {l l' : List Txn} (h : l.map Txn.id = l'.map Txn.id) (k : Int) :
    txIndexGet l k = txIndexGet l' k := by
  induction l generalizing l' with
  | nil =>
      cases l' with
      | nil => rfl
      | cons b bs => simp at h
  | cons a as ih =>
      cases l' with
      | nil => simp at h
      | cons b bs =>
          simp only [List.map_cons, List.cons.injEq] at h
          rw [txIndexGet, txIndexGet, ih h.2, h.1]

/-- `hasId` depends only on the ids. -/
theorem hasId_congr {l l' : List Txn} (h : l.map Txn.id = l'.map Txn.id) (k : Int) :
    hasId l k = hasId l' k := by
  have : ∀ m : List Txn, hasId m k = (m.map Txn.id).any (fun i => i == k) := by
    intro m
    induction m with
    | nil => rfl
    | cons a as ihm => simp [hasId, List.any_cons, ← ihm, hasId]
  rw [this, this, h]

/-- Membership of an id depends only on the ids. -/
theorem exists_id_congr {l l' : List Txn} (h : l.map Txn.id = l'.map Txn.id) (k : Int) :
    (∃ u ∈ l, u.id = k) ↔ ∃ u ∈ l', u.id = k := by
  constructor <;> intro ⟨u, hu, hk⟩
  · have : k ∈ l'.map Txn.id := by
      rw [← h]
      exact List.mem_map.mpr ⟨u, hu, hk⟩
    obtain ⟨v, hv, hvk⟩ := List.mem_map.mp this
    exact ⟨v, hv, hvk⟩
  · have : k ∈ l.map Txn.id := by
      rw [h]
      exact List.mem_map.mpr ⟨u, hu, hk⟩
    obtain ⟨v, hv, hvk⟩ := List.mem_map.mp this
    exact ⟨v, hv, hvk⟩

/-! ### Every pass only performs link-field writes -/

theorem detachPrev_linkUpd (s : List Txn × Bool) (a b : Int) :
    LinkUpd s.1 (detachPrev s a b).1 := by
  simp only [detachPrev]
  rcases h : txIndexGet s.1 a with _ | j
  · exact .refl _
  · simp only
    by_cases hc : (getTx s.1 j).linked_tx_prev_id = some b
    · rw [if_pos hc]
      exact .set (.refl _) j none (getTx s.1 j).linked_tx_next_id
    · rw [if_neg hc]
      exact .refl _

theorem detachNext_linkUpd (s : List Txn × Bool) (a b : Int) :
    LinkUpd s.1 (detachNext s a b).1 := by
  simp only [detachNext]
  rcases h : txIndexGet s.1 a with _ | j
  · exact .refl _
  · simp only
    by_cases hc : (getTx s.1 j).linked_tx_next_id = some b
    · rw [if_pos hc]
      exact .set (.refl _) j (getTx s.1 j).linked_tx_prev_id none
    · rw [if_neg hc]
      exact .refl _

theorem pass1Step_linkUpd (s : List Txn × Bool) (i : Nat) :
    LinkUpd s.1 (pass1Step s i).1 :=
  .set (.refl _) i _ _

theorem pass2Prev_linkUpd (s : List Txn × Bool) (i : Nat) :
    LinkUpd s.1 (pass2Prev s i).1 := by
  simp only [pass2Prev]
  rcases hp : (getTx s.1 i).linked_tx_prev_id with _ | prevId
  · exact .refl _
  · simp only
    rcases hj : txIndexGet s.1 prevId with _ | pj
    · exact .refl _
    · simp only
      have h1 : LinkUpd s.1
          (match sanitizeLinkedTxId (getTx s.1 pj).linked_tx_next_id with
            | some d => if d ≠ (getTx s.1 i).id then detachPrev s d prevId else s
            | none => s).1 := by
        rcases hs : sanitizeLinkedTxId (getTx s.1 pj).linked_tx_next_id with _ | d
        · exact .refl _
        · simp only
          by_cases hd : d ≠ (getTx s.1 i).id
          · rw [if_pos hd]
            exact detachPrev_linkUpd s d prevId
          · rw [if_neg hd]
            exact .refl _
      set s1 := (match sanitizeLinkedTxId (getTx s.1 pj).linked_tx_next_id with
        | some d => if d ≠ (getTx s.1 i).id then detachPrev s d prevId else s
        | none => s) with hs1
      by_cases hc : (getTx s1.1 pj).linked_tx_next_id ≠ some (getTx s.1 i).id
      · rw [if_pos hc]
        exact .trans h1 (.set (.refl _) pj (getTx s1.1 pj).linked_tx_prev_id
          (some (getTx s.1 i).id))
      · rw [if_neg hc]
        exact h1

theorem pass2Next_linkUpd (s : List Txn × Bool) (i : Nat) :
    LinkUpd s.1 (pass2Next s i).1 := by
  simp only [pass2Next]
  rcases hp : (getTx s.1 i).linked_tx_next_id with _ | nextId
  · exact .refl _
  · simp only
    rcases hj : txIndexGet s.1 nextId with _ | nj
    · exact .refl _
    · simp only
      have h1 : LinkUpd s.1
          (match sanitizeLinkedTxId (getTx s.1 nj).linked_tx_prev_id with
            | some d => if d ≠ (getTx s.1 i).id then detachNext s d nextId else s
            | none => s).1 := by
        rcases hs : sanitizeLinkedTxId (getTx s.1 nj).linked_tx_prev_id with _ | d
        · exact .refl _
        · simp only
          by_cases hd : d ≠ (getTx s.1 i).id
          · rw [if_pos hd]
            exact detachNext_linkUpd s d nextId
          · rw [if_neg hd]
            exact .refl _
      set s1 := (match sanitizeLinkedTxId (getTx s.1 nj).linked_tx_prev_id with
        | some d => if d ≠ (getTx s.1 i).id then detachNext s d nextId else s
        | none => s) with hs1
      by_cases hc : (getTx s1.1 nj).linked_tx_prev_id ≠ some (getTx s.1 i).id
      · rw [if_pos hc]
        exact .trans h1 (.set (.refl _) nj (some (getTx s.1 i).id)
          (getTx s1.1 nj).linked_tx_next_id)
      · rw [if_neg hc]
        exact h1

theorem pass2Step_linkUpd (s : List Txn × Bool) (i : Nat) :
    LinkUpd s.1 (pass2Step s i).1 := by
  simp only [pass2Step]
  by_cases h : (getTx s.1 i).id = 0
  · rw [if_pos h]
    exact .refl _
  · rw [if_neg h]
    exact .trans (pass2Prev_linkUpd s i) (pass2Next_linkUpd (pass2Prev s i) i)

theorem pass3Step_linkUpd (s : List Txn × Bool) (i : Nat) :
    LinkUpd s.1 (pass3Step s i).1 := by
  simp only [pass3Step]
  by_cases h : (getTx s.1 i).id = 0
  · rw [if_pos h]
    exact .refl _
  · rw [if_neg h]
    have h1 : LinkUpd s.1
        (match sanitizeLinkedTxId (getTx s.1 i).linked_tx_prev_id with
          | none => s
          | some prevId =>
              let ok : Bool :=
                match txIndexGet s.1 prevId with
                | none => false
                | some pj => (getTx s.1 pj).linked_tx_next_id == some (getTx s.1 i).id
              if ok then s
              else (s.1.set i { getTx s.1 i with linked_tx_prev_id := none }, true)).1 := by
      rcases hs : sanitizeLinkedTxId (getTx s.1 i).linked_tx_prev_id with _ | prevId
      · exact .refl _
      · simp only
        by_cases hok : (match txIndexGet s.1 prevId with
            | none => false
            | some pj =>
              (getTx s.1 pj).linked_tx_next_id == some (getTx s.1 i).id) = true
        · rw [if_pos hok]
          exact .refl _
        · rw [if_neg hok]
          exact .set (.refl _) i none (getTx s.1 i).linked_tx_next_id
    set s1 := (match sanitizeLinkedTxId (getTx s.1 i).linked_tx_prev_id with
      | none => s
      | some prevId =>
          let ok : Bool :=
            match txIndexGet s.1 prevId with
            | none => false
            | some pj => (getTx s.1 pj).linked_tx_next_id == some (getTx s.1 i).id
          if ok then s
          else (s.1.set i { getTx s.1 i with linked_tx_prev_id := none }, true)) with hs1
    rcases hn : sanitizeLinkedTxId (getTx s1.1 i).linked_tx_next_id with _ | nextId
    · exact h1
    · simp only
      by_cases hok : (match txIndexGet s1.1 nextId with
          | none => false
          | some nj =>
            (getTx s1.1 nj).linked_tx_prev_id == some (getTx s1.1 i).id) = true
      · rw [if_pos hok]
        exact h1
      · rw [if_neg hok]
        exact .trans h1 (.set (.refl _) i (getTx s1.1 i).linked_tx_prev_id none)

theorem pass4Step_linkUpd (s : List Txn × Bool) (i : Nat) :
    LinkUpd s.1 (pass4Step s i).1 := by
  simp only [pass4Step]
  by_cases h : (getTx s.1 i).linked_tx_prev_id ≠ none ∧
      (getTx s.1 i).linked_tx_prev_id = (getTx s.1 i).linked_tx_next_id
  · rw [if_pos h]
    exact .set (.refl _) i none none
  · rw [if_neg h]
    exact .refl _

theorem foldl_linkUpd {f : (List Txn × Bool) → Nat → (List Txn × Bool)}
    (hf : ∀ s i, LinkUpd s.1 (f s i).1) (l : List Nat) (s0 : List Txn × Bool) :
    LinkUpd s0.1 ((l.foldl f s0).1) := by
  induction l generalizing s0 with
  | nil => exact .refl _
  | cons a as ih => exact .trans (hf s0 a) (ih (f s0 a))

/-- The full normalizer only rewrites link fields in place. -/
theorem normalize_linkUpd (items : List Txn) :
    LinkUpd items (normalizeLinkedTransactionGraph items).1 := by
  show LinkUpd items ((List.range items.length).foldl pass4Step
    ((List.range items.length).foldl pass3Step
      ((List.range items.length).foldl pass2Step
        ((List.range items.length).foldl pass1Step (items, false))))).1
  have h1 := foldl_linkUpd pass1Step_linkUpd (List.range items.length) (items, false)
  have h2 := foldl_linkUpd pass2Step_linkUpd (List.range items.length)
    ((List.range items.length).foldl pass1Step (items, false))
  have h3 := foldl_linkUpd pass3Step_linkUpd (List.range items.length)
    ((List.range items.length).foldl pass2Step
      ((List.range items.length).foldl pass1Step (items, false)))
  have h4 := foldl_linkUpd pass4Step_linkUpd (List.range items.length)
    ((List.range items.length).foldl pass3Step
      ((List.range items.length).foldl pass2Step
        ((List.range items.length).foldl pass1Step (items, false))))
  exact .trans (.trans (.trans h1 h2) h3) h4

/-! ### Well-formed pointers relative to a fixed id universe -/

/-- A pointer is well formed relative to a list of ids. -/
def wfP (ids : List Int) (o : Option Int) : Prop :=
  ∀ p, o = some p → 0 < p ∧ p ∈ ids

/-- All pointers of all entries are well formed relative to `ids`. -/
def WFL (ids : List Int) (l : List Txn) : Prop :=
  ∀ tx ∈ l, wfP ids tx.linked_tx_prev_id ∧ wfP ids tx.linked_tx_next_id

theorem wfP_none {ids : List Int} : wfP ids none := by
  intro p h
  cases h

theorem hasId_iff_mem {l : List Txn} {k : Int} :
    hasId l k = true ↔ k ∈ l.map Txn.id := by
  simp only [hasId, List.any_eq_true, List.mem_map, beq_iff_eq]

/-- Generic invariant-tracking over a `List.range` fold. -/
theorem foldl_range_invariant {σ : Type _} (f : σ → Nat → σ) (P : Nat → σ → Prop)
    (s0 : σ) (n : Nat) (h0 : P 0 s0)
    (hstep : ∀ k s, k < n → P k s → P (k + 1) (f s k)) :
    P n ((List.range n).foldl f s0) := by
  suffices h : ∀ m, m ≤ n → P m ((List.range m).foldl f s0) from h n le_rfl
  intro m hm
  induction m with
  | zero => exact h0
  | succ k ih =>
      rw [List.range_succ, List.foldl_append]
      exact hstep k _ (by omega) (ih (by omega))

theorem WFL_set_next {ids : List Int} {l : List Txn} {j : Nat} {v : Option Int}
    (h : WFL ids l) (hv : wfP ids v) :
    WFL ids (l.set j { getTx l j with linked_tx_next_id := v }) := by
  intro u hu
  rcases List.mem_or_eq_of_mem_set hu with hmem | heq
  · exact h u hmem
  · subst heq
    by_cases hj : j < l.length
    · exact ⟨(h _ (getTx_mem hj)).1, hv⟩
    · have hdef : getTx l j = default := by
        rw [getTx, List.getD_eq_getElem?_getD, List.getElem?_eq_none (by omega)]
        rfl
      refine ⟨?_, hv⟩
      rw [hdef]
      exact wfP_none

theorem WFL_set_prev {ids : List Int} {l : List Txn} {j : Nat} {v : Option Int}
    (h : WFL ids l) (hv : wfP ids v) :
    WFL ids (l.set j { getTx l j with linked_tx_prev_id := v }) := by
  intro u hu
  rcases List.mem_or_eq_of_mem_set hu with hmem | heq
  · exact h u hmem
  · subst heq
    by_cases hj : j < l.length
    · exact ⟨hv, (h _ (getTx_mem hj)).2⟩
    · have hdef : getTx l j = default := by
        rw [getTx, List.getD_eq_getElem?_getD, List.getElem?_eq_none (by omega)]
        rfl
      refine ⟨hv, ?_⟩
      rw [hdef]
      exact wfP_none

theorem WFL_set_both {ids : List Int} {l : List Txn} {j : Nat} {p n : Option Int}
    (h : WFL ids l) (hp : wfP ids p) (hn : wfP ids n) :
    WFL ids (l.set j (setLinks (getTx l j) p n)) := by
  intro u hu
  rcases List.mem_or_eq_of_mem_set hu with hmem | heq
  · exact h u hmem
  · subst heq
    exact ⟨hp, hn⟩

/-! ### Pass 1 establishes well-formedness -/

/-- The pointer transformation applied by pass 1. -/
def pass1P (l : List Txn) (o : Option Int) : Option Int :=
  match sanitizeLinkedTxId o with
  | some p => if hasId l p then some p else none
  | none => none

theorem sanitize_pos {o : Option Int} {q : Int} (h : sanitizeLinkedTxId o = some q) :
    0 < q := by
  rcases o with _ | v
  · cases h
  · simp only [sanitizeLinkedTxId] at h
    by_cases hv : 0 < v
    · rw [if_pos hv] at h
      cases h
      exact hv
    · rw [if_neg hv] at h
      cases h

theorem wfP_pass1P {ids : List Int} {l : List Txn} (hids : l.map Txn.id = ids)
    (o : Option Int) : wfP ids (pass1P l o) := by
  intro p hp
  rcases ho : sanitizeLinkedTxId o with _ | q
  · simp only [pass1P, ho] at hp
    exact Option.noConfusion hp
  · simp only [pass1P, ho] at hp
    by_cases hh : hasId l q
    · rw [if_pos hh] at hp
      cases hp
      refine ⟨sanitize_pos ho, ?_⟩
      rw [← hids]
      exact hasId_iff_mem.mp hh
    · rw [if_neg hh] at hp
      cases hp

theorem pass1Step_getTx_other {s : List Txn × Bool} {i j : Nat} (h : i ≠ j) :
    getTx (pass1Step s i).1 j = getTx s.1 j := by
  simp only [pass1Step]
  exact getTx_set_ne h _

theorem pass1Step_getTx_self {s : List Txn × Bool} {i : Nat} (h : i < s.1.length) :
    getTx (pass1Step s i).1 i =
      setLinks (getTx s.1 i) (pass1P s.1 (getTx s.1 i).linked_tx_prev_id)
        (pass1P s.1 (getTx s.1 i).linked_tx_next_id) := by
  simp only [pass1Step]
  rw [getTx_set_self h]
  unfold setLinks pass1P
  rcases sanitizeLinkedTxId (getTx s.1 i).linked_tx_prev_id with _ | p <;>
    rcases sanitizeLinkedTxId (getTx s.1 i).linked_tx_next_id with _ | n
  · rfl
  · by_cases hh : hasId s.1 n
    · simp [hh]
    · simp [hh]
  · by_cases hh : hasId s.1 p
    · simp [hh]
    · simp [hh]
  · by_cases hp : hasId s.1 p <;> by_cases hn : hasId s.1 n
    · simp [hp, hn]
    · simp [hp, hn]
    · simp [hp, hn]
    · simp [hp, hn]

theorem pass1_establishes_WFL (items : List Txn) :
    WFL (items.map Txn.id)
      ((List.range items.length).foldl pass1Step (items, false)).1 := by
  have key := foldl_range_invariant pass1Step
    (fun k s => s.1.map Txn.id = items.map Txn.id ∧
      (∀ j, k ≤ j → getTx s.1 j = getTx items j) ∧
      (∀ j, j < k → wfP (items.map Txn.id) (getTx s.1 j).linked_tx_prev_id ∧
        wfP (items.map Txn.id) (getTx s.1 j).linked_tx_next_id))
    (items, false) items.length
    ⟨rfl, fun _ _ => rfl, fun j hj => absurd hj (Nat.not_lt_zero j)⟩
    (by
      rintro k s hk ⟨hids, hunt, hdone⟩
      have hlen : s.1.length = items.length := by
        have := congrArg List.length hids
        simpa using this
      have hk' : k < s.1.length := by omega
      refine ⟨((pass1Step_linkUpd s k).ids_eq).trans hids, ?_, ?_⟩
      · intro j hj
        rw [pass1Step_getTx_other (by omega)]
        exact hunt j (by omega)
      · intro j hj
        by_cases hjk : j = k
        · subst hjk
          rw [pass1Step_getTx_self hk']
          exact ⟨wfP_pass1P hids _, wfP_pass1P hids _⟩
        · rw [pass1Step_getTx_other (by omega)]
          exact hdone j (by omega))
  obtain ⟨hids, _, hdone⟩ := key
  intro tx htx
  obtain ⟨j, hj, hget⟩ := List.mem_iff_getElem.mp htx
  have hjlen : j < items.length := by
    have := congrArg List.length hids
    simp at this
    omega
  have hgt : getTx ((List.range items.length).foldl pass1Step (items, false)).1 j = tx := by
    rw [getTx_eq_getElem hj, hget]
  rw [← hgt]
  exact hdone j hjlen

/-! ### Passes 2–4 preserve well-formedness -/

theorem detachPrev_WFL {ids : List Int} {s : List Txn × Bool} {a b : Int}
    (h : WFL ids s.1) : WFL ids (detachPrev s a b).1 := by
  simp only [detachPrev]
  rcases hj : txIndexGet s.1 a with _ | j
  · exact h
  · simp only
    by_cases hc : (getTx s.1 j).linked_tx_prev_id = some b
    · rw [if_pos hc]
      exact WFL_set_prev h wfP_none
    · rw [if_neg hc]
      exact h

theorem detachNext_WFL {ids : List Int} {s : List Txn × Bool} {a b : Int}
    (h : WFL ids s.1) : WFL ids (detachNext s a b).1 := by
  simp only [detachNext]
  rcases hj : txIndexGet s.1 a with _ | j
  · exact h
  · simp only
    by_cases hc : (getTx s.1 j).linked_tx_next_id = some b
    · rw [if_pos hc]
      exact WFL_set_next h wfP_none
    · rw [if_neg hc]
      exact h

theorem pass2Prev_WFL {ids : List Int} {s : List Txn × Bool} {i : Nat}
    (hids : s.1.map Txn.id = ids) (hpos : ∀ p ∈ ids, 0 < p)
    (hi : i < s.1.length) (h : WFL ids s.1) : WFL ids (pass2Prev s i).1 := by
  have hwftx : wfP ids (some (getTx s.1 i).id) := by
    intro p hp
    cases hp
    have hmem : (getTx s.1 i).id ∈ ids := by
      rw [← hids]
      exact List.mem_map.mpr ⟨_, getTx_mem hi, rfl⟩
    exact ⟨hpos _ hmem, hmem⟩
  simp only [pass2Prev]
  rcases hp : (getTx s.1 i).linked_tx_prev_id with _ | prevId
  · exact h
  · simp only
    rcases hj : txIndexGet s.1 prevId with _ | pj
    · exact h
    · simp only
      have h1 : WFL ids
          (match sanitizeLinkedTxId (getTx s.1 pj).linked_tx_next_id with
            | some d => if d ≠ (getTx s.1 i).id then detachPrev s d prevId else s
            | none => s).1 := by
        rcases hs : sanitizeLinkedTxId (getTx s.1 pj).linked_tx_next_id with _ | d
        · exact h
        · simp only
          by_cases hd : d ≠ (getTx s.1 i).id
          · rw [if_pos hd]
            exact detachPrev_WFL h
          · rw [if_neg hd]
            exact h
      set s1 := (match sanitizeLinkedTxId (getTx s.1 pj).linked_tx_next_id with
        | some d => if d ≠ (getTx s.1 i).id then detachPrev s d prevId else s
        | none => s) with hs1
      by_cases hc : (getTx s1.1 pj).linked_tx_next_id ≠ some (getTx s.1 i).id
      · rw [if_pos hc]
        exact WFL_set_next h1 hwftx
      · rw [if_neg hc]
        exact h1

theorem pass2Next_WFL {ids : List Int} {s : List Txn × Bool} {i : Nat}
    (hids : s.1.map Txn.id = ids) (hpos : ∀ p ∈ ids, 0 < p)
    (hi : i < s.1.length) (h : WFL ids s.1) : WFL ids (pass2Next s i).1 := by
  have hwftx : wfP ids (some (getTx s.1 i).id) := by
    intro p hp
    cases hp
    have hmem : (getTx s.1 i).id ∈ ids := by
      rw [← hids]
      exact List.mem_map.mpr ⟨_, getTx_mem hi, rfl⟩
    exact ⟨hpos _ hmem, hmem⟩
  simp only [pass2Next]
  rcases hp : (getTx s.1 i).linked_tx_next_id with _ | nextId
  · exact h
  · simp only
    rcases hj : txIndexGet s.1 nextId with _ | nj
    · exact h
    · simp only
      have h1 : WFL ids
          (match sanitizeLinkedTxId (getTx s.1 nj).linked_tx_prev_id with
            | some d => if d ≠ (getTx s.1 i).id then detachNext s d nextId else s
            | none => s).1 := by
        rcases hs : sanitizeLinkedTxId (getTx s.1 nj).linked_tx_prev_id with _ | d
        · exact h
        · simp only
          by_cases hd : d ≠ (getTx s.1 i).id
          · rw [if_pos hd]
            exact detachNext_WFL h
          · rw [if_neg hd]
            exact h
      set s1 := (match sanitizeLinkedTxId (getTx s.1 nj).linked_tx_prev_id with
        | some d => if d ≠ (getTx s.1 i).id then detachNext s d nextId else s
        | none => s) with hs1
      by_cases hc : (getTx s1.1 nj).linked_tx_prev_id ≠ some (getTx s.1 i).id
      · rw [if_pos hc]
        exact WFL_set_prev h1 hwftx
      · rw [if_neg hc]
        exact h1

theorem pass2Step_WFL {ids : List Int} {s : List Txn × Bool} {i : Nat}
    (hids : s.1.map Txn.id = ids) (hpos : ∀ p ∈ ids, 0 < p)
    (hi : i < s.1.length) (h : WFL ids s.1) : WFL ids (pass2Step s i).1 := by
  simp only [pass2Step]
  by_cases h0 : (getTx s.1 i).id = 0
  · rw [if_pos h0]
    exact h
  · rw [if_neg h0]
    have hids1 : (pass2Prev s i).1.map Txn.id = ids :=
      ((pass2Prev_linkUpd s i).ids_eq).trans hids
    have hlen1 : (pass2Prev s i).1.length = s.1.length :=
      (pass2Prev_linkUpd s i).length_eq
    exact pass2Next_WFL hids1 hpos (by omega) (pass2Prev_WFL hids hpos hi h)

theorem pass3Step_WFL {ids : List Int} {s : List Txn × Bool} {i : Nat}
    (h : WFL ids s.1) : WFL ids (pass3Step s i).1 := by
  simp only [pass3Step]
  by_cases h0 : (getTx s.1 i).id = 0
  · rw [if_pos h0]
    exact h
  · rw [if_neg h0]
    have h1 : WFL ids
        (match sanitizeLinkedTxId (getTx s.1 i).linked_tx_prev_id with
          | none => s
          | some prevId =>
              let ok : Bool :=
                match txIndexGet s.1 prevId with
                | none => false
                | some pj => (getTx s.1 pj).linked_tx_next_id == some (getTx s.1 i).id
              if ok then s
              else (s.1.set i { getTx s.1 i with linked_tx_prev_id := none }, true)).1 := by
      rcases hs : sanitizeLinkedTxId (getTx s.1 i).linked_tx_prev_id with _ | prevId
      · exact h
      · simp only
        by_cases hok : (match txIndexGet s.1 prevId with
            | none => false
            | some pj =>
              (getTx s.1 pj).linked_tx_next_id == some (getTx s.1 i).id) = true
        · rw [if_pos hok]
          exact h
        · rw [if_neg hok]
          exact WFL_set_prev h wfP_none
    set s1 := (match sanitizeLinkedTxId (getTx s.1 i).linked_tx_prev_id with
      | none => s
      | some prevId =>
          let ok : Bool :=
            match txIndexGet s.1 prevId with
            | none => false
            | some pj => (getTx s.1 pj).linked_tx_next_id == some (getTx s.1 i).id
          if ok then s
          else (s.1.set i { getTx s.1 i with linked_tx_prev_id := none }, true)) with hs1
    rcases hn : sanitizeLinkedTxId (getTx s1.1 i).linked_tx_next_id with _ | nextId
    · exact h1
    · simp only
      by_cases hok : (match txIndexGet s1.1 nextId with
          | none => false
          | some nj =>
            (getTx s1.1 nj).linked_tx_prev_id == some (getTx s1.1 i).id) = true
      · rw [if_pos hok]
        exact h1
      · rw [if_neg hok]
        exact WFL_set_next h1 wfP_none

theorem pass4Step_WFL {ids : List Int} {s : List Txn × Bool} {i : Nat}
    (h : WFL ids s.1) : WFL ids (pass4Step s i).1 := by
  simp only [pass4Step]
  by_cases hc : (getTx s.1 i).linked_tx_prev_id ≠ none ∧
      (getTx s.1 i).linked_tx_prev_id = (getTx s.1 i).linked_tx_next_id
  · rw [if_pos hc]
    exact WFL_set_both h wfP_none wfP_none
  · rw [if_neg hc]
    exact h

/-! ### Pass 3 establishes symmetry

`pass3Step` decomposes into its `prev`-half and `next`-half. -/

/-- The `prev`-pointer half of a pass-3 step. -/
def p3prevStep (s : List Txn × Bool) (i : Nat) : List Txn × Bool :=
  let tx := getTx s.1 i
  match sanitizeLinkedTxId tx.linked_tx_prev_id with
  | none => s
  | some prevId =>
      let ok : Bool :=
        match txIndexGet s.1 prevId with
        | none => false
        | some pj => (getTx s.1 pj).linked_tx_next_id == some tx.id
      if ok then s else (s.1.set i { tx with linked_tx_prev_id := none }, true)

/-- The `next`-pointer half of a pass-3 step. -/
def p3nextStep (s : List Txn × Bool) (i : Nat) : List Txn × Bool :=
  let tx1 := getTx s.1 i
  match sanitizeLinkedTxId tx1.linked_tx_next_id with
  | none => s
  | some nextId =>
      let ok : Bool :=
        match txIndexGet s.1 nextId with
        | none => false
        | some nj => (getTx s.1 nj).linked_tx_prev_id == some tx1.id
      if ok then s else (s.1.set i { tx1 with linked_tx_next_id := none }, true)

theorem pass3Step_eq (s : List Txn × Bool) (i : Nat) :
    pass3Step s i =
      if (getTx s.1 i).id = 0 then s else p3nextStep (p3prevStep s i) i := rfl

theorem p3prevStep_getTx_other {s : List Txn × Bool} {i j : Nat} (h : i ≠ j) :
    getTx (p3prevStep s i).1 j = getTx s.1 j := by
  simp only [p3prevStep]
  rcases sanitizeLinkedTxId (getTx s.1 i).linked_tx_prev_id with _ | prevId
  · rfl
  · simp only
    split
    · rfl
    · exact getTx_set_ne h _

theorem p3nextStep_getTx_other {s : List Txn × Bool} {i j : Nat} (h : i ≠ j) :
    getTx (p3nextStep s i).1 j = getTx s.1 j := by
  simp only [p3nextStep]
  rcases sanitizeLinkedTxId (getTx s.1 i).linked_tx_next_id with _ | nextId
  · rfl
  · simp only
    split
    · rfl
    · exact getTx_set_ne h _

theorem p3prevStep_self_frame {s : List Txn × Bool} {i : Nat} (hi : i < s.1.length) :
    (getTx (p3prevStep s i).1 i).id = (getTx s.1 i).id ∧
    (getTx (p3prevStep s i).1 i).linked_tx_next_id = (getTx s.1 i).linked_tx_next_id := by
  simp only [p3prevStep]
  rcases sanitizeLinkedTxId (getTx s.1 i).linked_tx_prev_id with _ | prevId
  · exact ⟨rfl, rfl⟩
  · simp only
    split
    · exact ⟨rfl, rfl⟩
    · rw [getTx_set_self hi]
      exact ⟨rfl, rfl⟩

theorem p3nextStep_self_frame {s : List Txn × Bool} {i : Nat} (hi : i < s.1.length) :
    (getTx (p3nextStep s i).1 i).id = (getTx s.1 i).id ∧
    (getTx (p3nextStep s i).1 i).linked_tx_prev_id = (getTx s.1 i).linked_tx_prev_id := by
  simp only [p3nextStep]
  rcases sanitizeLinkedTxId (getTx s.1 i).linked_tx_next_id with _ | nextId
  · exact ⟨rfl, rfl⟩
  · simp only
    split
    · exact ⟨rfl, rfl⟩
    · rw [getTx_set_self hi]
      exact ⟨rfl, rfl⟩

/-- If the `prev` pointer at `i` is already matched by its partner, the
`prev`-half leaves the state untouched. -/
theorem p3prevStep_keep {s : List Txn × Bool} {i : Nat} {P : Int} {pj : Nat}
    (hp : (getTx s.1 i).linked_tx_prev_id = some P) (hP : 0 < P)
    (hj : txIndexGet s.1 P = some pj)
    (hok : (getTx s.1 pj).linked_tx_next_id = some (getTx s.1 i).id) :
    p3prevStep s i = s := by
  simp only [p3prevStep, hp, sanitizeLinkedTxId, if_pos hP, hj, hok]
  simp

/-- If the `prev` pointer at `i` is absent, the `prev`-half does nothing. -/
theorem p3prevStep_none {s : List Txn × Bool} {i : Nat}
    (hp : (getTx s.1 i).linked_tx_prev_id = none) :
    p3prevStep s i = s := by
  simp only [p3prevStep, hp, sanitizeLinkedTxId]

theorem p3nextStep_keep {s : List Txn × Bool} {i : Nat} {N : Int} {nj : Nat}
    (hp : (getTx s.1 i).linked_tx_next_id = some N) (hN : 0 < N)
    (hj : txIndexGet s.1 N = some nj)
    (hok : (getTx s.1 nj).linked_tx_prev_id = some (getTx s.1 i).id) :
    p3nextStep s i = s := by
  simp only [p3nextStep, hp, sanitizeLinkedTxId, if_pos hN, hj, hok]
  simp

theorem p3nextStep_none {s : List Txn × Bool} {i : Nat}
    (hp : (getTx s.1 i).linked_tx_next_id = none) :
    p3nextStep s i = s := by
  simp only [p3nextStep, hp, sanitizeLinkedTxId]

/-- A surviving `prev` pointer at `i` was already present and matched by its
partner before the `prev`-half ran. -/
theorem p3prevStep_surv {ids : List Int} {s : List Txn × Bool} {i : Nat} {P : Int}
    (hwf : WFL ids s.1) (hi : i < s.1.length)
    (hres : (getTx (p3prevStep s i).1 i).linked_tx_prev_id = some P) :
    (getTx s.1 i).linked_tx_prev_id = some P ∧
      ∃ pj, txIndexGet s.1 P = some pj ∧
        (getTx s.1 pj).linked_tx_next_id = some (getTx s.1 i).id := by
  rcases hp : (getTx s.1 i).linked_tx_prev_id with _ | P0
  · rw [p3prevStep_none hp] at hres
    rw [hres] at hp
    cases hp
  · have hP0 : 0 < P0 := ((hwf _ (getTx_mem hi)).1 P0 hp).1
    have hsan : sanitizeLinkedTxId (getTx s.1 i).linked_tx_prev_id = some P0 := by
      simp [hp, sanitizeLinkedTxId, hP0]
    rcases hj : txIndexGet s.1 P0 with _ | pj
    · exfalso
      have : (getTx (p3prevStep s i).1 i).linked_tx_prev_id = none := by
        simp only [p3prevStep, hsan, hj]
        rw [if_neg (by simp)]
        rw [getTx_set_self hi]
      rw [this] at hres
      cases hres
    · by_cases hok : (getTx s.1 pj).linked_tx_next_id = some (getTx s.1 i).id
      · have hkeep := p3prevStep_keep hp hP0 hj hok
        rw [hkeep] at hres
        rw [hres] at hp
        cases hp
        exact ⟨rfl, pj, hj, hok⟩
      · exfalso
        have : (getTx (p3prevStep s i).1 i).linked_tx_prev_id = none := by
          simp only [p3prevStep, hsan, hj]
          rw [if_neg (by simpa using hok)]
          rw [getTx_set_self hi]
        rw [this] at hres
        cases hres

theorem p3nextStep_surv {ids : List Int} {s : List Txn × Bool} {i : Nat} {N : Int}
    (hwf : WFL ids s.1) (hi : i < s.1.length)
    (hres : (getTx (p3nextStep s i).1 i).linked_tx_next_id = some N) :
    (getTx s.1 i).linked_tx_next_id = some N ∧
      ∃ nj, txIndexGet s.1 N = some nj ∧
        (getTx s.1 nj).linked_tx_prev_id = some (getTx s.1 i).id := by
  rcases hp : (getTx s.1 i).linked_tx_next_id with _ | N0
  · rw [p3nextStep_none hp] at hres
    rw [hres] at hp
    cases hp
  · have hN0 : 0 < N0 := ((hwf _ (getTx_mem hi)).2 N0 hp).1
    have hsan : sanitizeLinkedTxId (getTx s.1 i).linked_tx_next_id = some N0 := by
      simp [hp, sanitizeLinkedTxId, hN0]
    rcases hj : txIndexGet s.1 N0 with _ | nj
    · exfalso
      have : (getTx (p3nextStep s i).1 i).linked_tx_next_id = none := by
        simp only [p3nextStep, hsan, hj]
        rw [if_neg (by simp)]
        rw [getTx_set_self hi]
      rw [this] at hres
      cases hres
    · by_cases hok : (getTx s.1 nj).linked_tx_prev_id = some (getTx s.1 i).id
      · have hkeep := p3nextStep_keep hp hN0 hj hok
        rw [hkeep] at hres
        rw [hres] at hp
        cases hp
        exact ⟨rfl, nj, hj, hok⟩
      · exfalso
        have : (getTx (p3nextStep s i).1 i).linked_tx_next_id = none := by
          simp only [p3nextStep, hsan, hj]
          rw [if_neg (by simpa using hok)]
          rw [getTx_set_self hi]
        rw [this] at hres
        cases hres

theorem p3prevStep_linkUpd (s : List Txn × Bool) (i : Nat) :
    LinkUpd s.1 (p3prevStep s i).1 := by
  simp only [p3prevStep]
  rcases sanitizeLinkedTxId (getTx s.1 i).linked_tx_prev_id with _ | prevId
  · exact .refl _
  · simp only
    split
    · exact .refl _
    · exact .set (.refl _) i none (getTx s.1 i).linked_tx_next_id

theorem p3nextStep_linkUpd (s : List Txn × Bool) (i : Nat) :
    LinkUpd s.1 (p3nextStep s i).1 := by
  simp only [p3nextStep]
  rcases sanitizeLinkedTxId (getTx s.1 i).linked_tx_next_id with _ | nextId
  · exact .refl _
  · simp only
    split
    · exact .refl _
    · exact .set (.refl _) i (getTx s.1 i).linked_tx_prev_id none

theorem p3prevStep_WFL {ids : List Int} {s : List Txn × Bool} {i : Nat}
    (h : WFL ids s.1) : WFL ids (p3prevStep s i).1 := by
  simp only [p3prevStep]
  rcases sanitizeLinkedTxId (getTx s.1 i).linked_tx_prev_id with _ | prevId
  · exact h
  · simp only
    split
    · exact h
    · exact WFL_set_prev h wfP_none

theorem p3nextStep_WFL {ids : List Int} {s : List Txn × Bool} {i : Nat}
    (h : WFL ids s.1) : WFL ids (p3nextStep s i).1 := by
  simp only [p3nextStep]
  rcases sanitizeLinkedTxId (getTx s.1 i).linked_tx_next_id with _ | nextId
  · exact h
  · simp only
    split
    · exact h
    · exact WFL_set_next h wfP_none

/-- Positional local symmetry of the link graph at position `j`. -/
def LSym (l : List Txn) (j : Nat) : Prop :=
  (∀ P pj, (getTx l j).linked_tx_prev_id = some P → txIndexGet l P = some pj →
      (getTx l pj).linked_tx_next_id = some (getTx l j).id) ∧
  (∀ N nj, (getTx l j).linked_tx_next_id = some N → txIndexGet l N = some nj →
      (getTx l nj).linked_tx_prev_id = some (getTx l j).id)

/-- Pass 3 makes the link graph locally symmetric at every position, for
collections with pairwise-distinct positive ids. -/
theorem pass3_fold_LSym {items : List Txn} (s2 : List Txn × Bool)
    (hids2 : s2.1.map Txn.id = items.map Txn.id)
    (hnd : (items.map Txn.id).Nodup)
    (hpos : ∀ p ∈ items.map Txn.id, 0 < p)
    (hwf2 : WFL (items.map Txn.id) s2.1) :
    (((List.range items.length).foldl pass3Step s2).1.map Txn.id = items.map Txn.id) ∧
    WFL (items.map Txn.id) ((List.range items.length).foldl pass3Step s2).1 ∧
    (∀ j, j < items.length → LSym ((List.range items.length).foldl pass3Step s2).1 j) := by
  have key := foldl_range_invariant pass3Step
    (fun k s => s.1.map Txn.id = items.map Txn.id ∧ WFL (items.map Txn.id) s.1 ∧
      (∀ j, j < k → LSym s.1 j)) s2 items.length
    ⟨hids2, hwf2, fun j hj => absurd hj (Nat.not_lt_zero j)⟩
    (by
      rintro k s hk ⟨hids, hwf, hLS⟩
      have hslen : s.1.length = items.length := by
        simpa using congrArg List.length hids
      have hndS : (s.1.map Txn.id).Nodup := by
        rw [hids]
        exact hnd
      have hposS : ∀ j, j < s.1.length → 0 < (getTx s.1 j).id := by
        intro j hj
        refine hpos _ ?_
        rw [← hids]
        exact List.mem_map.mpr ⟨_, getTx_mem hj, rfl⟩
      have hguard : ¬(getTx s.1 k).id = 0 := by
        have := hposS k (by omega)
        omega
      have hstep : pass3Step s k = p3nextStep (p3prevStep s k) k := by
        rw [pass3Step_eq, if_neg hguard]
      have hids1 : (p3prevStep s k).1.map Txn.id = items.map Txn.id :=
        ((p3prevStep_linkUpd s k).ids_eq).trans hids
      have hlen1 : (p3prevStep s k).1.length = s.1.length :=
        (p3prevStep_linkUpd s k).length_eq
      have hwf1 : WFL (items.map Txn.id) (p3prevStep s k).1 := p3prevStep_WFL hwf
      have hids' : (pass3Step s k).1.map Txn.id = items.map Txn.id :=
        ((pass3Step_linkUpd s k).ids_eq).trans hids
      have hother : ∀ j, j ≠ k → getTx (pass3Step s k).1 j = getTx s.1 j := by
        intro j hj
        rw [hstep, p3nextStep_getTx_other (Ne.symm hj), p3prevStep_getTx_other (Ne.symm hj)]
      have hframe1 := p3prevStep_self_frame (s := s) (i := k) (by omega)
      have hframe2 := p3nextStep_self_frame (s := p3prevStep s k) (i := k) (by omega)
      have hidk' : (getTx (pass3Step s k).1 k).id = (getTx s.1 k).id := by
        rw [hstep, hframe2.1, hframe1.1]
      have htixS : ∀ K, txIndexGet (pass3Step s k).1 K = txIndexGet s.1 K := by
        intro K
        exact txIndexGet_congr (by rw [hids', hids]) K
      have htix1 : ∀ K, txIndexGet (p3prevStep s k).1 K = txIndexGet s.1 K := by
        intro K
        exact txIndexGet_congr (by rw [hids1, hids]) K
      refine ⟨hids', pass3Step_WFL hwf, ?_⟩
      intro j hj
      by_cases hjk : j = k
      · subst hjk
        constructor
        · intro P pj h1 h2
          have h1' : (getTx (p3prevStep s j).1 j).linked_tx_prev_id = some P := by
            rw [hstep, hframe2.2] at h1
            exact h1
          obtain ⟨hold, pj0, hpj0, hok0⟩ := p3prevStep_surv hwf (by omega) h1'
          rw [htixS, hpj0] at h2
          have hpj : pj = pj0 := by
            injection h2 with h2
            omega
          subst hpj
          by_cases hpjk : pj = j
          · subst hpjk
            have hPk : (getTx s.1 pj).id = P := txIndexGet_id hpj0
            have hn1 : (getTx (p3prevStep s pj).1 pj).linked_tx_next_id =
                some (getTx s.1 pj).id := by
              rw [hframe1.2, hok0]
            have hkpos : 0 < (getTx s.1 pj).id := hposS pj (by omega)
            have hidx : txIndexGet (p3prevStep s pj).1 (getTx s.1 pj).id = some pj := by
              rw [htix1]
              exact txIndexGet_eq_of_nodup hndS (by omega)
            have hokk : (getTx (p3prevStep s pj).1 pj).linked_tx_prev_id =
                some (getTx (p3prevStep s pj).1 pj).id := by
              rw [h1', hframe1.1, hPk]
            have hkeep : p3nextStep (p3prevStep s pj) pj = p3prevStep s pj :=
              p3nextStep_keep hn1 hkpos hidx hokk
            rw [hstep, hkeep, hn1, hframe1.1]
          · rw [hother pj hpjk, hidk']
            exact hok0
        · intro N nj h1 h2
          rw [hstep] at h1
          obtain ⟨hold1, nj0, hnj0, hok0⟩ := p3nextStep_surv hwf1 (by omega) h1
          rw [htixS] at h2
          rw [htix1] at hnj0
          rw [hnj0] at h2
          have hnj : nj = nj0 := by
            injection h2 with h2
            omega
          subst hnj
          by_cases hnjk : nj = j
          · subst hnjk
            rw [hstep, hframe2.2, hok0, hframe2.1]
          · rw [hstep, p3nextStep_getTx_other (Ne.symm hnjk), hframe2.1]
            exact hok0
      · obtain ⟨hLp, hLn⟩ := hLS j (by omega)
        have hjpos : 0 < (getTx s.1 j).id := hposS j (by omega)
        have hjidx : txIndexGet s.1 (getTx s.1 j).id = some j :=
          txIndexGet_eq_of_nodup hndS (by omega)
        constructor
        · intro P pj h1 h2
          rw [hother j hjk] at h1
          rw [htixS] at h2
          have hold := hLp P pj h1 h2
          by_cases hpjk : pj = k
          · subst hpjk
            have hn1 : (getTx (p3prevStep s pj).1 pj).linked_tx_next_id =
                some (getTx s.1 j).id := by
              rw [hframe1.2, hold]
            have hidx : txIndexGet (p3prevStep s pj).1 (getTx s.1 j).id = some j := by
              rw [htix1]
              exact hjidx
            have hokk : (getTx (p3prevStep s pj).1 j).linked_tx_prev_id =
                some (getTx (p3prevStep s pj).1 pj).id := by
              rw [p3prevStep_getTx_other (Ne.symm hjk), hframe1.1]
              have hPk : (getTx s.1 pj).id = P := txIndexGet_id h2
              rw [hPk]
              exact h1
            have hkeep : p3nextStep (p3prevStep s pj) pj = p3prevStep s pj :=
              p3nextStep_keep hn1 hjpos hidx hokk
            rw [hstep, hkeep, hn1, p3prevStep_getTx_other (Ne.symm hjk)]
          · rw [hother pj hpjk, hother j hjk]
            exact hold
        · intro N nj h1 h2
          rw [hother j hjk] at h1
          rw [htixS] at h2
          have hold := hLn N nj h1 h2
          by_cases hnjk : nj = k
          · subst hnjk
            have hNid : (getTx s.1 nj).id = N := txIndexGet_id h2
            have hok : (getTx s.1 j).linked_tx_next_id = some (getTx s.1 nj).id := by
              rw [hNid]
              exact h1
            have hkeep1 : p3prevStep s nj = s :=
              p3prevStep_keep hold hjpos hjidx hok
            have hframe2' := p3nextStep_self_frame (s := s) (i := nj) (by omega)
            rw [hstep, hkeep1, hframe2'.2, p3nextStep_getTx_other (Ne.symm hjk)]
            exact hold
          · rw [hother nj hnjk, hother j hjk]
            exact hold)
  exact key

/-! ### Pass 4 is a pointwise degenerate-pair guard -/

/-- The per-entry effect of pass 4. -/
def p4fun (tx : Txn) : Txn :=
  if tx.linked_tx_prev_id ≠ none ∧ tx.linked_tx_prev_id = tx.linked_tx_next_id then
    setLinks tx none none
  else tx

theorem pass4Step_getTx_other {s : List Txn × Bool} {i j : Nat} (h : i ≠ j) :
    getTx (pass4Step s i).1 j = getTx s.1 j := by
  simp only [pass4Step]
  split
  · exact getTx_set_ne h _
  · rfl

theorem pass4Step_getTx_self {s : List Txn × Bool} {i : Nat} (hi : i < s.1.length) :
    getTx (pass4Step s i).1 i = p4fun (getTx s.1 i) := by
  simp only [pass4Step, p4fun]
  split
  · rw [getTx_set_self hi]
    rfl
  · rfl

theorem pass4_fold_pointwise {items : List Txn} (s3 : List Txn × Bool)
    (hids3 : s3.1.map Txn.id = items.map Txn.id) :
    (((List.range items.length).foldl pass4Step s3).1.map Txn.id = items.map Txn.id) ∧
    (∀ j, j < items.length →
      getTx ((List.range items.length).foldl pass4Step s3).1 j = p4fun (getTx s3.1 j)) := by
  have key := foldl_range_invariant pass4Step
    (fun k s => s.1.map Txn.id = items.map Txn.id ∧
      (∀ j, k ≤ j → getTx s.1 j = getTx s3.1 j) ∧
      (∀ j, j < k → getTx s.1 j = p4fun (getTx s3.1 j))) s3 items.length
    ⟨hids3, fun _ _ => rfl, fun j hj => absurd hj (Nat.not_lt_zero j)⟩
    (by
      rintro k s hk ⟨hids, hunt, hdone⟩
      have hslen : s.1.length = items.length := by
        simpa using congrArg List.length hids
      refine ⟨((pass4Step_linkUpd s k).ids_eq).trans hids, ?_, ?_⟩
      · intro j hj
        rw [pass4Step_getTx_other (by omega)]
        exact hunt j (by omega)
      · intro j hj
        by_cases hjk : j = k
        · subst hjk
          rw [pass4Step_getTx_self (by omega), hunt j le_rfl]
        · rw [pass4Step_getTx_other (by omega)]
          exact hdone j (by omega))
  exact ⟨key.1, key.2.2⟩

theorem p4fun_id (tx : Txn) : (p4fun tx).id = tx.id := by
  unfold p4fun
  split <;> rfl

/-! ### The normalizer's output satisfies the invariant -/

theorem posIds_iff {items : List Txn} :
    PosIds items ↔ ∀ p ∈ items.map Txn.id, 0 < p := by
  constructor
  · rintro h p hp
    obtain ⟨u, hu, hup⟩ := List.mem_map.mp hp
    subst hup
    exact h u hu
  · intro h tx htx
    exact h _ (List.mem_map.mpr ⟨tx, htx, rfl⟩)

theorem normalize_preserves_ids (items : List Txn) :
    (normalizeLinkedTransactionGraph items).1.map Txn.id = items.map Txn.id :=
  (normalize_linkUpd items).ids_eq

/-- The normalizer establishes the full link-graph invariant on any
collection whose ids are pairwise-distinct positive integers. -/
theorem normalize_establishes_inv {items : List Txn}
    (hpos : PosIds items) (hnd : NodupIds items) :
    LinkInv (normalizeLinkedTransactionGraph items).1 := by
  have hposm : ∀ p ∈ items.map Txn.id, 0 < p := posIds_iff.mp hpos
  set n := items.length with hn
  set s1 := (List.range n).foldl pass1Step (items, false) with hs1
  set s2 := (List.range n).foldl pass2Step s1 with hs2
  set s3 := (List.range n).foldl pass3Step s2 with hs3
  set s4 := (List.range n).foldl pass4Step s3 with hs4
  have hres : (normalizeLinkedTransactionGraph items).1 = s4.1 := rfl
  -- pass 1
  have hwf1 : WFL (items.map Txn.id) s1.1 := pass1_establishes_WFL items
  have hids1 : s1.1.map Txn.id = items.map Txn.id :=
    (foldl_linkUpd pass1Step_linkUpd _ _).ids_eq
  -- pass 2 (preserves WFL)
  have h2 : s2.1.map Txn.id = items.map Txn.id ∧ WFL (items.map Txn.id) s2.1 := by
    refine foldl_range_invariant pass2Step
      (fun _ s => s.1.map Txn.id = items.map Txn.id ∧ WFL (items.map Txn.id) s.1) s1 n
      ⟨hids1, hwf1⟩ ?_
    rintro k s hk ⟨hids, hwf⟩
    have hslen : s.1.length = items.length := by
      simpa using congrArg List.length hids
    exact ⟨((pass2Step_linkUpd s k).ids_eq).trans hids,
      pass2Step_WFL hids hposm (by omega) hwf⟩
  -- pass 3 (establishes local symmetry)
  have h3 := pass3_fold_LSym s2 h2.1 hnd hposm h2.2
  obtain ⟨hids3, hwf3, hLS3⟩ := h3
  have hlen3 : s3.1.length = n := by
    simpa using congrArg List.length hids3
  -- pass 4 (pointwise)
  have h4 := pass4_fold_pointwise s3 hids3
  obtain ⟨hids4, hpw4⟩ := h4
  have hlen4 : s4.1.length = n := by
    simpa using congrArg List.length hids4
  have hnds3 : (s3.1.map Txn.id).Nodup := by
    rw [hids3]
    exact hnd
  have hnds4 : (s4.1.map Txn.id).Nodup := by
    rw [hids4]
    exact hnd
  have htix43 : ∀ K, txIndexGet s4.1 K = txIndexGet s3.1 K := fun K =>
    txIndexGet_congr (by rw [hids4, hids3]) K
  -- local symmetry survives pass 4
  have hLS4 : ∀ j, j < n → LSym s4.1 j := by
    intro j hjn
    constructor
    · intro P pj h1 h2
      rw [hpw4 j hjn] at h1
      have hndeg : ¬((getTx s3.1 j).linked_tx_prev_id ≠ none ∧
          (getTx s3.1 j).linked_tx_prev_id = (getTx s3.1 j).linked_tx_next_id) := by
        intro hdeg
        rw [p4fun, if_pos hdeg] at h1
        cases h1
      rw [p4fun, if_neg hndeg] at h1
      rw [htix43] at h2
      have hpjn : pj < n := by
        have := txIndexGet_lt h2
        omega
      have hpart := (hLS3 j hjn).1 P pj h1 h2
      have hPid : (getTx s3.1 pj).id = P := txIndexGet_id h2
      have hndegp : ¬((getTx s3.1 pj).linked_tx_prev_id ≠ none ∧
          (getTx s3.1 pj).linked_tx_prev_id = (getTx s3.1 pj).linked_tx_next_id) := by
        rintro ⟨hne, heq⟩
        -- the partner would be degenerate; then `j` itself is degenerate,
        -- contradicting h1 ≠ clearing
        have hprevp : (getTx s3.1 pj).linked_tx_prev_id = some (getTx s3.1 j).id := by
          rw [heq]
          exact hpart
        have hidxj : txIndexGet s3.1 (getTx s3.1 j).id = some j :=
          txIndexGet_eq_of_nodup hnds3 (by omega)
        have hjnext := (hLS3 pj hpjn).1 (getTx s3.1 j).id j hprevp hidxj
        rw [hPid] at hjnext
        exact hndeg ⟨by rw [h1]; simp, by rw [h1, hjnext]⟩
      rw [hpw4 pj hpjn, p4fun, if_neg hndegp, hpw4 j hjn, p4fun, if_neg hndeg]
      exact hpart
    · intro N nj h1 h2
      rw [hpw4 j hjn] at h1
      have hndeg : ¬((getTx s3.1 j).linked_tx_prev_id ≠ none ∧
          (getTx s3.1 j).linked_tx_prev_id = (getTx s3.1 j).linked_tx_next_id) := by
        intro hdeg
        rw [p4fun, if_pos hdeg] at h1
        cases h1
      rw [p4fun, if_neg hndeg] at h1
      rw [htix43] at h2
      have hnjn : nj < n := by
        have := txIndexGet_lt h2
        omega
      have hpart := (hLS3 j hjn).2 N nj h1 h2
      have hNid : (getTx s3.1 nj).id = N := txIndexGet_id h2
      have hndegp : ¬((getTx s3.1 nj).linked_tx_prev_id ≠ none ∧
          (getTx s3.1 nj).linked_tx_prev_id = (getTx s3.1 nj).linked_tx_next_id) := by
        rintro ⟨hne, heq⟩
        have hnextp : (getTx s3.1 nj).linked_tx_next_id = some (getTx s3.1 j).id := by
          rw [← heq]
          exact hpart
        have hidxj : txIndexGet s3.1 (getTx s3.1 j).id = some j :=
          txIndexGet_eq_of_nodup hnds3 (by omega)
        have hjprev := (hLS3 nj hnjn).2 (getTx s3.1 j).id j hnextp hidxj
        rw [hNid] at hjprev
        refine hndeg ⟨?_, by rw [h1, hjprev]⟩
        rw [hjprev]
        simp
      rw [hpw4 nj hnjn, p4fun, if_neg hndegp, hpw4 j hjn, p4fun, if_neg hndeg]
      exact hpart
  -- WFL survives pass 4
  have hwf4 : WFL (items.map Txn.id) s4.1 := by
    intro tx htx
    obtain ⟨j, hjlt, hget⟩ := List.mem_iff_getElem.mp htx
    have hjn : j < n := by omega
    have : getTx s4.1 j = tx := by
      rw [getTx_eq_getElem hjlt, hget]
    rw [← this, hpw4 j hjn]
    have hwfj := hwf3 (getTx s3.1 j) (getTx_mem (show j < s3.1.length by omega))
    unfold p4fun
    split
    · exact ⟨wfP_none, wfP_none⟩
    · exact hwfj
  rw [hres]
  refine ⟨?_, ?_, ?_⟩
  · -- WF: membership version
    intro tx htx
    have h := hwf4 tx htx
    refine ⟨?_, ?_⟩ <;> intro p hp
    · obtain ⟨h0, hmem⟩ := (h.1) p hp
      refine ⟨h0, ?_⟩
      exact (exists_id_congr hids4 p).mpr
        ((exists_id_congr (Eq.refl (items.map Txn.id)) p).mp
          (by
            obtain ⟨u, hu, hup⟩ := List.mem_map.mp hmem
            exact ⟨u, hu, hup⟩))
    · obtain ⟨h0, hmem⟩ := (h.2) p hp
      refine ⟨h0, ?_⟩
      exact (exists_id_congr hids4 p).mpr
        ((exists_id_congr (Eq.refl (items.map Txn.id)) p).mp
          (by
            obtain ⟨u, hu, hup⟩ := List.mem_map.mp hmem
            exact ⟨u, hu, hup⟩))
  · -- Sym: membership version from positional LSym
    intro a ha b hb
    obtain ⟨ja, hja, hgeta⟩ := List.mem_iff_getElem.mp ha
    obtain ⟨jb, hjb, hgetb⟩ := List.mem_iff_getElem.mp hb
    have hat : getTx s4.1 ja = a := by rw [getTx_eq_getElem hja, hgeta]
    have hbt : getTx s4.1 jb = b := by rw [getTx_eq_getElem hjb, hgetb]
    have hidxb : txIndexGet s4.1 b.id = some jb := by
      rw [← hbt]
      exact txIndexGet_eq_of_nodup hnds4 hjb
    constructor
    · intro hab
      have := (hLS4 ja (by omega)).1 b.id jb (by rw [hat]; exact hab) hidxb
      rw [hbt, hat] at this
      exact this
    · intro hab
      have := (hLS4 ja (by omega)).2 b.id jb (by rw [hat]; exact hab) hidxb
      rw [hbt, hat] at this
      exact this
  · -- NoDeg from the pointwise pass-4 guard
    intro a ha
    obtain ⟨j, hjlt, hget⟩ := List.mem_iff_getElem.mp ha
    have hjn : j < n := by omega
    have hat : getTx s4.1 j = a := by rw [getTx_eq_getElem hjlt, hget]
    rw [← hat, hpw4 j hjn]
    unfold p4fun
    split
    · left
      rfl
    · rename_i hcond
      rw [not_and_or] at hcond
      rcases hcond with hc | hc
      · left
        simpa using hc
      · right
        exact hc

/-! ## Claim-level helpers for the normalizer -/

/-- A transaction with given id and link pointers (other fields defaulted);
used for concrete counterexamples and witnesses. -/
def mkLinkTxn (i : Int) (p nx : Option Int) : Txn :=
  { id := i, asset_symbol := "", tx_type := "", amount := mkRat 0 1, price_fiat := none,
    fiat_currency := "", timestamp := "", source := none, note := none, tx_id := none,
    fiat_value := none, value_eur := none, value_usd := none,
    linked_tx_prev_id := p, linked_tx_next_id := nx }

/-- The per-id link state: the `(prev, next)` pair of the entry carrying id
`k` (the last such entry, as in `buildTxIndex`). -/
def linkStateAt (l : List Txn) (k : Int) : Option (Option Int × Option Int) :=
  (txIndexGet l k).map
    (fun j => ((getTx l j).linked_tx_prev_id, (getTx l j).linked_tx_next_id))

theorem LinkInv_of_perm {l l' : List Txn} (hperm : l'.Perm l) (h : LinkInv l) :
    LinkInv l' := by
  obtain ⟨hwf, hsym, hdeg⟩ := h
  have hmem : ∀ x, x ∈ l' ↔ x ∈ l := fun x => hperm.mem_iff
  refine ⟨?_, ?_, ?_⟩
  · intro tx htx
    obtain ⟨h1, h2⟩ := hwf tx ((hmem tx).mp htx)
    constructor <;> intro p hp
    · obtain ⟨h0, u, hu, hup⟩ := h1 p hp
      exact ⟨h0, u, (hmem u).mpr hu, hup⟩
    · obtain ⟨h0, u, hu, hup⟩ := h2 p hp
      exact ⟨h0, u, (hmem u).mpr hu, hup⟩
  · intro a ha b hb
    exact hsym a ((hmem a).mp ha) b ((hmem b).mp hb)
  · intro a ha
    exact hdeg a ((hmem a).mp ha)

theorem PosIds_of_perm {l l' : List Txn} (hperm : l'.Perm l) (h : PosIds l) :
    PosIds l' := fun tx htx => h tx (hperm.mem_iff.mp htx)

theorem NodupIds_of_perm {l l' : List Txn} (hperm : l'.Perm l) (h : NodupIds l) :
    NodupIds l' := ((hperm.map Txn.id).nodup_iff).mpr h

theorem mem_id_unique {l : List Txn} (hnd : (l.map Txn.id).Nodup)
    {u v : Txn} (hu : u ∈ l) (hv : v ∈ l) (hid : u.id = v.id) : u = v := by
  obtain ⟨i, hi, hgu⟩ := List.mem_iff_getElem.mp hu
  obtain ⟨j, hj, hgv⟩ := List.mem_iff_getElem.mp hv
  have hi' : i < (l.map Txn.id).length := by simpa using hi
  have hj' : j < (l.map Txn.id).length := by simpa using hj
  have h1 : (l.map Txn.id).get ⟨i, hi'⟩ = u.id := by simp [hgu]
  have h2 : (l.map Txn.id).get ⟨j, hj'⟩ = v.id := by simp [hgv]
  have : i = j := by
    apply (List.Nodup.getElem_inj_iff hnd).mp
    show (l.map Txn.id).get ⟨i, hi'⟩ = (l.map Txn.id).get ⟨j, hj'⟩
    rw [h1, h2, hid]
  subst this
  rw [← hgu, ← hgv]

instance (l : List Txn) : Decidable (PosIds l) := by
  unfold PosIds
  infer_instance

instance (l : List Txn) : Decidable (NodupIds l) := by
  unfold NodupIds
  exact List.nodupDecidable _

instance (ids : List Int) (o : Option Int) : Decidable (wfP ids o) :=
  match o with
  | none => isTrue wfP_none
  | some v =>
      if h : 0 < v ∧ v ∈ ids then
        isTrue (by
          intro p hp
          cases hp
          exact h)
      else isFalse (fun hw => h (hw v rfl))

instance (l : List Txn) (o : Option Int) : Decidable (wfPtr l o) :=
  match o with
  | none => isTrue (by
      intro p hp
      cases hp)
  | some v =>
      if h : 0 < v ∧ ∃ u ∈ l, u.id = v then
        isTrue (by
          intro p hp
          cases hp
          exact h)
      else isFalse (fun hw => h (hw v rfl))

instance (l : List Txn) : Decidable (WF l) := by
  unfold WF
  infer_instance

instance (l : List Txn) : Decidable (Sym l) := by
  unfold Sym
  infer_instance

instance (l : List Txn) : Decidable (NoDeg l) := by
  unfold NoDeg
  infer_instance

instance (l : List Txn) : Decidable (LinkInv l) := by
  unfold LinkInv
  infer_instance

theorem txIndexGet_mem_char {l : List Txn} {k : Int} {j : Nat}
    (h : txIndexGet l k = some j) : getTx l j ∈ l ∧ (getTx l j).id = k :=
  ⟨getTx_mem (txIndexGet_lt h), txIndexGet_id h⟩

theorem linkStateAt_congr_of_perm {l l' : List Txn} (hperm : l'.Perm l)
    (hnd : (l.map Txn.id).Nodup) (k : Int) : linkStateAt l' k = linkStateAt l k := by
  have hnd' : (l'.map Txn.id).Nodup := ((hperm.map Txn.id).nodup_iff).mpr hnd
  unfold linkStateAt
  rcases h1 : txIndexGet l' k with _ | j1 <;> rcases h2 : txIndexGet l k with _ | j2
  · rfl
  · exfalso
    obtain ⟨hm, hid⟩ := txIndexGet_mem_char h2
    obtain ⟨j, hj⟩ := txIndexGet_isSome_of_mem ⟨getTx l j2, hperm.mem_iff.mpr hm, hid⟩
    rw [hj] at h1
    cases h1
  · exfalso
    obtain ⟨hm, hid⟩ := txIndexGet_mem_char h1
    obtain ⟨j, hj⟩ := txIndexGet_isSome_of_mem ⟨getTx l' j1, hperm.mem_iff.mp hm, hid⟩
    rw [hj] at h2
    cases h2
  · obtain ⟨hm1, hid1⟩ := txIndexGet_mem_char h1
    obtain ⟨hm2, hid2⟩ := txIndexGet_mem_char h2
    have : getTx l' j1 = getTx l j2 :=
      mem_id_unique hnd (hperm.mem_iff.mp hm1) hm2 (by rw [hid1, hid2])
    simp [this]

/-! ## C1 — idempotence of `normalizeLinkedTransactionGraph` -/

/-- C1 (counterexample): on a list containing a non-positive transaction id,
the second run of the normalizer reports `changed = true` again, refuting the
claim as stated for arbitrary transaction lists.  (Pass 2 copies the raw id
`-5` into a neighbour's pointer, pass 3 cannot see it, and the next run's
sanitize pass strips and rewrites it again.) -/
theorem normalize_not_idempotent_counterexample :
    (normalizeLinkedTransactionGraph
      (normalizeLinkedTransactionGraph
        [mkLinkTxn (-5) (some 1) none, mkLinkTxn 1 none none]).1).2 = true := by
  decide

/-- C1 (amended): on every transaction list whose ids are pairwise-distinct
positive integers, normalizing a second time changes nothing: the list is
returned unchanged and the second call reports `changed = false`. -/
theorem normalize_idempotent {items : List Txn}
    (hpos : PosIds items) (hnd : NodupIds items) :
    normalizeLinkedTransactionGraph (normalizeLinkedTransactionGraph items).1 =
      ((normalizeLinkedTransactionGraph items).1, false) := by
  have hinv := normalize_establishes_inv hpos hnd
  have hpos' : PosIds (normalizeLinkedTransactionGraph items).1 := by
    rw [posIds_iff, normalize_preserves_ids]
    exact posIds_iff.mp hpos
  exact normalize_fix_of_inv hinv hpos'

/-- C1 witness: the amended theorem applied to a concrete two-element list. -/
theorem normalize_idempotent_witness :
    normalizeLinkedTransactionGraph
      (normalizeLinkedTransactionGraph
        [mkLinkTxn 1 (some 2) none, mkLinkTxn 2 none none]).1 =
      ((normalizeLinkedTransactionGraph
        [mkLinkTxn 1 (some 2) none, mkLinkTxn 2 none none]).1, false) :=
  normalize_idempotent (by decide) (by decide)

/-! ## C2 — the invariants established by the normalizer -/

/-- C2 (counterexample): with a duplicated transaction id the claimed
symmetry biconditional fails on the normalizer's output: the list
`[{id 1}, {id 1, next 2}, {id 2, prev 1}]` is returned unchanged, yet the
first entry has `id = 1 = C.prev` while its `next` is `null`. -/
theorem normalize_inv_counterexample :
    ¬ (∀ a ∈ (normalizeLinkedTransactionGraph
          [mkLinkTxn 1 none none, mkLinkTxn 1 none (some 2),
            mkLinkTxn 2 (some 1) none]).1,
        ∀ b ∈ (normalizeLinkedTransactionGraph
          [mkLinkTxn 1 none none, mkLinkTxn 1 none (some 2),
            mkLinkTxn 2 (some 1) none]).1,
        (a.linked_tx_next_id = some b.id ↔ b.linked_tx_prev_id = some a.id)) := by
  decide

/-- C2 (amended): for every input list whose ids are pairwise-distinct
positive integers — including cyclic, self-referential, dangling or
duplicated link pointers — after `normalizeLinkedTransactionGraph` returns,
the list satisfies: the symmetry biconditional, no self-references, no
reference to an id that is not present, and no `prev == next` with both
non-null. -/
theorem normalize_invariants {items : List Txn}
    (hpos : PosIds items) (hnd : NodupIds items) :
    (∀ a ∈ (normalizeLinkedTransactionGraph items).1,
      ∀ b ∈ (normalizeLinkedTransactionGraph items).1,
        (a.linked_tx_next_id = some b.id ↔ b.linked_tx_prev_id = some a.id)) ∧
    (∀ a ∈ (normalizeLinkedTransactionGraph items).1,
        a.linked_tx_prev_id ≠ some a.id ∧ a.linked_tx_next_id ≠ some a.id) ∧
    (∀ a ∈ (normalizeLinkedTransactionGraph items).1, ∀ p : Int,
        (a.linked_tx_prev_id = some p ∨ a.linked_tx_next_id = some p) →
        ∃ b ∈ (normalizeLinkedTransactionGraph items).1, b.id = p) ∧
    (∀ a ∈ (normalizeLinkedTransactionGraph items).1,
        a.linked_tx_prev_id = none ∨ a.linked_tx_prev_id ≠ a.linked_tx_next_id) := by
  have hinv := normalize_establishes_inv hpos hnd
  obtain ⟨hwf, hsym, hdeg⟩ := hinv
  refine ⟨?_, ?_, ?_, hdeg⟩
  · intro a ha b hb
    exact ⟨(hsym a ha b hb).2, fun h => (hsym b hb a ha).1 h⟩
  · exact no_self_ref_of_inv ⟨hwf, hsym, hdeg⟩
  · intro a ha p hp
    rcases hp with hp | hp
    · exact ((hwf a ha).1 p hp).2
    · exact ((hwf a ha).2 p hp).2

/-- C2 witness: the amended theorem applied to a concrete adversarial list
(a self-reference, a dangling pointer and a one-way pointer). -/
theorem normalize_invariants_witness :
    (∀ a ∈ (normalizeLinkedTransactionGraph
        [mkLinkTxn 1 (some 1) (some 99), mkLinkTxn 2 (some 1) none]).1,
      ∀ b ∈ (normalizeLinkedTransactionGraph
        [mkLinkTxn 1 (some 1) (some 99), mkLinkTxn 2 (some 1) none]).1,
        (a.linked_tx_next_id = some b.id ↔ b.linked_tx_prev_id = some a.id)) ∧
    (∀ a ∈ (normalizeLinkedTransactionGraph
        [mkLinkTxn 1 (some 1) (some 99), mkLinkTxn 2 (some 1) none]).1,
        a.linked_tx_prev_id ≠ some a.id ∧ a.linked_tx_next_id ≠ some a.id) ∧
    (∀ a ∈ (normalizeLinkedTransactionGraph
        [mkLinkTxn 1 (some 1) (some 99), mkLinkTxn 2 (some 1) none]).1, ∀ p : Int,
        (a.linked_tx_prev_id = some p ∨ a.linked_tx_next_id = some p) →
        ∃ b ∈ (normalizeLinkedTransactionGraph
          [mkLinkTxn 1 (some 1) (some 99), mkLinkTxn 2 (some 1) none]).1, b.id = p) ∧
    (∀ a ∈ (normalizeLinkedTransactionGraph
        [mkLinkTxn 1 (some 1) (some 99), mkLinkTxn 2 (some 1) none]).1,
        a.linked_tx_prev_id = none ∨ a.linked_tx_prev_id ≠ a.linked_tx_next_id) :=
  normalize_invariants (by decide) (by decide)

/-! ## C3 — order-(in)dependence of the normalizer -/

/-- C3 (counterexample): the normalizer is not order-independent.  With two
transactions both claiming `prev = 1`, the iteration order decides which
claim survives: the per-id link state of id `1` differs between the two
orders, although the inputs are permutations of each other. -/
theorem normalize_order_dependent_counterexample :
    ([mkLinkTxn 1 none none, mkLinkTxn 3 (some 1) none, mkLinkTxn 2 (some 1) none].Perm
      [mkLinkTxn 1 none none, mkLinkTxn 2 (some 1) none, mkLinkTxn 3 (some 1) none]) ∧
    linkStateAt (normalizeLinkedTransactionGraph
      [mkLinkTxn 1 none none, mkLinkTxn 3 (some 1) none, mkLinkTxn 2 (some 1) none]).1 1 ≠
    linkStateAt (normalizeLinkedTransactionGraph
      [mkLinkTxn 1 none none, mkLinkTxn 2 (some 1) none, mkLinkTxn 3 (some 1) none]).1 1 := by
  constructor
  · exact List.Perm.cons _ (List.Perm.swap _ _ _)
  · decide

/-- C3 (amended): the normalizer is order-independent on inputs that already
satisfy the link-graph invariants (with pairwise-distinct positive ids):
for any permutation of such a list, the per-id link state after normalizing
the permutation equals the per-id link state after normalizing the original.
On general inputs the result depends on the iteration order (see the
counterexample). -/
theorem normalize_order_independent_on_inv {items items' : List Txn}
    (hinv : LinkInv items) (hpos : PosIds items) (hnd : NodupIds items)
    (hperm : items'.Perm items) :
    ∀ k : Int,
      linkStateAt (normalizeLinkedTransactionGraph items').1 k =
      linkStateAt (normalizeLinkedTransactionGraph items).1 k := by
  intro k
  rw [normalize_fix_of_inv hinv hpos,
    normalize_fix_of_inv (LinkInv_of_perm hperm hinv) (PosIds_of_perm hperm hpos)]
  exact linkStateAt_congr_of_perm hperm hnd k

/-- C3 witness: the amended theorem applied to a concrete already-normalized
pair and its swap. -/
theorem normalize_order_independent_witness :
    linkStateAt (normalizeLinkedTransactionGraph
      [mkLinkTxn 2 (some 1) none, mkLinkTxn 1 none (some 2)]).1 1 =
    linkStateAt (normalizeLinkedTransactionGraph
      [mkLinkTxn 1 none (some 2), mkLinkTxn 2 (some 1) none]).1 1 :=
  normalize_order_independent_on_inv (by decide) (by decide) (by decide)
    (List.Perm.swap _ _ _) 1

/-! ## The local store and `deleteTransaction`

The store holds the transaction list of the active profile together with the
monotone id counter maintained by `profileStore.ts`
(`getNextActiveProfileTxId` returns the counter and increments it). -/

structure LocalStore where
  txs : List Txn
  nextId : Int
deriving DecidableEq, Repr

/-- `getNextLocalId` backed by the profile counter. -/
def getNextLocalId (store : LocalStore) : Int × LocalStore :=
  (store.nextId, { store with nextId := store.nextId + 1 })

/-- `LocalDataSource.deleteTransaction` (`dataSource.ts`, lines 757–785):
remove the transaction, bridge the neighbours that still point at it, then
normalize the whole graph and persist. -/
def deleteTransaction (txid : Int) (store : LocalStore) : LocalStore :=
  let items := store.txs
  let target := (txIndexGet items txid).map (fun j => getTx items j)
  let prevId := match target with
    | some t => sanitizeLinkedTxId t.linked_tx_prev_id
    | none => none
  let nextId := match target with
    | some t => sanitizeLinkedTxId t.linked_tx_next_id
    | none => none
  let filtered := items.filter (fun tx => decide (tx.id ≠ txid))
  let f1 := match prevId with
    | none => filtered
    | some p =>
        match txIndexGet filtered p with
        | none => filtered
        | some pj =>
            if (getTx filtered pj).linked_tx_next_id = some txid then
              filtered.set pj { getTx filtered pj with linked_tx_next_id := nextId }
            else filtered
  let f2 := match nextId with
    | none => f1
    | some nn =>
        match txIndexGet f1 nn with
        | none => f1
        | some nj =>
            if (getTx f1 nj).linked_tx_prev_id = some txid then
              f1.set nj { getTx f1 nj with linked_tx_prev_id := prevId }
            else f1
  { store with txs := (normalizeLinkedTransactionGraph f2).1 }

/-- Positions with distinct indices carry distinct ids in a list with
pairwise-distinct ids. -/
theorem id_ne_of_pos_ne {l : List Txn} (hnd : (l.map Txn.id).Nodup)
    {i j : Nat} (hi : i < l.length) (hj : j < l.length) (hij : i ≠ j) :
    (getTx l i).id ≠ (getTx l j).id := by
  intro h
  apply hij
  have hi' : i < (l.map Txn.id).length := by simpa using hi
  have hj' : j < (l.map Txn.id).length := by simpa using hj
  apply (List.Nodup.getElem_inj_iff hnd).mp
  show (l.map Txn.id).get ⟨i, hi'⟩ = (l.map Txn.id).get ⟨j, hj'⟩
  simp only [List.get_eq_getElem, List.getElem_map]
  rw [← getTx_eq_getElem hi, ← getTx_eq_getElem hj]
  exact h

/-- Membership in a list updated at two distinct positions. -/
theorem mem_set_set_char {l : List Txn} {pj nj : Nat} {a b : Txn}
    (hpj : pj < l.length) (hnj : nj < l.length) (hne : pj ≠ nj)
    (hnd : (l.map Txn.id).Nodup) (u : Txn) :
    u ∈ (l.set pj a).set nj b ↔
      u = a ∨ u = b ∨
        (u ∈ l ∧ u.id ≠ (getTx l pj).id ∧ u.id ≠ (getTx l nj).id) := by
  constructor
  · intro hu
    obtain ⟨m, hm, hget⟩ := List.mem_iff_getElem.mp hu
    have hm' : m < l.length := by simpa using hm
    rw [List.getElem_set] at hget
    by_cases hmn : nj = m
    · subst hmn
      rw [if_pos rfl] at hget
      right; left
      exact hget.symm
    · rw [if_neg hmn] at hget
      have hm'' : m < (l.set pj a).length := by simpa using hm'
      rw [List.getElem_set] at hget
      by_cases hmp : pj = m
      · subst hmp
        rw [if_pos rfl] at hget
        left
        exact hget.symm
      · rw [if_neg hmp] at hget
        right; right
        refine ⟨by rw [← hget]; exact List.getElem_mem hm', ?_, ?_⟩
        · rw [← hget, ← getTx_eq_getElem hm']
          exact id_ne_of_pos_ne hnd hm' hpj (fun h => hmp h.symm)
        · rw [← hget, ← getTx_eq_getElem hm']
          exact id_ne_of_pos_ne hnd hm' hnj (fun h => hmn h.symm)
  · intro hu
    rcases hu with rfl | rfl | ⟨hul, hid1, hid2⟩
    · refine List.mem_iff_getElem.mpr ⟨pj, by simpa using hpj, ?_⟩
      rw [List.getElem_set, if_neg (fun h => hne h.symm), List.getElem_set, if_pos rfl]
    · refine List.mem_iff_getElem.mpr ⟨nj, by simpa using hnj, ?_⟩
      rw [List.getElem_set, if_pos rfl]
    · obtain ⟨m, hm, hget⟩ := List.mem_iff_getElem.mp hul
      have hmp : pj ≠ m := by
        intro h
        subst h
        rw [← hget, ← getTx_eq_getElem hm] at hid1
        exact hid1 rfl
      have hmn : nj ≠ m := by
        intro h
        subst h
        rw [← hget, ← getTx_eq_getElem hm] at hid2
        exact hid2 rfl
      refine List.mem_iff_getElem.mpr ⟨m, by simpa using hm, ?_⟩
      rw [List.getElem_set, if_neg hmn, List.getElem_set, if_neg hmp]
      exact hget

theorem getD_map_id (l : List Txn) (j : Nat) :
    (l.map Txn.id).getD j default = (getTx l j).id := by
  rw [getTx, List.getD_eq_getElem?_getD, List.getD_eq_getElem?_getD, List.getElem?_map]
  cases l[j]? with
  | none => rfl
  | some x => rfl

theorem map_id_set_eq {l : List Txn} {j : Nat} {v : Txn}
    (h : (getTx l j).id = v.id) : (l.set j v).map Txn.id = l.map Txn.id := by
  rw [List.map_set, ← h, ← getD_map_id, set_self_getD]

/-- Evaluation of `deleteTransaction` on a well-linked middle element: both
neighbours still point at the deleted transaction, so filtering and bridging
produce the doubly-updated list, which is then normalized. -/
theorem deleteTransaction_eval {store : LocalStore} {T P N : Txn} {jT pj nj : Nat}
    (hjT : txIndexGet store.txs T.id = some jT)
    (hgetT : getTx store.txs jT = T)
    (hTprev : T.linked_tx_prev_id = some P.id)
    (hTnext : T.linked_tx_next_id = some N.id)
    (hPpos : 0 < P.id) (hNpos : 0 < N.id)
    (hpj : txIndexGet (store.txs.filter (fun tx => decide (tx.id ≠ T.id))) P.id = some pj)
    (hgetP : getTx (store.txs.filter (fun tx => decide (tx.id ≠ T.id))) pj = P)
    (hPnext : P.linked_tx_next_id = some T.id)
    (hnj : txIndexGet (store.txs.filter (fun tx => decide (tx.id ≠ T.id))) N.id = some nj)
    (hgetN : getTx (store.txs.filter (fun tx => decide (tx.id ≠ T.id))) nj = N)
    (hNprev : N.linked_tx_prev_id = some T.id)
    (hpjnj : pj ≠ nj) :
    (deleteTransaction T.id store).txs =
      (normalizeLinkedTransactionGraph
        (((store.txs.filter (fun tx => decide (tx.id ≠ T.id))).set pj
            { P with linked_tx_next_id := some N.id }).set nj
            { N with linked_tx_prev_id := some P.id })).1 := by
  have hids1 : ((store.txs.filter (fun tx => decide (tx.id ≠ T.id))).set pj
      { P with linked_tx_next_id := some N.id }).map Txn.id =
      (store.txs.filter (fun tx => decide (tx.id ≠ T.id))).map Txn.id :=
    map_id_set_eq (by rw [hgetP])
  have hnj1 : txIndexGet ((store.txs.filter (fun tx => decide (tx.id ≠ T.id))).set pj
      { P with linked_tx_next_id := some N.id }) N.id = some nj := by
    rw [txIndexGet_congr hids1, hnj]
  have hgetN1 : getTx ((store.txs.filter (fun tx => decide (tx.id ≠ T.id))).set pj
      { P with linked_tx_next_id := some N.id }) nj = N := by
    rw [getTx_set_ne hpjnj, hgetN]
  simp only [deleteTransaction, hjT, Option.map_some', hgetT, hTprev, hTnext,
    sanitizeLinkedTxId, hPpos, if_true, hNpos, hpj, hgetP, hPnext, hnj1, hgetN1, hNprev]

/-! ## C10 — `deleteTransaction` bridges a broken chain -/

/-- C10 counterexample: in the 3-cycle `1 → 2 → 3 → 1`, deleting `2` meets all
the claim's premises (`P = 1` with `linked_tx_next_id = 2`, `N = 3` with
`linked_tx_prev_id = 2`, `P ≠ N`), yet after the delete no surviving
transaction with id `1` has `linked_tx_next_id = 3`: the normalizer clears the
degenerate `prev = next` links, so the chain is not bridged. -/
theorem deleteTransaction_cycle_counterexample :
    (mkLinkTxn 1 (some 3) (some 2)).linked_tx_next_id = some (mkLinkTxn 2 (some 1) (some 3)).id ∧
    (mkLinkTxn 3 (some 2) (some 1)).linked_tx_prev_id = some (mkLinkTxn 2 (some 1) (some 3)).id ∧
    (mkLinkTxn 1 (some 3) (some 2)).id ≠ (mkLinkTxn 3 (some 2) (some 1)).id ∧
    ¬ ∃ u ∈ (deleteTransaction 2
        { txs := [mkLinkTxn 1 (some 3) (some 2), mkLinkTxn 2 (some 1) (some 3),
          mkLinkTxn 3 (some 2) (some 1)], nextId := 4 }).txs,
        u.id = 1 ∧ u.linked_tx_next_id = some 3 := by decide

/-- C10: when `deleteTransaction` removes a transaction `T` in the middle of
a link chain (a predecessor `P` with `P.linked_tx_next_id == T.id` and a
distinct successor `N` with `N.linked_tx_prev_id == T.id`, and `P` is not
itself `N`'s successor, i.e. the three do not form a cycle), the chain is
bridged: the persisted list consists exactly of `P` with
`linked_tx_next_id := N.id`, `N` with `linked_tx_prev_id := P.id`, and every
other transaction unchanged; `T` is gone.  (Stated for stores satisfying the
link invariant with distinct positive ids, which every normalized store
does.) -/
theorem deleteTransaction_bridges_chain {store : LocalStore} {T P N : Txn}
    (hpos : PosIds store.txs) (hnd : NodupIds store.txs) (hinv : LinkInv store.txs)
    (hT : T ∈ store.txs) (hP : P ∈ store.txs) (hN : N ∈ store.txs)
    (hPnext : P.linked_tx_next_id = some T.id)
    (hNprev : N.linked_tx_prev_id = some T.id)
    (hPN : P.id ≠ N.id)
    (hchain : P.linked_tx_prev_id ≠ some N.id) :
    (∃ Pb ∈ (deleteTransaction T.id store).txs,
        Pb = { P with linked_tx_next_id := some N.id }) ∧
    (∃ Nb ∈ (deleteTransaction T.id store).txs,
        Nb = { N with linked_tx_prev_id := some P.id }) ∧
    (∀ u ∈ (deleteTransaction T.id store).txs,
        u = { P with linked_tx_next_id := some N.id } ∨
        u = { N with linked_tx_prev_id := some P.id } ∨
        (u ∈ store.txs ∧ u.id ≠ T.id ∧ u.id ≠ P.id ∧ u.id ≠ N.id)) ∧
    (∀ u ∈ store.txs, u.id ≠ T.id → u.id ≠ P.id → u.id ≠ N.id →
        u ∈ (deleteTransaction T.id store).txs) := by
  obtain ⟨hwf, hsym, hdeg⟩ := hinv
  have hself := no_self_ref_of_inv ⟨hwf, hsym, hdeg⟩
  -- basic id facts
  have hPT : P.id ≠ T.id := by
    intro h
    have : P = T := mem_id_unique hnd hP hT h
    subst this
    rw [h] at hPnext
    exact (hself P hP).2 hPnext
  have hNT : N.id ≠ T.id := by
    intro h
    have : N = T := mem_id_unique hnd hN hT h
    subst this
    rw [h] at hNprev
    exact (hself N hN).1 hNprev
  have hTprev : T.linked_tx_prev_id = some P.id := (hsym P hP T hT).2 hPnext
  have hTnext : T.linked_tx_next_id = some N.id := (hsym N hN T hT).1 hNprev
  have hPpos : 0 < P.id := hpos P hP
  have hNpos : 0 < N.id := hpos N hN
  -- pointer exclusions
  have eP2 : P.linked_tx_prev_id ≠ some T.id := by
    intro h
    have := (hsym P hP T hT).1 h
    rw [hTnext] at this
    exact hPN (Option.some.inj this).symm
  have eN2 : N.linked_tx_next_id ≠ some T.id := by
    intro h
    have := (hsym N hN T hT).2 h
    rw [hTprev] at this
    exact hPN (Option.some.inj this)
  have eN3 : N.linked_tx_next_id ≠ some P.id := by
    intro h
    exact hchain ((hsym N hN P hP).2 h)
  have eG : ∀ G ∈ store.txs, G.id ≠ P.id → G.id ≠ N.id →
      G.linked_tx_prev_id ≠ some T.id ∧ G.linked_tx_next_id ≠ some T.id := by
    intro G hG hGP hGN
    constructor
    · intro h
      have := (hsym G hG T hT).1 h
      rw [hTnext] at this
      exact hGN (by injection this with h'; rw [h'])
    · intro h
      have := (hsym G hG T hT).2 h
      rw [hTprev] at this
      exact hGP (by injection this with h'; rw [h'])
  -- evaluate the function
  obtain ⟨jT, hjT⟩ := txIndexGet_isSome_of_mem ⟨T, hT, rfl⟩
  have hgetT : getTx store.txs jT = T :=
    mem_id_unique hnd (txIndexGet_mem_char hjT).1 hT (txIndexGet_mem_char hjT).2
  have hmemf : ∀ u : Txn,
      u ∈ store.txs.filter (fun tx => decide (tx.id ≠ T.id)) ↔
        u ∈ store.txs ∧ u.id ≠ T.id := by
    intro u
    simp [List.mem_filter]
  have hfnd : ((store.txs.filter (fun tx => decide (tx.id ≠ T.id))).map Txn.id).Nodup :=
    List.Nodup.sublist (List.Sublist.map Txn.id (List.filter_sublist store.txs)) hnd
  have hPf : P ∈ store.txs.filter (fun tx => decide (tx.id ≠ T.id)) :=
    (hmemf P).mpr ⟨hP, hPT⟩
  have hNf : N ∈ store.txs.filter (fun tx => decide (tx.id ≠ T.id)) :=
    (hmemf N).mpr ⟨hN, hNT⟩
  obtain ⟨pj, hpj⟩ := txIndexGet_isSome_of_mem ⟨P, hPf, rfl⟩
  have hgetP : getTx (store.txs.filter (fun tx => decide (tx.id ≠ T.id))) pj = P :=
    mem_id_unique hfnd (txIndexGet_mem_char hpj).1 hPf (txIndexGet_mem_char hpj).2
  obtain ⟨nj, hnj⟩ := txIndexGet_isSome_of_mem ⟨N, hNf, rfl⟩
  have hgetN : getTx (store.txs.filter (fun tx => decide (tx.id ≠ T.id))) nj = N :=
    mem_id_unique hfnd (txIndexGet_mem_char hnj).1 hNf (txIndexGet_mem_char hnj).2
  have hpjnj : pj ≠ nj := by
    intro h
    rw [h, hgetN] at hgetP
    exact hPN (by rw [hgetP])
  have heval := deleteTransaction_eval hjT hgetT hTprev hTnext hPpos hNpos
    hpj hgetP hPnext hnj hgetN hNprev hpjnj
  -- the bridged list and its membership characterization
  have hpjlt := txIndexGet_lt hpj
  have hnjlt := txIndexGet_lt hnj
  have hchar : ∀ u : Txn,
      u ∈ ((store.txs.filter (fun tx => decide (tx.id ≠ T.id))).set pj
            { P with linked_tx_next_id := some N.id }).set nj
            { N with linked_tx_prev_id := some P.id } ↔
        u = { P with linked_tx_next_id := some N.id } ∨
        u = { N with linked_tx_prev_id := some P.id } ∨
        (u ∈ store.txs ∧ u.id ≠ T.id ∧ u.id ≠ P.id ∧ u.id ≠ N.id) := by
    intro u
    rw [mem_set_set_char hpjlt hnjlt hpjnj hfnd, hgetP, hgetN]
    constructor
    · rintro (h | h | ⟨hm, h1, h2⟩)
      · exact Or.inl h
      · exact Or.inr (Or.inl h)
      · obtain ⟨hm', hmT⟩ := (hmemf u).mp hm
        exact Or.inr (Or.inr ⟨hm', hmT, h1, h2⟩)
    · rintro (h | h | ⟨hm, hmT, h1, h2⟩)
      · exact Or.inl h
      · exact Or.inr (Or.inl h)
      · exact Or.inr (Or.inr ⟨(hmemf u).mpr ⟨hm, hmT⟩, h1, h2⟩)
  -- id witnesses survive the bridge
  have idwit : ∀ q : Int, q ≠ T.id → (∃ v ∈ store.txs, v.id = q) →
      ∃ v ∈ ((store.txs.filter (fun tx => decide (tx.id ≠ T.id))).set pj
            { P with linked_tx_next_id := some N.id }).set nj
            { N with linked_tx_prev_id := some P.id }, v.id = q := by
    intro q hqT ⟨v, hv, hvq⟩
    by_cases hvP : v.id = P.id
    · refine ⟨{ P with linked_tx_next_id := some N.id }, (hchar _).mpr (Or.inl rfl), ?_⟩
      show P.id = q
      rw [← hvP, hvq]
    · by_cases hvN : v.id = N.id
      · refine ⟨{ N with linked_tx_prev_id := some P.id }, (hchar _).mpr (Or.inr (Or.inl rfl)), ?_⟩
        show N.id = q
        rw [← hvN, hvq]
      · refine ⟨v, (hchar _).mpr (Or.inr (Or.inr ⟨hv, ?_, hvP, hvN⟩)), hvq⟩
        rw [hvq]
        exact hqT
  -- the bridged list satisfies the invariant
  have hinvB : LinkInv (((store.txs.filter (fun tx => decide (tx.id ≠ T.id))).set pj
      { P with linked_tx_next_id := some N.id }).set nj
      { N with linked_tx_prev_id := some P.id }) := by
    refine ⟨?_, ?_, ?_⟩
    · -- WF
      intro u hu
      rcases (hchar u).mp hu with rfl | rfl | ⟨hm, hmT, h1, h2⟩
      · constructor
        · show wfPtr _ P.linked_tx_prev_id
          intro q hq
          obtain ⟨hq0, hqwit⟩ := (hwf P hP).1 q hq
          refine ⟨hq0, idwit q ?_ hqwit⟩
          intro h
          rw [h] at hq
          exact eP2 hq
        · show wfPtr _ (some N.id)
          intro q hq
          cases hq
          exact ⟨hNpos, idwit N.id hNT ⟨N, hN, rfl⟩⟩
      · constructor
        · show wfPtr _ (some P.id)
          intro q hq
          cases hq
          exact ⟨hPpos, idwit P.id hPT ⟨P, hP, rfl⟩⟩
        · show wfPtr _ N.linked_tx_next_id
          intro q hq
          obtain ⟨hq0, hqwit⟩ := (hwf N hN).2 q hq
          refine ⟨hq0, idwit q ?_ hqwit⟩
          intro h
          rw [h] at hq
          exact eN2 hq
      · obtain ⟨egp, egn⟩ := eG u hm h1 h2
        constructor
        · intro q hq
          obtain ⟨hq0, hqwit⟩ := (hwf u hm).1 q hq
          refine ⟨hq0, idwit q ?_ hqwit⟩
          intro h
          rw [h] at hq
          exact egp hq
        · intro q hq
          obtain ⟨hq0, hqwit⟩ := (hwf u hm).2 q hq
          refine ⟨hq0, idwit q ?_ hqwit⟩
          intro h
          rw [h] at hq
          exact egn hq
    · -- Sym
      intro x hx y hy
      rcases (hchar x).mp hx with rfl | rfl | ⟨hxm, hxT, hx1, hx2⟩ <;>
        rcases (hchar y).mp hy with rfl | rfl | ⟨hym, hyT, hy1, hy2⟩
      · -- A, A
        constructor
        · intro h
          exact absurd h (by
            show P.linked_tx_prev_id ≠ some P.id
            exact (hself P hP).1)
        · intro h
          have : N.id = P.id := by
            injection h
          exact absurd this.symm hPN
      · -- A, B
        constructor
        · intro h
          exact absurd h (by
            show P.linked_tx_prev_id ≠ some N.id
            exact hchain)
        · intro _
          rfl
      · -- A, G
        constructor
        · intro h
          have := (hsym P hP y hym).1 h
          show y.linked_tx_next_id = some P.id
          exact this
        · intro h
          have : N.id = y.id := by injection h
          exact absurd this.symm hy2
      · -- B, A
        constructor
        · intro _
          rfl
        · intro h
          exact absurd h (by
            show N.linked_tx_next_id ≠ some P.id
            exact eN3)
      · -- B, B
        constructor
        · intro h
          have : P.id = N.id := by injection h
          exact absurd this hPN
        · intro h
          exact absurd h (by
            show N.linked_tx_next_id ≠ some N.id
            exact (hself N hN).2)
      · -- B, G
        constructor
        · intro h
          have : P.id = y.id := by injection h
          exact absurd this.symm hy1
        · intro h
          have := (hsym N hN y hym).2 h
          show y.linked_tx_prev_id = some N.id
          exact this
      · -- G, A
        constructor
        · intro h
          have := (hsym x hxm P hP).1 h
          rw [hPnext] at this
          exact absurd (show x.id = T.id by injection this with h'; rw [← h']) hxT
        · intro h
          show P.linked_tx_prev_id = some x.id
          exact (hsym x hxm P hP).2 h
      · -- G, B
        constructor
        · intro h
          show N.linked_tx_next_id = some x.id
          exact (hsym x hxm N hN).1 h
        · intro h
          have := (hsym x hxm N hN).2 h
          rw [hNprev] at this
          exact absurd (show x.id = T.id by injection this with h'; rw [← h']) hxT
      · -- G, G
        exact hsym x hxm y hym
    · -- NoDeg
      intro u hu
      rcases (hchar u).mp hu with rfl | rfl | ⟨hm, hmT, h1, h2⟩
      · right
        show P.linked_tx_prev_id ≠ some N.id
        exact hchain
      · right
        show some P.id ≠ N.linked_tx_next_id
        intro h
        exact eN3 h.symm
      · exact hdeg u hm
  have hposB : PosIds (((store.txs.filter (fun tx => decide (tx.id ≠ T.id))).set pj
      { P with linked_tx_next_id := some N.id }).set nj
      { N with linked_tx_prev_id := some P.id }) := by
    intro u hu
    rcases (hchar u).mp hu with rfl | rfl | ⟨hm, _, _, _⟩
    · exact hPpos
    · exact hNpos
    · exact hpos u hm
  have hfix := normalize_fix_of_inv hinvB hposB
  have hout : (deleteTransaction T.id store).txs =
      ((store.txs.filter (fun tx => decide (tx.id ≠ T.id))).set pj
        { P with linked_tx_next_id := some N.id }).set nj
        { N with linked_tx_prev_id := some P.id } := by
    rw [heval, hfix]
  refine ⟨⟨_, ?_, rfl⟩, ⟨_, ?_, rfl⟩, ?_, ?_⟩
  · rw [hout]
    exact (hchar _).mpr (Or.inl rfl)
  · rw [hout]
    exact (hchar _).mpr (Or.inr (Or.inl rfl))
  · intro u hu
    rw [hout] at hu
    exact (hchar u).mp hu
  · intro u hu huT huP huN
    rw [hout]
    exact (hchar u).mpr (Or.inr (Or.inr ⟨hu, huT, huP, huN⟩))

/-- C10 witness: deleting the middle of the concrete chain `1 ↔ 2 ↔ 3`
bridges `1` and `3`. -/
theorem deleteTransaction_bridges_witness :
    (∃ Pb ∈ (deleteTransaction (mkLinkTxn 2 (some 1) (some 3)).id
        { txs := [mkLinkTxn 1 none (some 2), mkLinkTxn 2 (some 1) (some 3),
          mkLinkTxn 3 (some 2) none], nextId := 4 }).txs,
        Pb = { mkLinkTxn 1 none (some 2) with
          linked_tx_next_id := some (mkLinkTxn 3 (some 2) none).id }) ∧
    (∃ Nb ∈ (deleteTransaction (mkLinkTxn 2 (some 1) (some 3)).id
        { txs := [mkLinkTxn 1 none (some 2), mkLinkTxn 2 (some 1) (some 3),
          mkLinkTxn 3 (some 2) none], nextId := 4 }).txs,
        Nb = { mkLinkTxn 3 (some 2) none with
          linked_tx_prev_id := some (mkLinkTxn 1 none (some 2)).id }) ∧
    (∀ u ∈ (deleteTransaction (mkLinkTxn 2 (some 1) (some 3)).id
        { txs := [mkLinkTxn 1 none (some 2), mkLinkTxn 2 (some 1) (some 3),
          mkLinkTxn 3 (some 2) none], nextId := 4 }).txs,
        u = { mkLinkTxn 1 none (some 2) with
          linked_tx_next_id := some (mkLinkTxn 3 (some 2) none).id } ∨
        u = { mkLinkTxn 3 (some 2) none with
          linked_tx_prev_id := some (mkLinkTxn 1 none (some 2)).id } ∨
        (u ∈ [mkLinkTxn 1 none (some 2), mkLinkTxn 2 (some 1) (some 3),
          mkLinkTxn 3 (some 2) none] ∧ u.id ≠ (mkLinkTxn 2 (some 1) (some 3)).id ∧
          u.id ≠ (mkLinkTxn 1 none (some 2)).id ∧ u.id ≠ (mkLinkTxn 3 (some 2) none).id)) ∧
    (∀ u ∈ [mkLinkTxn 1 none (some 2), mkLinkTxn 2 (some 1) (some 3),
        mkLinkTxn 3 (some 2) none],
        u.id ≠ (mkLinkTxn 2 (some 1) (some 3)).id →
        u.id ≠ (mkLinkTxn 1 none (some 2)).id →
        u.id ≠ (mkLinkTxn 3 (some 2) none).id →
        u ∈ (deleteTransaction (mkLinkTxn 2 (some 1) (some 3)).id
          { txs := [mkLinkTxn 1 none (some 2), mkLinkTxn 2 (some 1) (some 3),
            mkLinkTxn 3 (some 2) none], nextId := 4 }).txs) :=
  @deleteTransaction_bridges_chain
    { txs := [mkLinkTxn 1 none (some 2), mkLinkTxn 2 (some 1) (some 3),
      mkLinkTxn 3 (some 2) none], nextId := 4 }
    (mkLinkTxn 2 (some 1) (some 3)) (mkLinkTxn 1 none (some 2)) (mkLinkTxn 3 (some 2) none)
    (by decide) (by decide) (by decide)
    (by decide) (by decide) (by decide) (by decide) (by decide) (by decide) (by decide)

/-! ## `computeLocalHoldings` (dataSource.ts 406–463)

`String.prototype.toUpperCase` is modelled character-wise; the JS `Map`
(insertion-ordered, update-in-place) is an association list with an
order-preserving upsert; `Array.prototype.sort` (stable, ES2019+) with the
comparator `a.asset_symbol.localeCompare(b.asset_symbol)` is a stable sort by
the host's locale comparator, which is passed in as a parameter. -/

def jsToUpperCase (s : String) : String := String.mk (s.data.map Char.toUpper)

structure HoldingItem where
  asset_symbol : String
  total_amount : ℚ
  value_eur : Option ℚ
  value_usd : Option ℚ
deriving DecidableEq, Repr

structure HoldingsResponse where
  items : List HoldingItem
  portfolio_value_eur : Option ℚ
  portfolio_value_usd : Option ℚ
  fx_rate_eur_usd : Option ℚ
  fx_rate_usd_eur : Option ℚ
deriving DecidableEq, Repr

/-- `map.get`, first match. -/
def lookupMap : List (String × ℚ) → String → Option ℚ
  | [], _ => none
  | (k, v) :: rest, s => if k = s then some v else lookupMap rest s

/-- `map.set`: replaces in place, appends when the key is new. -/
def mapUpsert : List (String × ℚ) → String → ℚ → List (String × ℚ)
  | [], s, q => [(s, q)]
  | (k, v) :: rest, s, q => if k = s then (k, q) :: rest else (k, v) :: mapUpsert rest s q

/-- One iteration of the accumulation loop of `computeLocalHoldings`. -/
def holdingsStep (m : List (String × ℚ)) (tx : Txn) : List (String × ℚ) :=
  let symbol := if tx.asset_symbol = "" then "UNKNOWN" else tx.asset_symbol
  let txType := jsToUpperCase tx.tx_type
  let amount := tx.amount
  if amount = mkRat 0 1 then m
  else if txType = "TRANSFER_INTERNAL" then m
  else
    let sign : ℚ := if txType = "SELL" ∨ txType = "TRANSFER_OUT" then mkRat (-1) 1
      else mkRat 1 1
    let entry := (lookupMap m symbol).getD (mkRat 0 1)
    mapUpsert m symbol (jadd entry (jmul sign amount))

def fiatSymbols : List String := ["EUR", "USD", "CHF", "GBP", "JPY", "AUD", "CAD", "CNY"]

def computeLocalHoldings (localeCompare : String → String → Int)
    (transactions : List Txn) : HoldingsResponse :=
  let m := transactions.foldl holdingsStep []
  let items := (m.filter (fun e =>
      !(fiatSymbols.contains (jsToUpperCase e.1)) &&
      !(jle e.2 (mkRat 0 1)) &&
      !(jlt (jabs e.2) (mkRat 1 1000000000000)))).map
    (fun e => ({ asset_symbol := e.1, total_amount := e.2,
                 value_eur := none, value_usd := none } : HoldingItem))
  { items := List.insertionSort
      (fun a b => localeCompare a.asset_symbol b.asset_symbol ≤ 0) items,
    portfolio_value_eur := none, portfolio_value_usd := none,
    fx_rate_eur_usd := none, fx_rate_usd_eur := none }

/-! Per-transaction contribution, read off the loop body. -/

/-- The key under which a transaction is accumulated. -/
def txKey (tx : Txn) : String := if tx.asset_symbol = "" then "UNKNOWN" else tx.asset_symbol

/-- Whether the loop skips the transaction. -/
def txSkip (tx : Txn) : Bool :=
  decide (tx.amount = mkRat 0 1) || decide (jsToUpperCase tx.tx_type = "TRANSFER_INTERNAL")

/-- The signed amount the transaction adds to its key. -/
def txSigned (tx : Txn) : ℚ :=
  jmul (if jsToUpperCase tx.tx_type = "SELL" ∨ jsToUpperCase tx.tx_type = "TRANSFER_OUT"
    then mkRat (-1) 1 else mkRat 1 1) tx.amount

/-- Whether any transaction of the list contributes to key `s`. -/
def hasContrib (s : String) (txs : List Txn) : Bool :=
  txs.any (fun tx => !txSkip tx && decide (txKey tx = s))

/-- The signed per-asset sum the spec describes: `SELL`/`TRANSFER_OUT`
negative, `TRANSFER_INTERNAL` excluded, all other types positive. -/
def signedSum (s : String) (txs : List Txn) : ℚ :=
  txs.foldl (fun acc tx =>
    if txSkip tx then acc
    else if txKey tx = s then jadd acc (txSigned tx) else acc) (mkRat 0 1)

theorem holdingsStep_eq (m : List (String × ℚ)) (tx : Txn) :
    holdingsStep m tx =
      if txSkip tx then m
      else mapUpsert m (txKey tx)
        (jadd ((lookupMap m (txKey tx)).getD (mkRat 0 1)) (txSigned tx)) := by
  by_cases h0 : tx.amount = mkRat 0 1
  · simp [holdingsStep, txSkip, h0]
  · by_cases hI : jsToUpperCase tx.tx_type = "TRANSFER_INTERNAL"
    · simp [holdingsStep, txSkip, h0, hI]
    · simp [holdingsStep, txSkip, txKey, txSigned, h0, hI]

theorem mapUpsert_cons_pos (k : String) (v q : ℚ) (rest : List (String × ℚ)) :
    mapUpsert ((k, v) :: rest) k q = (k, q) :: rest := by
  simp [mapUpsert]

theorem mapUpsert_cons_neg {k s : String} (hks : k ≠ s) (v q : ℚ)
    (rest : List (String × ℚ)) :
    mapUpsert ((k, v) :: rest) s q = (k, v) :: mapUpsert rest s q := by
  simp only [mapUpsert]
  rw [if_neg hks]

theorem lookupMap_mapUpsert (m : List (String × ℚ)) (s t : String) (q : ℚ) :
    lookupMap (mapUpsert m s q) t = if s = t then some q else lookupMap m t := by
  induction m with
  | nil =>
    simp only [mapUpsert, lookupMap]
  | cons e rest ih =>
    obtain ⟨k, v⟩ := e
    by_cases hks : k = s
    · subst hks
      rw [mapUpsert_cons_pos]
      simp only [lookupMap]
      by_cases hkt : k = t
      · rw [if_pos hkt, if_pos hkt]
      · rw [if_neg hkt, if_neg hkt, if_neg hkt]
    · rw [mapUpsert_cons_neg hks]
      simp only [lookupMap]
      by_cases hkt : k = t
      · rw [if_pos hkt, if_neg (fun h => hks (hkt.trans h.symm)), if_pos hkt]
      · rw [if_neg hkt, ih, if_neg hkt]

theorem mem_keys_mapUpsert {m : List (String × ℚ)} {s t : String} {q : ℚ} :
    t ∈ (mapUpsert m s q).map Prod.fst ↔ t = s ∨ t ∈ m.map Prod.fst := by
  induction m with
  | nil => simp [mapUpsert]
  | cons e rest ih =>
    obtain ⟨k, v⟩ := e
    by_cases hks : k = s
    · subst hks
      rw [mapUpsert_cons_pos]
      simp only [List.map_cons, List.mem_cons]
      tauto
    · rw [mapUpsert_cons_neg hks]
      simp only [List.map_cons, List.mem_cons, ih]
      tauto

theorem nodup_keys_mapUpsert {m : List (String × ℚ)} (s : String) (q : ℚ)
    (hnd : (m.map Prod.fst).Nodup) : ((mapUpsert m s q).map Prod.fst).Nodup := by
  induction m with
  | nil => simp [mapUpsert]
  | cons e rest ih =>
    obtain ⟨k, v⟩ := e
    simp only [List.map_cons, List.nodup_cons] at hnd
    by_cases hks : k = s
    · subst hks
      rw [mapUpsert_cons_pos]
      simp only [List.map_cons, List.nodup_cons]
      exact hnd
    · rw [mapUpsert_cons_neg hks]
      simp only [List.map_cons, List.nodup_cons]
      refine ⟨?_, ih hnd.2⟩
      rw [mem_keys_mapUpsert]
      rintro (h | h)
      · exact hks h
      · exact hnd.1 h

theorem mem_assoc_iff_lookup {m : List (String × ℚ)} (hnd : (m.map Prod.fst).Nodup)
    (e : String × ℚ) : e ∈ m ↔ lookupMap m e.1 = some e.2 := by
  obtain ⟨e1, e2⟩ := e
  induction m with
  | nil => simp [lookupMap]
  | cons x rest ih =>
    obtain ⟨k, v⟩ := x
    simp only [List.map_cons, List.nodup_cons] at hnd
    simp only [List.mem_cons, lookupMap, Prod.mk.injEq]
    by_cases hk : k = e1
    · rw [if_pos hk]
      constructor
      · rintro (⟨h1, h2⟩ | h)
        · rw [h2]
        · refine absurd ?_ hnd.1
          rw [hk]
          exact List.mem_map_of_mem Prod.fst h
      · intro h
        exact Or.inl ⟨hk.symm, (Option.some.inj h).symm⟩
    · rw [if_neg hk]
      constructor
      · rintro (⟨h1, _⟩ | h)
        · exact absurd h1.symm hk
        · exact (ih hnd.2).mp h
      · intro h
        exact Or.inr ((ih hnd.2).mpr h)

theorem nodup_keys_foldl_holdingsStep (txs : List Txn) (m : List (String × ℚ))
    (hnd : (m.map Prod.fst).Nodup) :
    ((txs.foldl holdingsStep m).map Prod.fst).Nodup := by
  induction txs generalizing m with
  | nil => exact hnd
  | cons tx rest ih =>
    rw [List.foldl_cons]
    refine ih _ ?_
    rw [holdingsStep_eq]
    by_cases hs : txSkip tx
    · rw [if_pos hs]; exact hnd
    · rw [if_neg hs]; exact nodup_keys_mapUpsert _ _ hnd

theorem mkRat_zero_one : (mkRat 0 1 : ℚ) = 0 := rfl

theorem jadd_zero_left (x : ℚ) : jadd (mkRat 0 1) x = x := by
  rw [jadd_eq, mkRat_zero_one, zero_add]

theorem jadd_zero_right (x : ℚ) : jadd x (mkRat 0 1) = x := by
  rw [jadd_eq, mkRat_zero_one, add_zero]

theorem foldl_signed_shift (s : String) (txs : List Txn) (a : ℚ) :
    txs.foldl (fun acc tx =>
      if txSkip tx then acc
      else if txKey tx = s then jadd acc (txSigned tx) else acc) a =
    a + signedSum s txs := by
  rw [signedSum]
  induction txs generalizing a with
  | nil => simp
  | cons tx rest ih =>
    rw [List.foldl_cons, List.foldl_cons]
    by_cases hs : txSkip tx
    · rw [if_pos hs, if_pos hs, ih]
    · rw [if_neg hs, if_neg hs]
      by_cases hk : txKey tx = s
      · rw [if_pos hk, if_pos hk, ih, ih (jadd (mkRat 0 1) (txSigned tx))]
        simp only [jadd_eq, mkRat_zero_one]
        rw [zero_add, add_assoc]
      · rw [if_neg hk, if_neg hk, ih]

theorem hasContrib_cons (s : String) (tx : Txn) (rest : List Txn) :
    hasContrib s (tx :: rest) =
      ((!txSkip tx && decide (txKey tx = s)) || hasContrib s rest) := by
  simp [hasContrib]

theorem signedSum_cons (s : String) (tx : Txn) (rest : List Txn) :
    signedSum s (tx :: rest) =
      jadd (if txSkip tx then mkRat 0 1 else if txKey tx = s then txSigned tx else mkRat 0 1)
        (signedSum s rest) := by
  rw [signedSum, List.foldl_cons, foldl_signed_shift]
  by_cases hs : txSkip tx
  · rw [if_pos hs, if_pos hs]
    simp [jadd_eq, mkRat_zero_one, signedSum]
  · rw [if_neg hs, if_neg hs]
    by_cases hk : txKey tx = s
    · rw [if_pos hk, if_pos hk]
      simp [jadd_eq, mkRat_zero_one, signedSum]
    · rw [if_neg hk, if_neg hk]
      simp [jadd_eq, mkRat_zero_one, signedSum]

theorem signedSum_of_no_contrib {s : String} {rest : List Txn}
    (hr : hasContrib s rest = false) : signedSum s rest = mkRat 0 1 := by
  induction rest with
  | nil => rfl
  | cons u urest ih =>
    rw [hasContrib_cons, Bool.or_eq_false_iff] at hr
    rw [signedSum_cons]
    have h1 : (if txSkip u then mkRat 0 1
        else if txKey u = s then txSigned u else mkRat 0 1) = mkRat 0 1 := by
      by_cases hsu : txSkip u
      · rw [if_pos hsu]
      · rw [if_neg hsu]
        have hku : ¬ txKey u = s := by
          intro hku
          have hcontra : (!txSkip u && decide (txKey u = s)) = true := by
            simp [hsu, hku]
          rw [hr.1] at hcontra
          exact Bool.noConfusion hcontra
        rw [if_neg hku]
    rw [h1, ih hr.2, jadd_zero_left]

theorem lookupMap_foldl_holdingsStep (txs : List Txn) (m : List (String × ℚ)) (s : String) :
    lookupMap (txs.foldl holdingsStep m) s =
      if hasContrib s txs then
        some (jadd ((lookupMap m s).getD (mkRat 0 1)) (signedSum s txs))
      else lookupMap m s := by
  induction txs generalizing m with
  | nil => simp [hasContrib, signedSum]
  | cons tx rest ih =>
    rw [List.foldl_cons, holdingsStep_eq, hasContrib_cons, signedSum_cons]
    by_cases hs : txSkip tx
    · have hb : (!txSkip tx && decide (txKey tx = s)) = false := by simp [hs]
      rw [if_pos hs, if_pos hs, jadd_zero_left, ih, hb, Bool.false_or]
    · rw [if_neg hs, if_neg hs]
      by_cases hk : txKey tx = s
      · have hb : (!txSkip tx && decide (txKey tx = s)) = true := by simp [hs, hk]
        rw [ih, lookupMap_mapUpsert, if_pos hk, if_pos hk, hb, Bool.true_or, hk]
        rw [if_pos rfl]
        by_cases hr : hasContrib s rest
        · rw [if_pos hr]
          simp only [Option.getD_some, jadd_eq]
          rw [add_assoc]
        · have hrf : hasContrib s rest = false := by simpa using hr
          rw [if_neg hr, signedSum_of_no_contrib hrf, jadd_zero_right]
      · have hb : (!txSkip tx && decide (txKey tx = s)) = false := by simp [hk]
        rw [if_neg hk, ih, lookupMap_mapUpsert, if_neg hk, hb, Bool.false_or,
          jadd_zero_left]


/-- Transaction constructor for holdings examples: only the asset symbol,
type and amount matter to `computeLocalHoldings`. -/
def mkHoldTxn (sym ty : String) (amt : ℚ) : Txn :=
  { id := 1, asset_symbol := sym, tx_type := ty, amount := amt,
    price_fiat := none, fiat_currency := "", timestamp := "", source := none,
    note := none, tx_id := none, fiat_value := none, value_eur := none,
    value_usd := none, linked_tx_prev_id := none, linked_tx_next_id := none }

theorem nodup_holdings_keys (txs : List Txn) :
    ((txs.foldl holdingsStep []).map Prod.fst).Nodup :=
  nodup_keys_foldl_holdingsStep txs [] (by simp)

theorem lookup_holdings (txs : List Txn) (s : String) :
    lookupMap (txs.foldl holdingsStep []) s =
      if hasContrib s txs then some (signedSum s txs) else none := by
  rw [lookupMap_foldl_holdingsStep]
  by_cases h : hasContrib s txs
  · rw [if_pos h, if_pos h]
    show some (jadd ((none : Option ℚ).getD (mkRat 0 1)) (signedSum s txs)) = _
    rw [Option.getD_none, jadd_zero_left]
  · rw [if_neg h, if_neg h]
    rfl

/-! ## C8 — `computeLocalHoldings` characterization -/

/-- C8 counterexample: a transaction with an empty `asset_symbol` is grouped
under the fallback key `"UNKNOWN"`, so the output is not the per-asset sum
keyed by the transaction's own symbol: the item appears as `UNKNOWN`, and no
item with the empty symbol exists. -/
theorem computeLocalHoldings_unknown_counterexample :
    (∃ it ∈ (computeLocalHoldings (fun _ _ => (0 : Int))
        [mkHoldTxn "" "BUY" (mkRat 1 1)]).items,
      it.asset_symbol = "UNKNOWN" ∧ it.total_amount = mkRat 1 1) ∧
    ¬ ∃ it ∈ (computeLocalHoldings (fun _ _ => (0 : Int))
        [mkHoldTxn "" "BUY" (mkRat 1 1)]).items,
      it.asset_symbol = "" := by decide

/-- C8: `computeLocalHoldings` returns exactly the per-key signed sums
(`SELL`/`TRANSFER_OUT` negative, `TRANSFER_INTERNAL` excluded, all other
types positive, the empty symbol grouped under `"UNKNOWN"`): a symbol appears
with quantity `q` iff some transaction contributes to it, `q` is its signed
sum, its uppercased symbol is not in the fiat set, and `q` is positive and at
least the `1e-12` tolerance; symbols are pairwise distinct; and the items are
sorted ascending by the locale comparator. -/
theorem computeLocalHoldings_spec (lc : String → String → Int) (txs : List Txn)
    (htrans : ∀ a b c : String, lc a b ≤ 0 → lc b c ≤ 0 → lc a c ≤ 0)
    (htotal : ∀ a b : String, lc a b ≤ 0 ∨ lc b a ≤ 0) :
    (∀ s q, (∃ it ∈ (computeLocalHoldings lc txs).items,
        it.asset_symbol = s ∧ it.total_amount = q) ↔
      (hasContrib s txs = true ∧ q = signedSum s txs ∧
        fiatSymbols.contains (jsToUpperCase s) = false ∧
        jle q (mkRat 0 1) = false ∧
        jlt (jabs q) (mkRat 1 1000000000000) = false)) ∧
    ((computeLocalHoldings lc txs).items.map HoldingItem.asset_symbol).Nodup ∧
    List.Pairwise (fun a b => lc a.asset_symbol b.asset_symbol ≤ 0)
      (computeLocalHoldings lc txs).items := by
  have hnd := nodup_holdings_keys txs
  simp only [computeLocalHoldings]
  refine ⟨?_, ?_, ?_⟩
  · intro s q
    constructor
    · rintro ⟨it, hit, hsym, hamt⟩
      rw [(List.perm_insertionSort _ _).mem_iff] at hit
      obtain ⟨e, he, hfe⟩ := List.mem_map.mp hit
      obtain ⟨hem, hpe⟩ := List.mem_filter.mp he
      have hes : e.1 = s := by rw [← hsym, ← hfe]
      have heq : e.2 = q := by rw [← hamt, ← hfe]
      have hlk := (mem_assoc_iff_lookup hnd e).mp hem
      rw [lookup_holdings, hes] at hlk
      by_cases hc : hasContrib s txs
      · rw [if_pos hc] at hlk
        have hval : q = signedSum s txs := by
          rw [← heq, Option.some.inj hlk]
        simp only [Bool.and_eq_true, Bool.not_eq_true'] at hpe
        rw [hes, heq] at hpe
        exact ⟨hc, hval, hpe.1.1, hpe.1.2, hpe.2⟩
      · rw [if_neg hc] at hlk
        exact Option.noConfusion hlk
    · rintro ⟨hc, hq, hf, hp, ht⟩
      refine ⟨⟨s, q, none, none⟩, ?_, rfl, rfl⟩
      rw [(List.perm_insertionSort _ _).mem_iff]
      refine List.mem_map.mpr ⟨(s, q), ?_, rfl⟩
      refine List.mem_filter.mpr ⟨?_, ?_⟩
      · refine (mem_assoc_iff_lookup hnd (s, q)).mpr ?_
        rw [lookup_holdings]
        rw [if_pos hc, hq]
      · simp only [Bool.and_eq_true, Bool.not_eq_true']
        exact ⟨⟨hf, hp⟩, ht⟩
  · refine ((List.perm_insertionSort _ _).map HoldingItem.asset_symbol).nodup_iff.mpr ?_
    rw [List.map_map]
    exact hnd.sublist ((List.filter_sublist _).map _)
  · haveI : IsTotal HoldingItem
        (fun a b => lc a.asset_symbol b.asset_symbol ≤ 0) := ⟨fun a b => htotal _ _⟩
    haveI : IsTrans HoldingItem
        (fun a b => lc a.asset_symbol b.asset_symbol ≤ 0) := ⟨fun a b c => htrans _ _ _⟩
    exact List.sorted_insertionSort _ _

/-- C8 witness: the characterization instantiated at a two-transaction list
(a buy of 2 BTC and a sell of 0.5 BTC) with a trivial locale comparator. -/
theorem computeLocalHoldings_spec_witness :
    (∀ s q, (∃ it ∈ (computeLocalHoldings (fun _ _ => (0 : Int))
        [mkHoldTxn "BTC" "BUY" (mkRat 2 1), mkHoldTxn "BTC" "SELL" (mkRat 1 2)]).items,
        it.asset_symbol = s ∧ it.total_amount = q) ↔
      (hasContrib s
          [mkHoldTxn "BTC" "BUY" (mkRat 2 1), mkHoldTxn "BTC" "SELL" (mkRat 1 2)] = true ∧
        q = signedSum s
          [mkHoldTxn "BTC" "BUY" (mkRat 2 1), mkHoldTxn "BTC" "SELL" (mkRat 1 2)] ∧
        fiatSymbols.contains (jsToUpperCase s) = false ∧
        jle q (mkRat 0 1) = false ∧
        jlt (jabs q) (mkRat 1 1000000000000) = false)) ∧
    ((computeLocalHoldings (fun _ _ => (0 : Int))
        [mkHoldTxn "BTC" "BUY" (mkRat 2 1), mkHoldTxn "BTC" "SELL" (mkRat 1 2)]).items.map
        HoldingItem.asset_symbol).Nodup ∧
    List.Pairwise (fun a b => (fun _ _ => (0 : Int)) a.asset_symbol b.asset_symbol ≤ 0)
      (computeLocalHoldings (fun _ _ => (0 : Int))
        [mkHoldTxn "BTC" "BUY" (mkRat 2 1), mkHoldTxn "BTC" "SELL" (mkRat 1 2)]).items :=
  computeLocalHoldings_spec (fun _ _ => (0 : Int))
    [mkHoldTxn "BTC" "BUY" (mkRat 2 1), mkHoldTxn "BTC" "SELL" (mkRat 1 2)]
    (fun a b c h1 h2 => h1) (fun a b => Or.inl (Int.le_refl 0))


/-! ## CSV text processing (dataSource.ts 57–116) over character lists

JS strings are processed character-wise; the embedding works on `List Char`
(`String.data`) so that every definition evaluates inside the kernel. -/

/-- `String.prototype.trim`. -/
def jsTrim (l : List Char) : List Char :=
  ((l.dropWhile Char.isWhitespace).reverse.dropWhile Char.isWhitespace).reverse

/-- `normalizeCsvText`: replaces newlines inside quoted fields by spaces,
keeping escaped quote pairs; `inQ` is the `inQuotes` flag. -/
def normCsvAux : List Char → Bool → List Char
  | [], _ => []
  | '"' :: '"' :: rest2, true => '"' :: '"' :: normCsvAux rest2 true
  | '"' :: rest, true => '"' :: normCsvAux rest false
  | '"' :: rest, false => '"' :: normCsvAux rest true
  | '\r' :: '\n' :: rest2, true => ' ' :: normCsvAux rest2 true
  | '\r' :: rest, true => ' ' :: normCsvAux rest true
  | '\n' :: rest, true => ' ' :: normCsvAux rest true
  | c :: rest, inQ => c :: normCsvAux rest inQ

def normalizeCsvText (text : List Char) : List Char := normCsvAux text false

/-- `split` on the pattern `\r?\n`: a line break is a newline optionally
preceded by a carriage return. -/
def splitLinesAux : List Char → List Char → List (List Char)
  | [], acc => [acc.reverse]
  | '\r' :: '\n' :: rest, acc => acc.reverse :: splitLinesAux rest []
  | '\n' :: rest, acc => acc.reverse :: splitLinesAux rest []
  | c :: rest, acc => splitLinesAux rest (c :: acc)

def splitLines (text : List Char) : List (List Char) := splitLinesAux text []

/-- `parseCsvLine`: comma-separated with quoting and escaped quotes. -/
def parseCsvAux : List Char → Bool → List Char → List (List Char)
  | [], _, cur => [cur.reverse]
  | '"' :: '"' :: rest2, true, cur => parseCsvAux rest2 true ('"' :: cur)
  | '"' :: rest, true, cur => parseCsvAux rest false cur
  | '"' :: rest, false, cur => parseCsvAux rest true cur
  | c :: rest, inQ, cur =>
    if c = ',' ∧ inQ = false then cur.reverse :: parseCsvAux rest inQ []
    else parseCsvAux rest inQ (c :: cur)

def parseCsvLine (line : List Char) : List (List Char) := parseCsvAux line false []

/-- `String.prototype.split` with a one-character separator. -/
def splitOnCharAux (d : Char) : List Char → List Char → List (List Char)
  | [], cur => [cur.reverse]
  | c :: rest, cur =>
    if c = d then cur.reverse :: splitOnCharAux d rest []
    else splitOnCharAux d rest (c :: cur)

def splitOnChar (d : Char) (l : List Char) : List (List Char) := splitOnCharAux d l []

/-! ## Host numeric conversions (`parseFloat`, `parseInt`) -/

def digitsVal (ds : List Char) : Nat := ds.foldl (fun n c => 10 * n + (c.toNat - 48)) 0

/-- `parseFloat`: longest numeric prefix (sign, decimal point, exponent);
`none` models a non-finite result (`NaN`, `Infinity`). -/
def jsParseFloat (s : List Char) : Option ℚ :=
  let sgn : Int := match s with
    | '-' :: _ => -1
    | _ => 1
  let s1 : List Char := match s with
    | '+' :: r => r
    | '-' :: r => r
    | _ => s
  let ip := s1.takeWhile Char.isDigit
  let s2 := s1.dropWhile Char.isDigit
  let fp : List Char := match s2 with
    | '.' :: r => r.takeWhile Char.isDigit
    | _ => []
  let s3 : List Char := match s2 with
    | '.' :: r => r.dropWhile Char.isDigit
    | _ => s2
  if ip = [] ∧ fp = [] then none
  else
    let mant : ℚ := mkRat (sgn * (digitsVal (ip ++ fp) : Int)) (10 ^ fp.length)
    let eexp : Int := match s3 with
      | c :: r =>
        if c = 'e' ∨ c = 'E' then
          let es : Int := match r with
            | '-' :: _ => -1
            | _ => 1
          let r2 : List Char := match r with
            | '+' :: rr => rr
            | '-' :: rr => rr
            | _ => r
          let ed := r2.takeWhile Char.isDigit
          if ed = [] then 0 else es * (digitsVal ed : Int)
        else 0
      | [] => 0
    some (if 0 ≤ eexp then jmul mant (mkRat ((10 : Int) ^ eexp.toNat) 1)
      else jmul mant (mkRat 1 (10 ^ (-eexp).toNat)))

/-- `parseInt(x, 10)`: leading whitespace, optional sign, decimal digits. -/
def jsParseInt (s : List Char) : Option Int :=
  let s0 := s.dropWhile Char.isWhitespace
  let sgn : Int := match s0 with
    | '-' :: _ => -1
    | _ => 1
  let s1 : List Char := match s0 with
    | '+' :: r => r
    | '-' :: r => r
    | _ => s0
  let ds := s1.takeWhile Char.isDigit
  if ds = [] then none else some (sgn * (digitsVal ds : Int))

/-- `String.prototype.replace` with a plain one-character pattern replaces
only the first occurrence. -/
def replaceFirst (a b : Char) : List Char → List Char
  | [] => []
  | c :: rest => if c = a then b :: rest else c :: replaceFirst a b rest

/-- True iff the last comma comes after the last dot. -/
def commaAfterDot (l : List Char) : Bool :=
  l.foldl (fun st c => if c = ',' then true else if c = '.' then false else st) false

/-- The shared locale normalization of raw numeric fields in `importCsv`:
`trim().replace(/\s+/g, "")`, then comma/dot disambiguation (a comma after
the last dot is a decimal comma, otherwise commas are thousands
separators). -/
def normalizeNumericString (raw : List Char) : List Char :=
  let r := (jsTrim raw).filter (fun c => !c.isWhitespace)
  if r.contains ',' ∧ r.contains '.' then
    if commaAfterDot r then replaceFirst ',' '.' (r.filter (fun c => c ≠ '.'))
    else r.filter (fun c => c ≠ ',')
  else if r.contains ',' then replaceFirst ',' '.' r
  else r

/-! ## `buildTransactionDedupKey` (dataSource.ts 369–393)

`String(tx.amount)` is the host's number-to-string conversion, passed in as
the `numToStr` parameter. -/

def buildTransactionDedupFallback (numToStr : ℚ → List Char) (tx : Txn) : List Char :=
  List.intercalate "|".data
    ["asset".data, (jsToUpperCase tx.asset_symbol).data,
     "type".data, (jsToUpperCase tx.tx_type).data,
     "amount".data, numToStr tx.amount,
     "price".data, (match tx.price_fiat with | some p => numToStr p | none => []),
     "cur".data, (jsToUpperCase tx.fiat_currency).data,
     "ts".data, tx.timestamp.data,
     "source".data, (tx.source.getD "").data,
     "note".data, (tx.note.getD "").data]

def buildTransactionDedupKey (numToStr : ℚ → List Char) (tx : Txn) : List Char :=
  match tx.tx_id with
  | some tid =>
    if jsTrim tid.data ≠ [] then "id:".data ++ jsTrim tid.data
    else buildTransactionDedupFallback numToStr tx
  | none => buildTransactionDedupFallback numToStr tx


/-! ## `importCsv` (dataSource.ts 787–1016)

The language is fixed; `t(lang, key)` is the host translation function,
passed in as `tr` over the message key.  `getNextLocalId` is the profile
counter of the `LocalStore`. -/

def CURRENT_CSV_SCHEMA_VERSION : Nat := 3

structure CsvImportResult where
  imported : Nat
  errors : List (List Char)
deriving DecidableEq, Repr

structure CsvLoopState where
  items : List Txn
  nextId : Int
  existingKeys : List (List Char)
  importedKeys : List (List Char)
  errors : List (List Char)
  importedCount : Nat
deriving Repr

/-- The per-cell processing when the record is built: trim, then strip one
pair of surrounding double quotes. -/
def processValue (v : List Char) : List Char :=
  let v := jsTrim v
  if 2 ≤ v.length ∧ v.head? = some '"' ∧ v.getLast? = some '"' then
    (v.drop 1).dropLast
  else v

/-- `record[col]` after the `headerCols.forEach` loop: the last column with
that name wins; a missing part is the empty string. -/
def recordGet (headerCols parts : List (List Char)) (col : List Char) : List Char :=
  (List.range headerCols.length).foldl
    (fun acc i => if headerCols.getD i [] = col then processValue (parts.getD i []) else acc) []

def lineErrorMsg (tr : List Char → List Char) (lineIndex : Nat) (msgKey : String) : List Char :=
  tr "csv_import_error_line_prefix".data ++ " ".data ++ (toString (lineIndex + 1)).data
    ++ ": ".data ++ tr msgKey.data

def dupErrorMsg (lineIndex : Nat) : List Char :=
  "Line ".data ++ (toString (lineIndex + 1)).data
    ++ ": duplicate transaction detected (skipped).".data

/-- The `parts` of a data row: `parseCsvLine` for commas, plain split
otherwise. -/
def csvParts (delimiter : Char) (row : List Char) : List (List Char) :=
  if delimiter = ',' then parseCsvLine row else splitOnChar delimiter row

/-- `record[col]` for a data row. -/
def rowRecord (headerCols : List (List Char)) (delimiter : Char) (row : List Char)
    (col : List Char) : List Char :=
  recordGet headerCols (csvParts delimiter row) col

/-- The amount a row parses to (`none`: the `csv_invalid_amount` throw,
for an empty or non-finite amount field). -/
def rowAmount (headerCols : List (List Char)) (delimiter : Char) (row : List Char) :
    Option ℚ :=
  let rawAmount := rowRecord headerCols delimiter row "amount".data
  if rawAmount = [] then none else jsParseFloat (normalizeNumericString rawAmount)

/-- The transaction a data row builds (dataSource.ts 882–1003), given the
assigned local id and the parsed amount. -/
def rowTx (headerCols : List (List Char)) (delimiter : Char) (row : List Char)
    (id : Int) (amount : ℚ) : Txn :=
  let priceFiat :=
    if rowRecord headerCols delimiter row "price_fiat".data ≠ [] then
      jsParseFloat (normalizeNumericString
        (rowRecord headerCols delimiter row "price_fiat".data))
    else none
  let fiatValueFromPrice := priceFiat.map (fun p => jmul p amount)
  let fiatValue :=
    if rowRecord headerCols delimiter row "fiat_value".data ≠ [] then
      match jsParseFloat (normalizeNumericString
        (rowRecord headerCols delimiter row "fiat_value".data)) with
      | some v => some v
      | none => fiatValueFromPrice
    else fiatValueFromPrice
  let valueEur :=
    if rowRecord headerCols delimiter row "value_eur".data ≠ [] then
      jsParseFloat (normalizeNumericString
        (rowRecord headerCols delimiter row "value_eur".data))
    else none
  let valueUsd :=
    if rowRecord headerCols delimiter row "value_usd".data ≠ [] then
      jsParseFloat (normalizeNumericString
        (rowRecord headerCols delimiter row "value_usd".data))
    else none
  let linkedPrev := sanitizeLinkedTxId
    (if rowRecord headerCols delimiter row "linked_tx_prev_id".data ≠ [] then
      jsParseInt (jsTrim (rowRecord headerCols delimiter row "linked_tx_prev_id".data))
    else none)
  let linkedNext := sanitizeLinkedTxId
    (if rowRecord headerCols delimiter row "linked_tx_next_id".data ≠ [] then
      jsParseInt (jsTrim (rowRecord headerCols delimiter row "linked_tx_next_id".data))
    else none)
  { id := id,
    asset_symbol :=
      jsToUpperCase (String.mk (rowRecord headerCols delimiter row "asset_symbol".data)),
    tx_type :=
      jsToUpperCase (String.mk (rowRecord headerCols delimiter row "tx_type".data)),
    amount := amount,
    price_fiat := priceFiat,
    fiat_currency :=
      if rowRecord headerCols delimiter row "fiat_currency".data = [] then "EUR"
      else String.mk (rowRecord headerCols delimiter row "fiat_currency".data),
    timestamp := String.mk (rowRecord headerCols delimiter row "timestamp".data),
    source :=
      if rowRecord headerCols delimiter row "source".data = [] then none
      else some (String.mk (rowRecord headerCols delimiter row "source".data)),
    note :=
      if rowRecord headerCols delimiter row "note".data = [] then none
      else some (String.mk (rowRecord headerCols delimiter row "note".data)),
    tx_id :=
      if rowRecord headerCols delimiter row "tx_id".data = [] then none
      else some (String.mk (rowRecord headerCols delimiter row "tx_id".data)),
    fiat_value := fiatValue,
    value_eur := valueEur,
    value_usd := valueUsd,
    linked_tx_prev_id := linkedPrev,
    linked_tx_next_id := linkedNext }

/-- A row the loop neither skips nor throws on: not blank, the column count
matches, and the amount parses to a finite number. -/
def rowValid (headerCols : List (List Char)) (delimiter : Char) (row : List Char) : Prop :=
  jsTrim row ≠ [] ∧ (csvParts delimiter row).length = headerCols.length ∧
    (rowAmount headerCols delimiter row).isSome

instance (headerCols : List (List Char)) (delimiter : Char) (row : List Char) :
    Decidable (rowValid headerCols delimiter row) := by
  unfold rowValid
  infer_instance

/-- The dedup key of a row (it does not depend on the assigned id). -/
def rowKeyD (numToStr : ℚ → List Char) (headerCols : List (List Char)) (delimiter : Char)
    (row : List Char) : List Char :=
  buildTransactionDedupKey numToStr
    (rowTx headerCols delimiter row 0 ((rowAmount headerCols delimiter row).getD (mkRat 0 1)))

/-- One iteration of the data-row loop of `importCsv` (`entry` is the pair
of `lineIndex` and the raw line). -/
def importCsvRow (tr : List Char → List Char) (numToStr : ℚ → List Char)
    (headerCols : List (List Char)) (delimiter : Char)
    (st : CsvLoopState) (entry : Nat × List Char) : CsvLoopState :=
  let lineIndex := entry.1
  let row := entry.2
  if jsTrim row = [] then st
  else
    let parts := csvParts delimiter row
    if parts.length ≠ headerCols.length then
      { st with errors :=
          st.errors ++ [lineErrorMsg tr lineIndex "csv_import_error_column_mismatch"] }
    else
      match rowAmount headerCols delimiter row with
      | none =>
        { st with errors :=
            st.errors ++ [lineErrorMsg tr lineIndex "csv_import_unknown_error"] }
      | some amount =>
        let id := st.nextId
        let tx := rowTx headerCols delimiter row id amount
        let key := buildTransactionDedupKey numToStr tx
        if key ∈ st.existingKeys ∨ key ∈ st.importedKeys then
          { st with
            nextId := id + 1,
            errors := st.errors ++ [dupErrorMsg lineIndex] }
        else
          { st with
            items := st.items ++ [tx],
            nextId := id + 1,
            existingKeys := st.existingKeys ++ [key],
            importedKeys := st.importedKeys ++ [key],
            importedCount := st.importedCount + 1 }

def csvRequired : List (List Char) :=
  ["asset_symbol".data, "tx_type".data, "amount".data, "timestamp".data]

/-- The non-empty lines of the normalized CSV text. -/
def csvLines (text : List Char) : List (List Char) :=
  (splitLines (normalizeCsvText text)).filter (fun l => !(jsTrim l).isEmpty)

def csvDelimiter (line0 : List Char) : Char :=
  if line0.contains ';' ∧ ¬ line0.contains ',' then ';' else ','

/-- The trimmed header columns. -/
def csvHeaderColsOf (text : List Char) : List (List Char) :=
  (splitOnChar (csvDelimiter ((csvLines text).getD 0 []))
    ((csvLines text).getD 0 [])).map jsTrim

/-- The schema version read from the `csv_schema_version` column of the
first data row (default 1). -/
def csvVersionOf (text : List Char) : Nat :=
  match (csvHeaderColsOf text).findIdx? (fun c => c = "csv_schema_version".data) with
  | some vi =>
    let firstDataParts := splitOnChar (csvDelimiter ((csvLines text).getD 0 []))
      ((csvLines text).getD 1 [])
    match jsParseInt (jsTrim (firstDataParts.getD vi [])) with
    | some p => if 0 < p then p.toNat else 1
    | none => 1
  | none => 1

def importCsv (tr : List Char → List Char) (numToStr : ℚ → List Char)
    (text : List Char) (store : LocalStore) : CsvImportResult × LocalStore :=
  let lines := csvLines text
  if lines.length < 2 then
    ({ imported := 0, errors := ["CSV has no data rows.".data] }, store)
  else
    let delimiter := csvDelimiter (lines.getD 0 [])
    let headerCols := csvHeaderColsOf text
    let missing := csvRequired.filter (fun r => ¬ r ∈ headerCols)
    if missing ≠ [] then
      ({ imported := 0,
         errors := ["Missing required columns: ".data ++ List.intercalate ", ".data missing] },
       store)
    else
      let errors0 : List (List Char) :=
        if CURRENT_CSV_SCHEMA_VERSION < csvVersionOf text then
          [tr "csv_import_schema_newer_warning".data]
        else []
      let init : CsvLoopState :=
        { items := store.txs, nextId := store.nextId,
          existingKeys := store.txs.map (buildTransactionDedupKey numToStr),
          importedKeys := [], errors := errors0, importedCount := 0 }
      let final := (lines.enum.drop 1).foldl (importCsvRow tr numToStr headerCols delimiter) init
      ({ imported := final.importedCount, errors := final.errors },
       { txs := (normalizeLinkedTransactionGraph final.items).1, nextId := final.nextId })


/-! ## C9 — fatal header errors leave the store untouched -/

/-- C9: a generic CSV whose header misses at least one required column, or
which has fewer than two non-empty lines, is fatal for the whole operation:
`importCsv` returns `imported = 0` with exactly one error message and the
stored transaction list is completely unchanged. -/
theorem importCsv_missing_columns (tr : List Char → List Char) (numToStr : ℚ → List Char)
    (text : List Char) (store : LocalStore)
    (h : (csvLines text).length < 2 ∨ ∃ r ∈ csvRequired, r ∉ csvHeaderColsOf text) :
    ∃ msg, importCsv tr numToStr text store =
      ({ imported := 0, errors := [msg] }, store) := by
  by_cases hlen : (csvLines text).length < 2
  · refine ⟨"CSV has no data rows.".data, ?_⟩
    simp only [importCsv]
    rw [if_pos hlen]
  · have hm : csvRequired.filter (fun r => ¬ r ∈ csvHeaderColsOf text) ≠ [] := by
      rcases h with h | ⟨r, hr, hnot⟩
      · exact absurd h hlen
      · intro hemp
        have hmem : r ∈ csvRequired.filter (fun r => ¬ r ∈ csvHeaderColsOf text) :=
          List.mem_filter.mpr ⟨hr, by simpa using hnot⟩
        rw [hemp] at hmem
        exact absurd hmem (List.not_mem_nil r)
    refine ⟨"Missing required columns: ".data ++ List.intercalate ", ".data
      (csvRequired.filter (fun r => ¬ r ∈ csvHeaderColsOf text)), ?_⟩
    simp only [importCsv]
    rw [if_neg hlen, if_pos hm]

/-- C9 witness: a CSV missing the `amount` and `timestamp` columns is
rejected with one message and the (empty) store is unchanged. -/
theorem importCsv_missing_columns_witness :
    ((csvLines "asset_symbol,tx_type\nBTC,buy".data).length < 2 ∨
      ∃ r ∈ csvRequired, r ∉ csvHeaderColsOf "asset_symbol,tx_type\nBTC,buy".data) ∧
    ∃ msg, importCsv (fun m => m) (fun _ => []) "asset_symbol,tx_type\nBTC,buy".data
      { txs := [], nextId := 1 } =
      ({ imported := 0, errors := [msg] }, { txs := [], nextId := 1 }) :=
  ⟨by decide, importCsv_missing_columns (fun m => m) (fun _ => [])
    "asset_symbol,tx_type\nBTC,buy".data { txs := [], nextId := 1 } (by decide)⟩

/-! ## The data-row loop, characterized -/

theorem importCsvRow_accept (tr : List Char → List Char) (numToStr : ℚ → List Char)
    (headerCols : List (List Char)) (delimiter : Char) (st : CsvLoopState)
    (i : Nat) (row : List Char) (a : ℚ)
    (hb : jsTrim row ≠ [])
    (hlen : (csvParts delimiter row).length = headerCols.length)
    (ha : rowAmount headerCols delimiter row = some a)
    (hd : rowKeyD numToStr headerCols delimiter row ∉ st.existingKeys)
    (hd2 : rowKeyD numToStr headerCols delimiter row ∉ st.importedKeys) :
    importCsvRow tr numToStr headerCols delimiter st (i, row) =
      { items := st.items ++ [rowTx headerCols delimiter row st.nextId a],
        nextId := st.nextId + 1,
        existingKeys := st.existingKeys ++ [rowKeyD numToStr headerCols delimiter row],
        importedKeys := st.importedKeys ++ [rowKeyD numToStr headerCols delimiter row],
        errors := st.errors,
        importedCount := st.importedCount + 1 } := by
  have hkey : buildTransactionDedupKey numToStr (rowTx headerCols delimiter row st.nextId a)
      = rowKeyD numToStr headerCols delimiter row := by
    rw [rowKeyD, ha]
    rfl
  simp only [importCsvRow, hb, hlen, ha, hkey]
  simp [hd, hd2]

theorem importCsvRow_dup (tr : List Char → List Char) (numToStr : ℚ → List Char)
    (headerCols : List (List Char)) (delimiter : Char) (st : CsvLoopState)
    (i : Nat) (row : List Char) (a : ℚ)
    (hb : jsTrim row ≠ [])
    (hlen : (csvParts delimiter row).length = headerCols.length)
    (ha : rowAmount headerCols delimiter row = some a)
    (hd : rowKeyD numToStr headerCols delimiter row ∈ st.existingKeys ∨
      rowKeyD numToStr headerCols delimiter row ∈ st.importedKeys) :
    importCsvRow tr numToStr headerCols delimiter st (i, row) =
      { st with
        nextId := st.nextId + 1,
        errors := st.errors ++ [dupErrorMsg i] } := by
  have hkey : buildTransactionDedupKey numToStr (rowTx headerCols delimiter row st.nextId a)
      = rowKeyD numToStr headerCols delimiter row := by
    rw [rowKeyD, ha]
    rfl
  simp only [importCsvRow, hb, hlen, ha, hkey]
  simp [hd]

/-- The transactions the loop appends for a run of accepted rows, with the
ids assigned consecutively. -/
def acceptedTxs (headerCols : List (List Char)) (delimiter : Char) :
    List (Nat × List Char) → Int → List Txn
  | [], _ => []
  | e :: rest, startId =>
    rowTx headerCols delimiter e.2 startId
        ((rowAmount headerCols delimiter e.2).getD (mkRat 0 1)) ::
      acceptedTxs headerCols delimiter rest (startId + 1)

theorem acceptedTxs_length (headerCols : List (List Char)) (delimiter : Char)
    (rows : List (Nat × List Char)) (startId : Int) :
    (acceptedTxs headerCols delimiter rows startId).length = rows.length := by
  induction rows generalizing startId with
  | nil => rfl
  | cons e rest ih => simp [acceptedTxs, ih]

theorem acceptedTxs_keys (numToStr : ℚ → List Char) (headerCols : List (List Char))
    (delimiter : Char) (rows : List (Nat × List Char)) (startId : Int) :
    (acceptedTxs headerCols delimiter rows startId).map (buildTransactionDedupKey numToStr) =
      rows.map (fun e => rowKeyD numToStr headerCols delimiter e.2) := by
  induction rows generalizing startId with
  | nil => rfl
  | cons e rest ih =>
    simp only [acceptedTxs, List.map_cons, ih]
    rfl

theorem foldRows_accept (tr : List Char → List Char) (numToStr : ℚ → List Char)
    (headerCols : List (List Char)) (delimiter : Char)
    (rows : List (Nat × List Char)) (st : CsvLoopState)
    (hv : ∀ e ∈ rows, rowValid headerCols delimiter e.2)
    (hex : ∀ e ∈ rows, rowKeyD numToStr headerCols delimiter e.2 ∉ st.existingKeys)
    (him : ∀ e ∈ rows, rowKeyD numToStr headerCols delimiter e.2 ∉ st.importedKeys)
    (hnd : (rows.map (fun e => rowKeyD numToStr headerCols delimiter e.2)).Nodup) :
    rows.foldl (importCsvRow tr numToStr headerCols delimiter) st =
      { items := st.items ++ acceptedTxs headerCols delimiter rows st.nextId,
        nextId := st.nextId + rows.length,
        existingKeys := st.existingKeys ++
          rows.map (fun e => rowKeyD numToStr headerCols delimiter e.2),
        importedKeys := st.importedKeys ++
          rows.map (fun e => rowKeyD numToStr headerCols delimiter e.2),
        errors := st.errors,
        importedCount := st.importedCount + rows.length } := by
  induction rows generalizing st with
  | nil =>
    simp [acceptedTxs]
  | cons e rest ih =>
    obtain ⟨hb, hlen, hsome⟩ := hv e (List.mem_cons_self e rest)
    obtain ⟨a, ha⟩ := Option.isSome_iff_exists.mp hsome
    have hk := hex e (List.mem_cons_self e rest)
    have hk2 := him e (List.mem_cons_self e rest)
    rw [List.map_cons, List.nodup_cons] at hnd
    rw [List.foldl_cons]
    have he : (e.1, e.2) = e := rfl
    rw [← he, importCsvRow_accept tr numToStr headerCols delimiter st e.1 e.2 a hb hlen ha hk hk2]
    rw [ih]
    · have hacc : acceptedTxs headerCols delimiter (e :: rest) st.nextId =
          rowTx headerCols delimiter e.2 st.nextId a ::
            acceptedTxs headerCols delimiter rest (st.nextId + 1) := by
        simp [acceptedTxs, ha]
      rw [hacc]
      congr 1
      · rw [List.append_assoc]
        rfl
      · dsimp only
        rw [List.length_cons]
        omega
      · rw [List.map_cons, List.append_assoc]
        rfl
      · rw [List.map_cons, List.append_assoc]
        rfl
      · dsimp only
        rw [List.length_cons]
        omega
    · intro u hu
      exact hv u (List.mem_cons_of_mem e hu)
    · intro u hu
      simp only [List.mem_append, List.mem_singleton]
      rintro (hin | hkeq)
      · exact hex u (List.mem_cons_of_mem e hu) hin
      · exact hnd.1 (hkeq ▸ List.mem_map.mpr ⟨u, hu, rfl⟩)
    · intro u hu
      simp only [List.mem_append, List.mem_singleton]
      rintro (hin | hkeq)
      · exact him u (List.mem_cons_of_mem e hu) hin
      · exact hnd.1 (hkeq ▸ List.mem_map.mpr ⟨u, hu, rfl⟩)
    · exact hnd.2

theorem foldRows_dup (tr : List Char → List Char) (numToStr : ℚ → List Char)
    (headerCols : List (List Char)) (delimiter : Char)
    (rows : List (Nat × List Char)) (st : CsvLoopState)
    (hv : ∀ e ∈ rows, rowValid headerCols delimiter e.2)
    (hdup : ∀ e ∈ rows, rowKeyD numToStr headerCols delimiter e.2 ∈ st.existingKeys) :
    rows.foldl (importCsvRow tr numToStr headerCols delimiter) st =
      { st with
        nextId := st.nextId + rows.length,
        errors := st.errors ++ rows.map (fun e => dupErrorMsg e.1) } := by
  induction rows generalizing st with
  | nil => simp
  | cons e rest ih =>
    obtain ⟨hb, hlen, hsome⟩ := hv e (List.mem_cons_self e rest)
    obtain ⟨a, ha⟩ := Option.isSome_iff_exists.mp hsome
    rw [List.foldl_cons]
    have he : (e.1, e.2) = e := rfl
    rw [← he, importCsvRow_dup tr numToStr headerCols delimiter st e.1 e.2 a hb hlen ha
      (Or.inl (hdup e (List.mem_cons_self e rest)))]
    rw [ih]
    · congr 1
      · dsimp only
        rw [List.length_cons]
        omega
      · rw [List.map_cons, List.append_assoc]
        rfl
    · intro u hu
      exact hv u (List.mem_cons_of_mem e hu)
    · intro u hu
      exact hdup u (List.mem_cons_of_mem e hu)


/-! ## C6 — dedup stability of a double import -/

/-- The loop state after the data-row loop of `importCsv`. -/
def csvFold (tr : List Char → List Char) (numToStr : ℚ → List Char)
    (text : List Char) (store : LocalStore) : CsvLoopState :=
  ((csvLines text).enum.drop 1).foldl
    (importCsvRow tr numToStr (csvHeaderColsOf text)
      (csvDelimiter ((csvLines text).getD 0 [])))
    { items := store.txs, nextId := store.nextId,
      existingKeys := store.txs.map (buildTransactionDedupKey numToStr),
      importedKeys := [], errors := [], importedCount := 0 }

theorem importCsv_eval (tr : List Char → List Char) (numToStr : ℚ → List Char)
    (text : List Char) (store : LocalStore)
    (hlen : ¬ (csvLines text).length < 2)
    (hcols : csvRequired.filter (fun r => ¬ r ∈ csvHeaderColsOf text) = [])
    (hver : ¬ CURRENT_CSV_SCHEMA_VERSION < csvVersionOf text) :
    importCsv tr numToStr text store =
      ({ imported := (csvFold tr numToStr text store).importedCount,
         errors := (csvFold tr numToStr text store).errors },
       { txs := (normalizeLinkedTransactionGraph (csvFold tr numToStr text store).items).1,
         nextId := (csvFold tr numToStr text store).nextId }) := by
  simp only [importCsv, csvFold]
  rw [if_neg hlen, if_neg (by rw [hcols]; exact fun h => h rfl), if_neg hver]

/-- Dedup keys are invariant under the normalizer (it only rewrites link
fields, which the fingerprint does not read). -/
theorem normalize_keys (numToStr : ℚ → List Char) (items : List Txn) :
    ((normalizeLinkedTransactionGraph items).1).map (buildTransactionDedupKey numToStr) =
      items.map (buildTransactionDedupKey numToStr) :=
  LinkUpd.map_link_free (f := buildTransactionDedupKey numToStr)
    (fun _ _ _ => rfl) (normalize_linkUpd items)

/-- C6: importing a generic CSV whose data rows are all valid, mutually
non-duplicate and absent from the store imports every row; importing the
same file again into the resulting store imports nothing and reports every
row as a duplicate. -/
theorem importCsv_dedup_stable (tr : List Char → List Char) (numToStr : ℚ → List Char)
    (text : List Char) (store : LocalStore)
    (hlen : ¬ (csvLines text).length < 2)
    (hcols : csvRequired.filter (fun r => ¬ r ∈ csvHeaderColsOf text) = [])
    (hver : ¬ CURRENT_CSV_SCHEMA_VERSION < csvVersionOf text)
    (hv : ∀ e ∈ (csvLines text).enum.drop 1,
      rowValid (csvHeaderColsOf text) (csvDelimiter ((csvLines text).getD 0 [])) e.2)
    (hnd : (((csvLines text).enum.drop 1).map (fun e =>
      rowKeyD numToStr (csvHeaderColsOf text)
        (csvDelimiter ((csvLines text).getD 0 [])) e.2)).Nodup)
    (hfresh : ∀ e ∈ (csvLines text).enum.drop 1,
      rowKeyD numToStr (csvHeaderColsOf text) (csvDelimiter ((csvLines text).getD 0 [])) e.2
        ∉ store.txs.map (buildTransactionDedupKey numToStr)) :
    (importCsv tr numToStr text store).1.imported = ((csvLines text).enum.drop 1).length ∧
    (importCsv tr numToStr text store).1.errors = [] ∧
    (importCsv tr numToStr text ((importCsv tr numToStr text store).2)).1.imported = 0 ∧
    (importCsv tr numToStr text ((importCsv tr numToStr text store).2)).1.errors =
      ((csvLines text).enum.drop 1).map (fun e => dupErrorMsg e.1) := by
  have hfold1 := foldRows_accept tr numToStr (csvHeaderColsOf text)
    (csvDelimiter ((csvLines text).getD 0 [])) ((csvLines text).enum.drop 1)
    { items := store.txs, nextId := store.nextId,
      existingKeys := store.txs.map (buildTransactionDedupKey numToStr),
      importedKeys := [], errors := [], importedCount := 0 }
    hv (by intro e he; exact hfresh e he) (by intro e he; exact List.not_mem_nil _) hnd
  have h1 := importCsv_eval tr numToStr text store hlen hcols hver
  have hfold1' : csvFold tr numToStr text store =
      { items := store.txs ++ acceptedTxs (csvHeaderColsOf text)
          (csvDelimiter ((csvLines text).getD 0 [])) ((csvLines text).enum.drop 1) store.nextId,
        nextId := store.nextId + ((csvLines text).enum.drop 1).length,
        existingKeys := store.txs.map (buildTransactionDedupKey numToStr) ++
          ((csvLines text).enum.drop 1).map (fun e =>
            rowKeyD numToStr (csvHeaderColsOf text)
              (csvDelimiter ((csvLines text).getD 0 [])) e.2),
        importedKeys := [] ++ ((csvLines text).enum.drop 1).map (fun e =>
          rowKeyD numToStr (csvHeaderColsOf text)
            (csvDelimiter ((csvLines text).getD 0 [])) e.2),
        errors := [],
        importedCount := 0 + ((csvLines text).enum.drop 1).length } := by
    rw [csvFold, hfold1]
  refine ⟨?_, ?_, ?_, ?_⟩
  · rw [h1, hfold1']
    simp
  · rw [h1, hfold1']
  · have h2 := importCsv_eval tr numToStr text (importCsv tr numToStr text store).2
      hlen hcols hver
    rw [h2]
    have hdup : ∀ e ∈ (csvLines text).enum.drop 1,
        rowKeyD numToStr (csvHeaderColsOf text)
          (csvDelimiter ((csvLines text).getD 0 [])) e.2 ∈
        (importCsv tr numToStr text store).2.txs.map (buildTransactionDedupKey numToStr) := by
      intro e he
      rw [h1]
      show _ ∈ ((normalizeLinkedTransactionGraph (csvFold tr numToStr text store).items).1).map
        (buildTransactionDedupKey numToStr)
      rw [normalize_keys, hfold1']
      show _ ∈ (store.txs ++ acceptedTxs _ _ _ _).map (buildTransactionDedupKey numToStr)
      rw [List.map_append, acceptedTxs_keys]
      exact List.mem_append_right _ (List.mem_map.mpr ⟨e, he, rfl⟩)
    have hfold2 := foldRows_dup tr numToStr (csvHeaderColsOf text)
      (csvDelimiter ((csvLines text).getD 0 [])) ((csvLines text).enum.drop 1)
      { items := (importCsv tr numToStr text store).2.txs,
        nextId := (importCsv tr numToStr text store).2.nextId,
        existingKeys := (importCsv tr numToStr text store).2.txs.map
          (buildTransactionDedupKey numToStr),
        importedKeys := [], errors := [], importedCount := 0 }
      hv (by intro e he; exact hdup e he)
    rw [csvFold, hfold2]
  · have h2 := importCsv_eval tr numToStr text (importCsv tr numToStr text store).2
      hlen hcols hver
    rw [h2]
    have hdup : ∀ e ∈ (csvLines text).enum.drop 1,
        rowKeyD numToStr (csvHeaderColsOf text)
          (csvDelimiter ((csvLines text).getD 0 [])) e.2 ∈
        (importCsv tr numToStr text store).2.txs.map (buildTransactionDedupKey numToStr) := by
      intro e he
      rw [h1]
      show _ ∈ ((normalizeLinkedTransactionGraph (csvFold tr numToStr text store).items).1).map
        (buildTransactionDedupKey numToStr)
      rw [normalize_keys, hfold1']
      show _ ∈ (store.txs ++ acceptedTxs _ _ _ _).map (buildTransactionDedupKey numToStr)
      rw [List.map_append, acceptedTxs_keys]
      exact List.mem_append_right _ (List.mem_map.mpr ⟨e, he, rfl⟩)
    have hfold2 := foldRows_dup tr numToStr (csvHeaderColsOf text)
      (csvDelimiter ((csvLines text).getD 0 [])) ((csvLines text).enum.drop 1)
      { items := (importCsv tr numToStr text store).2.txs,
        nextId := (importCsv tr numToStr text store).2.nextId,
        existingKeys := (importCsv tr numToStr text store).2.txs.map
          (buildTransactionDedupKey numToStr),
        importedKeys := [], errors := [], importedCount := 0 }
      hv (by intro e he; exact hdup e he)
    rw [csvFold, hfold2]
    simp


/-- C6 witness: a two-row file imported twice into an empty store — two
imports the first time, zero with two duplicate messages the second. -/
theorem importCsv_dedup_stable_witness :
    (importCsv (fun m => m) (fun _ => [])
      "asset_symbol,tx_type,amount,timestamp\nBTC,buy,1,t1\nETH,sell,2,t2".data
      { txs := [], nextId := 1 }).1.imported =
      ((csvLines "asset_symbol,tx_type,amount,timestamp\nBTC,buy,1,t1\nETH,sell,2,t2".data).enum.drop 1).length ∧
    (importCsv (fun m => m) (fun _ => [])
      "asset_symbol,tx_type,amount,timestamp\nBTC,buy,1,t1\nETH,sell,2,t2".data
      { txs := [], nextId := 1 }).1.errors = [] ∧
    (importCsv (fun m => m) (fun _ => [])
      "asset_symbol,tx_type,amount,timestamp\nBTC,buy,1,t1\nETH,sell,2,t2".data
      ((importCsv (fun m => m) (fun _ => [])
        "asset_symbol,tx_type,amount,timestamp\nBTC,buy,1,t1\nETH,sell,2,t2".data
        { txs := [], nextId := 1 }).2)).1.imported = 0 ∧
    (importCsv (fun m => m) (fun _ => [])
      "asset_symbol,tx_type,amount,timestamp\nBTC,buy,1,t1\nETH,sell,2,t2".data
      ((importCsv (fun m => m) (fun _ => [])
        "asset_symbol,tx_type,amount,timestamp\nBTC,buy,1,t1\nETH,sell,2,t2".data
        { txs := [], nextId := 1 }).2)).1.errors =
      ((csvLines "asset_symbol,tx_type,amount,timestamp\nBTC,buy,1,t1\nETH,sell,2,t2".data).enum.drop 1).map
        (fun e => dupErrorMsg e.1) :=
  importCsv_dedup_stable (fun m => m) (fun _ => [])
    "asset_symbol,tx_type,amount,timestamp\nBTC,buy,1,t1\nETH,sell,2,t2".data
    { txs := [], nextId := 1 }
    (by decide) (by decide) (by decide) (by decide) (by decide) (by decide)


/-! ## `saveTransaction` (dataSource.ts 642–754)

The payload of the save dialog; a `none` id means create.  The four
link-rewiring stages are separate definitions, each mirroring one block of
the source; object mutation through `buildTxIndex`'s map is positional
update through `txIndexGet`. -/

structure SavePayload where
  id : Option Int
  asset_symbol : String
  tx_type : String
  amount : ℚ
  price_fiat : Option ℚ
  fiat_currency : String
  timestamp : String
  source : Option String
  note : Option String
  tx_id : Option String
  linked_tx_prev_id : Option Int
  linked_tx_next_id : Option Int
deriving DecidableEq, Repr

/-- Detach the old prev neighbour if the edited links changed. -/
def saveDetachPrev (items : List Txn) (txId : Int)
    (oldPrevId newPrevId : Option Int) : List Txn :=
  match oldPrevId with
  | some op =>
    if newPrevId ≠ some op then
      match txIndexGet items op with
      | some j =>
        if (getTx items j).linked_tx_next_id = some txId then
          items.set j { getTx items j with linked_tx_next_id := none }
        else items
      | none => items
    else items
  | none => items

/-- Detach the old next neighbour if the edited links changed. -/
def saveDetachNext (items : List Txn) (txId : Int)
    (oldNextId newNextId : Option Int) : List Txn :=
  match oldNextId with
  | some onx =>
    if newNextId ≠ some onx then
      match txIndexGet items onx with
      | some j =>
        if (getTx items j).linked_tx_prev_id = some txId then
          items.set j { getTx items j with linked_tx_prev_id := none }
        else items
      | none => items
    else items
  | none => items

/-- Point the new prev neighbour at the saved transaction, clearing a
displaced 1:1 conflict first. -/
def saveApplyPrev (items : List Txn) (txId : Int) (newPrevId : Option Int) : List Txn :=
  match newPrevId with
  | some np =>
    match txIndexGet items np with
    | some j =>
      let prevTx := getTx items j
      let displacedNext := sanitizeLinkedTxId prevTx.linked_tx_next_id
      let items1 :=
        match displacedNext with
        | some dn =>
          if dn ≠ txId then
            match txIndexGet items dn with
            | some k =>
              if (getTx items k).linked_tx_prev_id = some np then
                items.set k { getTx items k with linked_tx_prev_id := none }
              else items
            | none => items
          else items
        | none => items
      items1.set j { getTx items1 j with linked_tx_next_id := some txId }
    | none => items
  | none => items

/-- Point the new next neighbour at the saved transaction, clearing a
displaced 1:1 conflict first. -/
def saveApplyNext (items : List Txn) (txId : Int) (newNextId : Option Int) : List Txn :=
  match newNextId with
  | some nn =>
    match txIndexGet items nn with
    | some j =>
      let nextTx := getTx items j
      let displacedPrev := sanitizeLinkedTxId nextTx.linked_tx_prev_id
      let items1 :=
        match displacedPrev with
        | some dp =>
          if dp ≠ txId then
            match txIndexGet items dp with
            | some k =>
              if (getTx items k).linked_tx_next_id = some nn then
                items.set k { getTx items k with linked_tx_next_id := none }
              else items
            | none => items
          else items
        | none => items
      items1.set j { getTx items1 j with linked_tx_prev_id := some txId }
    | none => items
  | none => items

/-- The saved record: every field is assigned; `value_eur`/`value_usd` are
carried over from an existing record. -/
def saveMerged (payload : SavePayload) (txId : Int) (existing : Option Txn) : Txn :=
  { id := txId,
    asset_symbol := payload.asset_symbol,
    tx_type := payload.tx_type,
    amount := payload.amount,
    price_fiat := payload.price_fiat,
    fiat_currency := payload.fiat_currency,
    timestamp := payload.timestamp,
    source := payload.source,
    note := payload.note,
    tx_id := payload.tx_id,
    fiat_value := payload.price_fiat.map (fun p => jmul p payload.amount),
    value_eur := match existing with | some e => e.value_eur | none => none,
    value_usd := match existing with | some e => e.value_usd | none => none,
    linked_tx_prev_id := sanitizeLinkedTxId payload.linked_tx_prev_id,
    linked_tx_next_id := sanitizeLinkedTxId payload.linked_tx_next_id }

/-- `isEdit ? payload.id : getNextLocalId()`. -/
def saveTxId (payload : SavePayload) (store : LocalStore) : Int :=
  match payload.id with | some i => i | none => store.nextId

/-- `items.findIndex((tx) => tx.id === txId)` (first match). -/
def saveIndex (payload : SavePayload) (store : LocalStore) : Option Nat :=
  store.txs.findIdx? (fun tx => decide (tx.id = saveTxId payload store))

def saveExisting (payload : SavePayload) (store : LocalStore) : Option Txn :=
  (saveIndex payload store).map (fun i => getTx store.txs i)

/-- After the old-prev detach. -/
def saveS1 (payload : SavePayload) (store : LocalStore) : List Txn :=
  saveDetachPrev store.txs (saveTxId payload store)
    (match saveExisting payload store with
     | some e => sanitizeLinkedTxId e.linked_tx_prev_id
     | none => none)
    (sanitizeLinkedTxId payload.linked_tx_prev_id)

/-- After the old-next detach. -/
def saveS2 (payload : SavePayload) (store : LocalStore) : List Txn :=
  saveDetachNext (saveS1 payload store) (saveTxId payload store)
    (match saveExisting payload store with
     | some e => sanitizeLinkedTxId e.linked_tx_next_id
     | none => none)
    (sanitizeLinkedTxId payload.linked_tx_next_id)

/-- After the merged record is written (in place on an edit, appended on a
create). -/
def saveS3 (payload : SavePayload) (store : LocalStore) : List Txn :=
  match saveIndex payload store with
  | some i => (saveS2 payload store).set i
      (saveMerged payload (saveTxId payload store) (saveExisting payload store))
  | none => saveS2 payload store ++
      [saveMerged payload (saveTxId payload store) (saveExisting payload store)]

/-- After the forward links are applied to both neighbours. -/
def saveS5 (payload : SavePayload) (store : LocalStore) : List Txn :=
  saveApplyNext
    (saveApplyPrev (saveS3 payload store) (saveTxId payload store)
      (sanitizeLinkedTxId payload.linked_tx_prev_id))
    (saveTxId payload store)
    (sanitizeLinkedTxId payload.linked_tx_next_id)

def saveTransaction (payload : SavePayload) (store : LocalStore) : LocalStore :=
  { txs := (normalizeLinkedTransactionGraph (saveS5 payload store)).1,
    nextId := match payload.id with | some _ => store.nextId | none => store.nextId + 1 }

/-! Link-update facts for the rewiring stages. -/

theorem LinkUpd.set_prev {l l' : List Txn} (h : LinkUpd l l') (j : Nat) (p : Option Int) :
    LinkUpd l (l'.set j { getTx l' j with linked_tx_prev_id := p }) := by
  have he : { getTx l' j with linked_tx_prev_id := p } =
      setLinks (getTx l' j) p ((getTx l' j).linked_tx_next_id) := rfl
  rw [he]
  exact LinkUpd.set h j p _

theorem LinkUpd.set_next {l l' : List Txn} (h : LinkUpd l l') (j : Nat) (n : Option Int) :
    LinkUpd l (l'.set j { getTx l' j with linked_tx_next_id := n }) := by
  have he : { getTx l' j with linked_tx_next_id := n } =
      setLinks (getTx l' j) ((getTx l' j).linked_tx_prev_id) n := rfl
  rw [he]
  exact LinkUpd.set h j _ n

theorem linkUpd_saveDetachPrev (items : List Txn) (txId : Int)
    (oldPrevId newPrevId : Option Int) :
    LinkUpd items (saveDetachPrev items txId oldPrevId newPrevId) := by
  rw [saveDetachPrev.eq_def]
  repeat' split
  all_goals first
    | exact LinkUpd.refl items
    | exact LinkUpd.set_next (LinkUpd.refl items) _ none

theorem linkUpd_saveDetachNext (items : List Txn) (txId : Int)
    (oldNextId newNextId : Option Int) :
    LinkUpd items (saveDetachNext items txId oldNextId newNextId) := by
  rw [saveDetachNext.eq_def]
  repeat' split
  all_goals first
    | exact LinkUpd.refl items
    | exact LinkUpd.set_prev (LinkUpd.refl items) _ none

theorem linkUpd_saveApplyPrev (items : List Txn) (txId : Int) (newPrevId : Option Int) :
    LinkUpd items (saveApplyPrev items txId newPrevId) := by
  rw [saveApplyPrev.eq_def]
  dsimp only
  repeat' split
  all_goals first
    | exact LinkUpd.refl items
    | exact LinkUpd.set_next (LinkUpd.refl items) _ _
    | exact LinkUpd.set_next (LinkUpd.set_prev (LinkUpd.refl items) _ none) _ _

theorem linkUpd_saveApplyNext (items : List Txn) (txId : Int) (newNextId : Option Int) :
    LinkUpd items (saveApplyNext items txId newNextId) := by
  rw [saveApplyNext.eq_def]
  dsimp only
  repeat' split
  all_goals first
    | exact LinkUpd.refl items
    | exact LinkUpd.set_prev (LinkUpd.refl items) _ _
    | exact LinkUpd.set_prev (LinkUpd.set_next (LinkUpd.refl items) _ none) _ _


/-! ## C5 — timestamps are stored verbatim, never validated -/

theorem mem_strip_of_linkUpd {l l' : List Txn} (h : LinkUpd l l') {t : Txn} (ht : t ∈ l) :
    ∃ u ∈ l', setLinks u none none = setLinks t none none := by
  have hm := LinkUpd.map_link_free (f := fun tx => setLinks tx none none)
    (fun _ _ _ => rfl) h
  have hmem : setLinks t none none ∈ l'.map (fun tx => setLinks tx none none) := by
    rw [hm]
    exact List.mem_map_of_mem _ ht
  obtain ⟨u, hu, he⟩ := List.mem_map.mp hmem
  exact ⟨u, hu, he⟩

theorem acceptedTxs_timestamp (headerCols : List (List Char)) (delimiter : Char)
    (rows : List (Nat × List Char)) (startId : Int) {e : Nat × List Char} (he : e ∈ rows) :
    ∃ t ∈ acceptedTxs headerCols delimiter rows startId,
      t.timestamp = String.mk (rowRecord headerCols delimiter e.2 "timestamp".data) := by
  induction rows generalizing startId with
  | nil => exact absurd he (List.not_mem_nil e)
  | cons x rest ih =>
    rcases List.mem_cons.mp he with rfl | hrest
    · refine ⟨rowTx headerCols delimiter e.2 startId
        ((rowAmount headerCols delimiter e.2).getD (mkRat 0 1)), ?_, rfl⟩
      rw [acceptedTxs]
      exact List.mem_cons_self _ _
    · obtain ⟨t, ht, hts⟩ := ih (startId + 1) hrest
      refine ⟨t, ?_, hts⟩
      rw [acceptedTxs]
      exact List.mem_cons_of_mem _ ht

theorem saveS2_length (payload : SavePayload) (store : LocalStore) :
    (saveS2 payload store).length = store.txs.length := by
  rw [saveS2, (linkUpd_saveDetachNext (saveS1 payload store) _ _ _).length_eq,
    saveS1, (linkUpd_saveDetachPrev store.txs _ _ _).length_eq]

theorem merged_mem_saveS3 (payload : SavePayload) (store : LocalStore) :
    saveMerged payload (saveTxId payload store) (saveExisting payload store) ∈
      saveS3 payload store := by
  rcases hidx : saveIndex payload store with _ | i
  · rw [saveS3, hidx]
    exact List.mem_append_right _ (List.mem_singleton_self _)
  · rw [saveS3, hidx]
    have hi : i < store.txs.length :=
      (List.findIdx?_eq_some_iff_findIdx_eq.mp hidx).1
    have hi2 : i < (saveS2 payload store).length := by
      rw [saveS2_length]
      exact hi
    refine List.mem_iff_getElem.mpr ⟨i, by simpa using hi2, ?_⟩
    rw [List.getElem_set]
    simp

theorem linkUpd_saveS3_final (payload : SavePayload) (store : LocalStore) :
    LinkUpd (saveS3 payload store) (saveTransaction payload store).txs := by
  rw [saveTransaction]
  refine LinkUpd.trans ?_ (normalize_linkUpd (saveS5 payload store))
  rw [saveS5]
  exact LinkUpd.trans
    (linkUpd_saveApplyPrev (saveS3 payload store) _ _)
    (linkUpd_saveApplyNext _ _ _)

/-- C5 counterexample: `importCsv` imports and persists a row whose
timestamp field is `not-a-timestamp`, which no ISO-8601 reading accepts. -/
theorem importCsv_stores_ill_formed_timestamp :
    (importCsv (fun m => m) (fun _ => [])
      "asset_symbol,tx_type,amount,timestamp\nETH,sell,2,not-a-timestamp".data
      { txs := [], nextId := 1 }).1.imported = 1 ∧
    ∃ tx ∈ (importCsv (fun m => m) (fun _ => [])
      "asset_symbol,tx_type,amount,timestamp\nETH,sell,2,not-a-timestamp".data
      { txs := [], nextId := 1 }).2.txs, tx.timestamp = "not-a-timestamp" := by decide

/-- C5: no timestamp validation happens on the generic store paths: under
the import loop's acceptance hypotheses — none of which mention the
timestamp field — every data row's raw timestamp string is persisted
verbatim, and `saveTransaction` always persists a transaction carrying
`payload.timestamp` verbatim, for every payload and store. -/
theorem store_paths_keep_timestamps_verbatim (tr : List Char → List Char)
    (numToStr : ℚ → List Char) (text : List Char) (store : LocalStore)
    (hlen : ¬ (csvLines text).length < 2)
    (hcols : csvRequired.filter (fun r => ¬ r ∈ csvHeaderColsOf text) = [])
    (hver : ¬ CURRENT_CSV_SCHEMA_VERSION < csvVersionOf text)
    (hv : ∀ e ∈ (csvLines text).enum.drop 1,
      rowValid (csvHeaderColsOf text) (csvDelimiter ((csvLines text).getD 0 [])) e.2)
    (hnd : (((csvLines text).enum.drop 1).map (fun e =>
      rowKeyD numToStr (csvHeaderColsOf text)
        (csvDelimiter ((csvLines text).getD 0 [])) e.2)).Nodup)
    (hfresh : ∀ e ∈ (csvLines text).enum.drop 1,
      rowKeyD numToStr (csvHeaderColsOf text) (csvDelimiter ((csvLines text).getD 0 [])) e.2
        ∉ store.txs.map (buildTransactionDedupKey numToStr)) :
    (∀ e ∈ (csvLines text).enum.drop 1,
      ∃ tx ∈ (importCsv tr numToStr text store).2.txs,
        tx.timestamp = String.mk (rowRecord (csvHeaderColsOf text)
          (csvDelimiter ((csvLines text).getD 0 [])) e.2 "timestamp".data)) ∧
    (∀ (payload : SavePayload) (store2 : LocalStore),
      ∃ tx ∈ (saveTransaction payload store2).txs,
        tx.timestamp = payload.timestamp) := by
  constructor
  · intro e he
    have hfold1 := foldRows_accept tr numToStr (csvHeaderColsOf text)
      (csvDelimiter ((csvLines text).getD 0 [])) ((csvLines text).enum.drop 1)
      { items := store.txs, nextId := store.nextId,
        existingKeys := store.txs.map (buildTransactionDedupKey numToStr),
        importedKeys := [], errors := [], importedCount := 0 }
      hv (by intro u hu; exact hfresh u hu) (by intro u hu; exact List.not_mem_nil _) hnd
    have h1 := importCsv_eval tr numToStr text store hlen hcols hver
    obtain ⟨t, ht, hts⟩ := acceptedTxs_timestamp (csvHeaderColsOf text)
      (csvDelimiter ((csvLines text).getD 0 [])) ((csvLines text).enum.drop 1)
      store.nextId he
    have htmem : t ∈ (csvFold tr numToStr text store).items := by
      rw [csvFold, hfold1]
      exact List.mem_append_right _ ht
    obtain ⟨u, hu, hstrip⟩ := mem_strip_of_linkUpd
      (normalize_linkUpd (csvFold tr numToStr text store).items) htmem
    refine ⟨u, ?_, ?_⟩
    · rw [h1]
      exact hu
    · have hut := congrArg Txn.timestamp hstrip
      exact hut.trans hts
  · intro payload store2
    obtain ⟨u, hu, hstrip⟩ := mem_strip_of_linkUpd
      (linkUpd_saveS3_final payload store2) (merged_mem_saveS3 payload store2)
    refine ⟨u, hu, ?_⟩
    have h2 := congrArg Txn.timestamp hstrip
    exact h2

/-- C5 witness: the theorem instantiated at a one-row file whose timestamp
field is the ill-formed `not-a-timestamp`, imported into the empty store. -/
theorem store_paths_keep_timestamps_verbatim_witness :
    (∀ e ∈ (csvLines "asset_symbol,tx_type,amount,timestamp\nETH,sell,2,not-a-timestamp".data).enum.drop 1,
      ∃ tx ∈ (importCsv (fun m => m) (fun _ => [])
        "asset_symbol,tx_type,amount,timestamp\nETH,sell,2,not-a-timestamp".data
        { txs := [], nextId := 1 }).2.txs,
        tx.timestamp = String.mk (rowRecord
          (csvHeaderColsOf "asset_symbol,tx_type,amount,timestamp\nETH,sell,2,not-a-timestamp".data)
          (csvDelimiter ((csvLines "asset_symbol,tx_type,amount,timestamp\nETH,sell,2,not-a-timestamp".data).getD 0 []))
          e.2 "timestamp".data)) ∧
    (∀ (payload : SavePayload) (store2 : LocalStore),
      ∃ tx ∈ (saveTransaction payload store2).txs,
        tx.timestamp = payload.timestamp) :=
  store_paths_keep_timestamps_verbatim (fun m => m) (fun _ => [])
    "asset_symbol,tx_type,amount,timestamp\nETH,sell,2,not-a-timestamp".data
    { txs := [], nextId := 1 }
    (by decide) (by decide) (by decide) (by decide) (by decide) (by decide)


/-! ## `mergeBitpandaInternalTransfers` (dataSource.ts 1239–1410)

`new Date(ts).getTime()` is the host date parser, passed in as
`dm : String → Option Int` (`none` = `NaN`); the template interpolation of
numbers into note strings is the `numToStr` parameter.  The group map keyed
by `symbol + "|" + amount` is an insertion-ordered association list keyed by
the pair (`String(x)` is injective on finite numbers). -/

/-- Membership test of the grouping branch: a Bitpanda transfer leg. -/
def bitpandaLeg (tx : Txn) : Bool :=
  jsToUpperCase (tx.source.getD "") = "BITPANDA" &&
    (jsToUpperCase tx.tx_type = "TRANSFER_IN" || jsToUpperCase tx.tx_type = "TRANSFER_OUT")

def legKey (tx : Txn) : String × ℚ :=
  (jsToUpperCase tx.asset_symbol, jabs tx.amount)

def groupUpsert : List ((String × ℚ) × List Txn) → (String × ℚ) → Txn →
    List ((String × ℚ) × List Txn)
  | [], k, tx => [(k, [tx])]
  | (k0, g) :: rest, k, tx =>
    if k0 = k then (k0, g ++ [tx]) :: rest else (k0, g) :: groupUpsert rest k tx

/-- The first loop: non-legs go to `remaining`, legs are grouped. -/
def mergerPartition (transactions : List Txn) :
    List Txn × List ((String × ℚ) × List Txn) :=
  transactions.foldl (fun acc tx =>
    if bitpandaLeg tx then (acc.1, groupUpsert acc.2 (legKey tx) tx)
    else (acc.1 ++ [tx], acc.2)) ([], [])

/-- `a.timestamp ? new Date(a.timestamp).getTime() : 0`, `NaN` collapsed
to 0. -/
def safeTime (dm : String → Option Int) (tx : Txn) : Int :=
  if tx.timestamp = "" then 0 else (dm tx.timestamp).getD 0

/-- The inner best-partner search from index `i + 1`: nearest opposite leg
within 60 000 ms, the earliest among ties. -/
def bestMatch (dm : String → Option Int) (a : Txn) (rest : List Txn) : Option Nat :=
  ((rest.enum.foldl (fun (best : Option (Nat × Nat)) e =>
    let typeB := jsToUpperCase e.2.tx_type
    let isOpposite :=
      (jsToUpperCase a.tx_type = "TRANSFER_IN" ∧ typeB = "TRANSFER_OUT") ∨
      (jsToUpperCase a.tx_type = "TRANSFER_OUT" ∧ typeB = "TRANSFER_IN")
    if isOpposite then
      let delta := (safeTime dm e.2 - safeTime dm a).natAbs
      if delta ≤ 60000 && (match best with
        | none => true
        | some bd => decide (delta < bd.2)) then some (e.1, delta) else best
    else best) none)).map Prod.fst

/-- The merged record of a matched pair (dataSource.ts 1325–1404): the
`TRANSFER_OUT` leg is the base, the note is synthesized, the external id is
cleared. -/
def mergedTx (dm : String → Option Int) (numToStr : ℚ → List Char) (a b : Txn) : Txn :=
  let typeA := jsToUpperCase a.tx_type
  let base := if typeA = "TRANSFER_OUT" then a else b
  let noteParts : List String :=
    (match a.note with
     | some na => if na ≠ "" then [na] else []
     | none => []) ++
    (match b.note with
     | some nb => if nb ≠ "" ∧ b.note ≠ a.note then [nb] else []
     | none => [])
  let combinedNote : Option (List Char) :=
    if noteParts ≠ [] then
      some (List.intercalate " | ".data (noteParts.map String.data))
    else none
  let symbol := jsToUpperCase base.asset_symbol
  let amountCandidate := if a.amount ≠ mkRat 0 1 then a.amount else b.amount
  let amountAbs := jabs amountCandidate
  let noteSource :=
    (((a.note.getD "").data ++ ' ' :: (b.note.getD "").data).map Char.toLower)
  let isStakeIn : Bool := decide ("transfer(stake".data <:+: noteSource)
  let isStakeOut : Bool := decide ("transfer(unstake".data <:+: noteSource)
  let isStakeGeneric : Bool := !isStakeIn && !isStakeOut && decide ("staking".data <:+: noteSource)
  let isStakeLike : Bool := isStakeIn || isStakeOut || isStakeGeneric
  let earlierIsA := safeTime dm a ≤ safeTime dm b
  let earlierTx := if earlierIsA then a else b
  let earlierType := jsToUpperCase earlierTx.tx_type
  let directionLabel : Option (List Char) :=
    if earlierType = "TRANSFER_OUT" then some "OUT".data
    else if earlierType = "TRANSFER_IN" then some "IN".data
    else none
  let extraNote : Option (List Char) :=
    if isStakeLike then
      some (if isStakeOut then "Internal unstaking transfer".data
        else "Internal staking transfer".data)
    else if jlt (mkRat 0 1) amountAbs ∧ symbol ≠ "" then
      some (match directionLabel with
        | some dl => "Internal transfer ".data ++ dl ++ ' ' :: numToStr amountAbs
            ++ ' ' :: symbol.data
        | none => "Internal transfer ".data ++ numToStr amountAbs ++ ' ' :: symbol.data)
    else none
  let finalNote0 : Option (List Char) :=
    if isStakeLike then extraNote
    else match extraNote with
      | some en => some (match combinedNote with
        | some cn => cn ++ " | ".data ++ en
        | none => en)
      | none => combinedNote
  let finalNote : Option (List Char) :=
    match finalNote0 with
    | some (c :: restn) =>
      if Char.toUpper c ≠ c then some (Char.toUpper c :: restn) else some (c :: restn)
    | other => other
  { base with
    tx_type := "TRANSFER_INTERNAL",
    amount := amountAbs,
    note := finalNote.map String.mk,
    tx_id := none }

/-- The greedy matching loop over one sorted pool: a matched partner is
consumed (the `used` set); unmatched entries pass through in order. -/
def mergePool (dm : String → Option Int) (numToStr : ℚ → List Char) :
    List Txn → List Txn × List Txn
  | [] => ([], [])
  | a :: rest =>
    let typeA := jsToUpperCase a.tx_type
    if typeA ≠ "TRANSFER_IN" ∧ typeA ≠ "TRANSFER_OUT" then
      let rm := mergePool dm numToStr rest
      (a :: rm.1, rm.2)
    else
      match bestMatch dm a rest with
      | none =>
        let rm := mergePool dm numToStr rest
        (a :: rm.1, rm.2)
      | some j =>
        let b := rest.getD j default
        let rm := mergePool dm numToStr (rest.eraseIdx j)
        (rm.1, mergedTx dm numToStr a b :: rm.2)
termination_by l => l.length
decreasing_by
  · simp
  · simp only [List.length_cons]
    exact Nat.lt_succ_of_le (List.length_eraseIdx_le _ _)

def mergeBitpandaInternalTransfers (dm : String → Option Int) (numToStr : ℚ → List Char)
    (transactions : List Txn) : List Txn :=
  let part := mergerPartition transactions
  let processed := part.2.foldl (fun acc g =>
    let pool := List.insertionSort (fun x y => safeTime dm x ≤ safeTime dm y) g.2
    let rm := mergePool dm numToStr pool
    (acc.1 ++ rm.1, acc.2 ++ rm.2)) (part.1, ([] : List Txn))
  processed.1 ++ processed.2


/-! ## C7 — the 60-second transfer-merge window -/

/-- C7: two opposite-direction Bitpanda transfer legs with the same grouping
key — in either direction-time configuration: the `TRANSFER_OUT` or the
`TRANSFER_IN` leg may be the earlier one (`A` is the leg whose parsed time
`ta` is not after `tb`), and the legs may arrive in either input order —
merge when their timestamps are at most 60 s apart (e.g. 59 s) into the
single `mergedTx` record: `TRANSFER_INTERNAL`, positive absolute amount,
external id cleared; more than 60 s apart (e.g. 61 s) both legs pass
through unmerged. -/
theorem mergeBitpanda_window (dm : String → Option Int) (numToStr : ℚ → List Char)
    (A B : Txn) (ta tb : Int)
    (hsrcA : jsToUpperCase (A.source.getD "") = "BITPANDA")
    (hsrcB : jsToUpperCase (B.source.getD "") = "BITPANDA")
    (hdir : (jsToUpperCase A.tx_type = "TRANSFER_OUT" ∧
        jsToUpperCase B.tx_type = "TRANSFER_IN") ∨
      (jsToUpperCase A.tx_type = "TRANSFER_IN" ∧
        jsToUpperCase B.tx_type = "TRANSFER_OUT"))
    (hkey : legKey A = legKey B)
    (htsA : A.timestamp ≠ "") (htsB : B.timestamp ≠ "")
    (hdA : dm A.timestamp = some ta) (hdB : dm B.timestamp = some tb)
    (hord : ta ≤ tb) (h0 : A.amount ≠ mkRat 0 1) :
    (tb - ta ≤ 60000 →
      mergeBitpandaInternalTransfers dm numToStr [A, B] = [mergedTx dm numToStr A B] ∧
      (mergedTx dm numToStr A B).tx_type = "TRANSFER_INTERNAL" ∧
      (mergedTx dm numToStr A B).tx_id = none ∧
      (mergedTx dm numToStr A B).amount = jabs A.amount ∧
      jlt (mkRat 0 1) ((mergedTx dm numToStr A B).amount) = true) ∧
    (60000 < tb - ta →
      mergeBitpandaInternalTransfers dm numToStr [A, B] = [A, B]) ∧
    (ta < tb → tb - ta ≤ 60000 →
      mergeBitpandaInternalTransfers dm numToStr [B, A] = [mergedTx dm numToStr A B]) ∧
    (ta < tb → 60000 < tb - ta →
      mergeBitpandaInternalTransfers dm numToStr [B, A] = [A, B]) := by
  rcases hdir with ⟨htA, htB⟩ | ⟨htA, htB⟩
  all_goals
    have hlegA : bitpandaLeg A = true := by
      simp [bitpandaLeg, hsrcA, htA]
    have hlegB : bitpandaLeg B = true := by
      simp [bitpandaLeg, hsrcB, htB]
    have hsA : safeTime dm A = ta := by
      simp [safeTime, htsA, hdA]
    have hsB : safeTime dm B = tb := by
      simp [safeTime, htsB, hdB]
    have hpart : mergerPartition [A, B] = ([], [(legKey B, [A, B])]) := by
      simp [mergerPartition, hlegA, hlegB, groupUpsert, hkey]
    have hpart2 : mergerPartition [B, A] = ([], [(legKey B, [B, A])]) := by
      simp [mergerPartition, hlegA, hlegB, groupUpsert, hkey]
    have hsort : List.insertionSort (fun x y => safeTime dm x ≤ safeTime dm y) [A, B]
        = [A, B] := by
      simp [List.insertionSort, List.orderedInsert, hsA, hsB, hord]
    have hamt : (mergedTx dm numToStr A B).amount = jabs A.amount := by
      show jabs (if A.amount ≠ mkRat 0 1 then A.amount else B.amount) = jabs A.amount
      rw [if_pos h0]
    refine ⟨?_, ?_, ?_, ?_⟩
    · intro hnear
      have hd1 : (tb - ta).natAbs ≤ 60000 := by omega
      have hbm : bestMatch dm A [B] = some 0 := by
        simp [bestMatch, htA, htB, hsA, hsB, hd1]
      have hmp : mergePool dm numToStr [A, B] = ([], [mergedTx dm numToStr A B]) := by
        rw [mergePool]
        simp [htA, hbm, mergePool]
      refine ⟨?_, rfl, rfl, hamt, ?_⟩
      · simp [mergeBitpandaInternalTransfers, hpart, hsort, hmp, hsA, hsB, hord]
      · rw [hamt]
        refine (jlt_iff _ _).mpr ?_
        rw [jabs_eq, mkRat_zero_one]
        refine abs_pos.mpr ?_
        intro hz
        exact h0 (by rw [hz, mkRat_zero_one])
    · intro hfar
      have hd2 : ¬ (tb - ta).natAbs ≤ 60000 := by omega
      have hbm2 : bestMatch dm A [B] = none := by
        simp [bestMatch, htA, htB, hsA, hsB, hd2]
      have hbm3 : bestMatch dm B [] = none := by
        simp [bestMatch]
      have hmp : mergePool dm numToStr [A, B] = ([A, B], []) := by
        rw [mergePool]
        simp [htA, htB, hbm2, hbm3, mergePool]
      simp [mergeBitpandaInternalTransfers, hpart, hsort, hmp, hsA, hsB, hord]
    · intro hlt hnear
      have hnle : ¬ tb ≤ ta := not_le.mpr hlt
      have hd1 : (tb - ta).natAbs ≤ 60000 := by omega
      have hbm : bestMatch dm A [B] = some 0 := by
        simp [bestMatch, htA, htB, hsA, hsB, hd1]
      have hmp : mergePool dm numToStr [A, B] = ([], [mergedTx dm numToStr A B]) := by
        rw [mergePool]
        simp [htA, hbm, mergePool]
      simp [mergeBitpandaInternalTransfers, hpart2, hmp, hsA, hsB, hnle]
    · intro hlt hfar
      have hnle : ¬ tb ≤ ta := not_le.mpr hlt
      have hd2 : ¬ (tb - ta).natAbs ≤ 60000 := by omega
      have hbm2 : bestMatch dm A [B] = none := by
        simp [bestMatch, htA, htB, hsA, hsB, hd2]
      have hbm3 : bestMatch dm B [] = none := by
        simp [bestMatch]
      have hmp : mergePool dm numToStr [A, B] = ([A, B], []) := by
        rw [mergePool]
        simp [htA, htB, hbm2, hbm3, mergePool]
      simp [mergeBitpandaInternalTransfers, hpart2, hmp, hsA, hsB, hnle]


/-- Concrete Bitpanda legs 59 s apart for the window witness: the
`TRANSFER_IN` leg is the earlier one, so the witness exercises the
scan-from-the-IN-leg configuration. -/
def bpIn : Txn :=
  { mkHoldTxn "BTC" "TRANSFER_IN" (mkRat 1 2) with
    source := some "bitpanda", timestamp := "t1" }

def bpOut : Txn :=
  { mkHoldTxn "BTC" "TRANSFER_OUT" (jneg (mkRat 1 2)) with
    source := some "Bitpanda", timestamp := "t2" }

def bpClock : String → Option Int :=
  fun s => if s = "t1" then some 0 else if s = "t2" then some 59000 else none

/-- C7 witness: the window theorem at two concrete legs 59 s apart with the
`TRANSFER_IN` leg earlier, for both input orders. -/
theorem mergeBitpanda_window_witness :
    ((59000 : Int) - 0 ≤ 60000 →
      mergeBitpandaInternalTransfers bpClock (fun _ => []) [bpIn, bpOut] =
        [mergedTx bpClock (fun _ => []) bpIn bpOut] ∧
      (mergedTx bpClock (fun _ => []) bpIn bpOut).tx_type = "TRANSFER_INTERNAL" ∧
      (mergedTx bpClock (fun _ => []) bpIn bpOut).tx_id = none ∧
      (mergedTx bpClock (fun _ => []) bpIn bpOut).amount = jabs bpIn.amount ∧
      jlt (mkRat 0 1) ((mergedTx bpClock (fun _ => []) bpIn bpOut).amount) = true) ∧
    ((60000 : Int) < 59000 - 0 →
      mergeBitpandaInternalTransfers bpClock (fun _ => []) [bpIn, bpOut] = [bpIn, bpOut]) ∧
    ((0 : Int) < 59000 → (59000 : Int) - 0 ≤ 60000 →
      mergeBitpandaInternalTransfers bpClock (fun _ => []) [bpOut, bpIn] =
        [mergedTx bpClock (fun _ => []) bpIn bpOut]) ∧
    ((0 : Int) < 59000 → (60000 : Int) < 59000 - 0 →
      mergeBitpandaInternalTransfers bpClock (fun _ => []) [bpOut, bpIn] = [bpIn, bpOut]) :=
  mergeBitpanda_window bpClock (fun _ => []) bpIn bpOut 0 59000
    (by decide) (by decide) (by decide) (by decide) (by decide) (by decide)
    (by decide) (by decide) (by decide) (by decide)

end Traeky
